import Mathlib

/-!
# GridTools: stencil-graph linearization and GCL packing kernels

A shallow embedding of

* `include/stencil-composition/linearize_mss_functions.hpp`
  (`_impl::linearize_esf_array`, `mss_descriptor_linear_esf_sequence`,
  `sequence_of_is_independent_esf`),
* `include/stencil-composition/make_stencils_cxx11.hpp` (`make_independent`),
* `include/gridtools/gcl/high_level/m_packXL.hpp` (`m_packXLKernel`, `m_packXL`),
* `include/communication/high-level/m_packZU.hpp` (`m_packZUKernel`, `m_packZU`),

followed by the properties proved about them.

Conventions.

* Compile-time `boost::mpl` sequences are Lean lists and a metafunction is a Lean
  function on them.  A placeholder expression `push_into<_1, X>` handed to
  `boost::mpl::fold` is applied to (state, element) by substituting the state
  for `_1` and the element for `_2`; an `X` that is not a placeholder stays as
  it is.
* C `int` values are mathematical integers (`Int`): signed overflow is undefined
  behaviour in C, so every statement below is about executions in which no `int`
  expression overflows.  `/` on `int` is `Int.tdiv` (truncation).
* A kernel launch is the list of the stores its threads perform; the message
  buffers after a host routine are obtained by performing the stores in list
  order.  Where a statement is about the final buffer contents, the stores that
  address the cell all carry the same value, so the order is immaterial.
-/

set_option autoImplicit false

namespace GridTools

/-! ## Part 1: the stencil graph and its linearization -/

/-- An ESF descriptor: either a plain elementary stencil function (identified by
a value of `α`) or `independent_esf<Seq>`, a group wrapping a sequence of ESF
descriptors (groups may nest). -/
inductive EsfDescr (α : Type) where
  | esf : α → EsfDescr α
  | independent_esf : List (EsfDescr α) → EsfDescr α
  deriving Repr

/-- The types that occur as elements of the `boost::mpl` vectors built by
`linearize_esf_array`: ESF descriptors, `boost::false_type`, `boost::true_type`. -/
inductive MplType (α : Type) where
  | descr : EsfDescr α → MplType α
  | false_type : MplType α
  | true_type : MplType α
  deriving Repr

/-- The second template argument of the lambda expression `push_into<_1, Push>`:
the placeholder `boost::mpl::_2` (as passed by
`mss_descriptor_linear_esf_sequence`) or one of the two boolean types (as passed
by `sequence_of_is_independent_esf`). -/
inductive PushArg where
  | arg2 : PushArg
  | false_type : PushArg
  | true_type : PushArg
  deriving Repr, DecidableEq

/-- What `boost::mpl::fold` substitutes for the second argument of
`push_into<_1, Push>` when it visits the element `e`: the placeholder `_2` is
replaced by the element, every other type is left as it is. -/
def PushArg.subst {α : Type} : PushArg → EsfDescr α → MplType α
  | .arg2, e => .descr e
  | .false_type, _ => .false_type
  | .true_type, _ => .true_type

mutual
/-- The member metafunction `linearize_esf_array::push_into<Vector, Element>`.
The partial specialization for `Element = independent_esf<Independents>` is
`fold<Independents, Vector, push_into<_1, PushIndependent>>`; the primary
template is `push_back<Vector, Element>`. -/
def push_into {α : Type} (PushIndependent : PushArg) :
    List (MplType α) → MplType α → List (MplType α)
  | v, .descr (.independent_esf independents) =>
      fold_push_into PushIndependent independents v
  | v, element => v ++ [element]
termination_by _ element => sizeOf element
decreasing_by
  simp only [MplType.descr.sizeOf_spec, EsfDescr.independent_esf.sizeOf_spec]
  omega
/-- The inner `boost::mpl::fold<Independents, Vector, push_into<_1, PushIndependent>>`. -/
def fold_push_into {α : Type} (PushIndependent : PushArg) :
    List (EsfDescr α) → List (MplType α) → List (MplType α)
  | [], v => v
  | e :: es, v =>
      fold_push_into PushIndependent es (push_into PushIndependent v (PushIndependent.subst e))
termination_by l _ => sizeOf l + 1
decreasing_by
  all_goals
    have h1 : sizeOf (PushIndependent.subst e) ≤ sizeOf e + 1 := by
      cases PushIndependent
      · simp only [PushArg.subst, MplType.descr.sizeOf_spec]; omega
      · simp [PushArg.subst]
      · simp [PushArg.subst]
    have h2 : 0 < sizeOf e := by
      cases e
      · simp only [EsfDescr.esf.sizeOf_spec]; omega
      · simp only [EsfDescr.independent_esf.sizeOf_spec]; omega
    simp only [List.cons.sizeOf_spec]
    omega
end

/-- The metafunction `_impl::linearize_esf_array<EsfsVector, PushRegular, PushIndependent>`:
`fold<EsfsVector, vector0<>, push_into<_1, PushRegular>>`. -/
def linearize_esf_array {α : Type} (EsfsVector : List (EsfDescr α))
    (PushRegular PushIndependent : PushArg) : List (MplType α) :=
  EsfsVector.foldl (fun v e => push_into PushIndependent v (PushRegular.subst e)) []

/-- The vertical iteration policy of a stage. -/
inductive ExecutionEngine where
  | forward
  | backward
  | parallel
  deriving Repr, DecidableEq

/-- The type `mss_descriptor<ExecutionEngine, EsfDescrSequence, CacheSequence>`;
caches are identified by numbers. -/
structure mss_descriptor (α : Type) where
  execution_engine : ExecutionEngine
  esf_descr_sequence : List (EsfDescr α)
  cache_sequence : List Nat

/-- `mss_descriptor_linear_esf_sequence<mss_descriptor<...>>`:
`linearize_esf_array<EsfDescrSequence, _2>` (the third argument defaults to the
second). -/
def mss_descriptor_linear_esf_sequence {α : Type} (mss : mss_descriptor α) :
    List (MplType α) :=
  linearize_esf_array mss.esf_descr_sequence PushArg.arg2 PushArg.arg2

/-- `sequence_of_is_independent_esf<mss_descriptor<...>>`:
`linearize_esf_array<EsfDescrSequence, boost::false_type, boost::true_type>`. -/
def sequence_of_is_independent_esf {α : Type} (mss : mss_descriptor α) :
    List (MplType α) :=
  linearize_esf_array mss.esf_descr_sequence PushArg.false_type PushArg.true_type

/-- `make_independent(esfs...)` returns `independent_esf<vector<esfs...>>`. -/
def make_independent {α : Type} (esfs : List (EsfDescr α)) : EsfDescr α :=
  EsfDescr.independent_esf esfs

/-- `make_esf<F>(args...)`: a plain ESF descriptor. -/
def make_esf {α : Type} (f : α) : EsfDescr α := EsfDescr.esf f

/-- `make_multistage` (named `make_mss` in `shallow_water_enhanced.h`) applied to
an execution engine and ESF descriptors only: the descriptors in the order they
are listed, and no caches. -/
def make_mss {α : Type} (e : ExecutionEngine) (esfs : List (EsfDescr α)) :
    mss_descriptor α :=
  { execution_engine := e, esf_descr_sequence := esfs, cache_sequence := [] }

/-- The three stencil functors of `shallow_water_enhanced.h`. -/
inductive ShallowWaterFunctor where
  | first_step_x
  | second_step_y
  | final_step
  deriving Repr, DecidableEq

/-- The stage built in `shallow_water::test`:
`make_mss(execute<forward>(), make_independent(make_esf<first_step_x>(..),
make_esf<second_step_y>(..)), make_esf<final_step>(..))`. -/
def shallow_water_mss : mss_descriptor ShallowWaterFunctor :=
  make_mss ExecutionEngine.forward
    [make_independent [make_esf ShallowWaterFunctor.first_step_x,
                       make_esf ShallowWaterFunctor.second_step_y],
     make_esf ShallowWaterFunctor.final_step]

/-- Whether a descriptor is an `independent_esf` group. -/
def EsfDescr.is_independent {α : Type} : EsfDescr α → Bool
  | .independent_esf _ => true
  | .esf _ => false

/-! ## Part 2: the GCL packing kernels -/

/-- The per-axis halo descriptor read by the packing kernels through its
accessors `minus()`, `plus()`, `begin()`, `end()`, `total_length()`. -/
structure halo_descriptor where
  minus : Int
  plus : Int
  begin_ : Int
  end_ : Int
  total_length : Int
  deriving Repr, DecidableEq

/-- Modelled from the spec: `halo_descriptor::s_length` is declared in
`common/halo_descriptor.hpp`, which is not among the sources; the length sent in
direction `-1` is `plus`, in direction `0` the interior length `end - begin + 1`,
in direction `1` it is `minus`.  The packing routines call it with these three
arguments only. -/
def halo_descriptor.s_length (h : halo_descriptor) (d : Int) : Int :=
  if d = -1 then h.plus
  else if d = 0 then h.end_ - h.begin_ + 1
  else if d = 1 then h.minus
  else 0

/-- CUDA `dim3`, also used for `blockIdx` and `threadIdx`. -/
structure dim3 where
  x : Int
  y : Int
  z : Int
  deriving Repr, DecidableEq

/-- One executed assignment `msgbuf[buffer][index] = value`. -/
structure Store (V : Type) where
  buffer : Int
  index : Int
  value : V

/-- The contents of the message buffers: buffer number, then cell index. -/
abbrev Msgbuf (V : Type) := Int → Int → V

/-- The effect of one store on the message buffers. -/
def Msgbuf.write {V : Type} (m : Msgbuf V) (s : Store V) : Msgbuf V :=
  fun b i => if b = s.buffer ∧ i = s.index then s.value else m b i

/-- The effect of a sequence of stores, first to last. -/
def Msgbuf.write_all {V : Type} (m : Msgbuf V) (ss : List (Store V)) : Msgbuf V :=
  ss.foldl Msgbuf.write m

/-- The integer locals a packing kernel thread computes. -/
structure PackLocals where
  idx : Int
  idy : Int
  idz : Int
  ia : Int
  ib : Int
  ic : Int
  isrc : Int
  ba : Int
  la : Int
  bb : Int
  lb : Int
  bc : Int
  b_ind : Int
  oa : Int
  ob : Int
  oc : Int
  idst : Int

/-- The index arithmetic of `m_packXLKernel` for the thread
`(blockIdx, threadIdx)` of a launch with block shape `blockDim`; `halo0`, `halo1`,
`halo2` are the entries `halo[0]`, `halo[1]`, `halo[2]` of the descriptor array. -/
def m_packXLKernel_locals (d_msgsize : Int → Int) (halo0 halo1 halo2 : halo_descriptor)
    (field_index : Int) (blockIdx blockDim threadIdx : dim3) : PackLocals :=
  let idx := blockIdx.x
  let idy := blockIdx.y * blockDim.y + threadIdx.y
  let idz := blockIdx.z * blockDim.z + threadIdx.z
  let ia := idx + halo0.begin_
  let ib := idy + halo1.begin_
  let ic := idz + halo2.begin_
  let isrc := ia + ib * halo0.total_length
    + ic * halo0.total_length * halo1.total_length
  let ba := 0
  let la := halo0.plus
  let bb := 1
  let lb := halo1.end_ - halo1.begin_ + 1
  let bc := 1
  let b_ind := ba + 3 * bb + 9 * bc
  let oa := idx
  let ob := idy
  let oc := idz
  let idst := oa + ob * la + oc * la * lb + field_index * d_msgsize b_ind
  { idx := idx, idy := idy, idz := idz, ia := ia, ib := ib, ic := ic, isrc := isrc,
    ba := ba, la := la, bb := bb, lb := lb, bc := bc, b_ind := b_ind,
    oa := oa, ob := ob, oc := oc, idst := idst }

/-- One thread of `m_packXLKernel`: under the guard `idy < ny && idz < nz` it
loads `d_data[isrc]` and stores it to `msgbuf[b_ind][idst]`; otherwise it stores
nothing.  The shared table `msgbuf` is a copy of `d_msgbufTab` (the block shape
(1, 32, 8) has a thread for each of its 27 entries and the copy is complete at
the barrier), so a buffer is named by its index in the table. -/
def m_packXLKernel {V : Type} (d_data : Int → V) (d_msgsize : Int → Int)
    (halo0 halo1 halo2 : halo_descriptor) (ny nz field_index : Int)
    (blockIdx blockDim threadIdx : dim3) : Option (Store V) :=
  let t := m_packXLKernel_locals d_msgsize halo0 halo1 halo2 field_index blockIdx blockDim threadIdx
  if t.idy < ny ∧ t.idz < nz then
    some { buffer := t.b_ind, index := t.idst, value := d_data t.isrc }
  else none

/-- The index arithmetic of `m_packZUKernel` for one thread. -/
def m_packZUKernel_locals (d_msgsize : Int → Int) (halo0 halo1 halo2 : halo_descriptor)
    (field_index : Int) (blockIdx blockDim threadIdx : dim3) : PackLocals :=
  let idx := blockIdx.x * blockDim.x + threadIdx.x
  let idy := blockIdx.y * blockDim.y + threadIdx.y
  let idz := blockIdx.z
  let aa := halo0.plus + halo0.end_ - halo0.begin_
  let ab := halo1.plus + halo1.end_ - halo1.begin_
  let pas := if idx < halo0.plus then 0 else halo0.plus
  let pbs := if idy < halo1.plus then 0 else halo1.plus
  let mas := if idx > aa then halo0.minus else 0
  let mbs := if idy > ab then halo1.minus else 0
  let mcs := halo2.minus
  let ia := idx + halo0.begin_ - pas - mas
  let ib := idy + halo1.begin_ - pbs - mbs
  let ic := idz + halo2.end_ - mcs + 1
  let isrc := ia + ib * halo0.total_length
    + ic * halo0.total_length * halo1.total_length
  let ba1 := if idx < halo0.plus then 0 else 1
  let la1 := if idx < halo0.plus then halo0.plus
    else halo0.end_ - halo0.begin_ + 1
  let ba := if idx > aa then 2 else ba1
  let la := if idx > aa then halo0.minus else la1
  let aas := if idx > aa then halo0.end_ - halo0.begin_ + 1 else 0
  let bb1 := if idy < halo1.plus then 0 else 1
  let lb1 := if idy < halo1.plus then halo1.plus
    else halo1.end_ - halo1.begin_ + 1
  let bb := if idy > ab then 2 else bb1
  let lb := if idy > ab then halo1.minus else lb1
  let abs := if idy > ab then halo1.end_ - halo1.begin_ + 1 else 0
  let bc := 2
  let b_ind := ba + 3 * bb + 9 * bc
  let oa := idx - pas - aas
  let ob := idy - pbs - abs
  let oc := idz
  let idst := oa + ob * la + oc * la * lb + field_index * d_msgsize b_ind
  { idx := idx, idy := idy, idz := idz, ia := ia, ib := ib, ic := ic, isrc := isrc,
    ba := ba, la := la, bb := bb, lb := lb, bc := bc, b_ind := b_ind,
    oa := oa, ob := ob, oc := oc, idst := idst }

/-- One thread of `m_packZUKernel`: under the guard `idx < nx && idy < ny` it
loads `d_data[isrc]` and stores it to `msgbuf[b_ind][idst]`. -/
def m_packZUKernel {V : Type} (d_data : Int → V) (d_msgsize : Int → Int)
    (halo0 halo1 halo2 : halo_descriptor) (nx ny field_index : Int)
    (blockIdx blockDim threadIdx : dim3) : Option (Store V) :=
  let t := m_packZUKernel_locals d_msgsize halo0 halo1 halo2 field_index blockIdx blockDim threadIdx
  if t.idx < nx ∧ t.idy < ny then
    some { buffer := t.b_ind, index := t.idst, value := d_data t.isrc }
  else none

/-- All index triples `(x, y, z)` with `0 ≤ x < d.x`, `0 ≤ y < d.y`, `0 ≤ z < d.z`. -/
def dim3.indices (d : dim3) : List dim3 :=
  (List.range d.x.toNat).flatMap fun (x : Nat) =>
    (List.range d.y.toNat).flatMap fun (y : Nat) =>
      (List.range d.z.toNat).map fun (z : Nat) =>
        { x := (x : Int), y := (y : Int), z := (z : Int) }

/-- A kernel launch `kernel<<<blocks, threads>>>(...)`: every thread of every
block runs the kernel body; the result is the list of stores performed, block
after block and thread after thread. -/
def launch {V : Type} (blocks threads : dim3)
    (kernel : dim3 → dim3 → dim3 → Option (Store V)) : List (Store V) :=
  blocks.indices.flatMap fun blockIdx =>
    threads.indices.filterMap fun threadIdx => kernel blockIdx threads threadIdx

/-- The kernel launch in iteration `i` of the loop of `m_packXL`, for the field
`d_data = d_data_array[i]`:
`m_packXLKernel<<<blocks, threads>>>(d_data_array[i], d_msgbufTab, d_msgsize, halo_d, ny, nz, i)`
with `threads`, `blocks`, `ny`, `nz` as the routine computes them from `halo`. -/
def m_packXL_launch {V : Type} (d_data : Int → V) (d_msgsize : Int → Int)
    (halo halo_d : Nat → halo_descriptor) (i : Nat) : List (Store V) :=
  let ntx : Int := 1
  let nty : Int := 32
  let ntz : Int := 8
  let threads : dim3 := { x := ntx, y := nty, z := ntz }
  let nx := (halo 0).s_length (-1)
  let ny := (halo 1).s_length 0
  let nz := (halo 2).s_length 0
  let nbx := (nx + ntx - 1).tdiv ntx
  let nby := (ny + nty - 1).tdiv nty
  let nbz := (nz + ntz - 1).tdiv ntz
  let blocks : dim3 := { x := nbx, y := nby, z := nbz }
  launch blocks threads
    (m_packXLKernel d_data d_msgsize (halo_d 0) (halo_d 1) (halo_d 2) ny nz (i : Int))

/-- The stores performed by the host routine `m_packXL`, in program order:
`some` list when it returns normally, `none` when a launch is rejected.  The
routine returns before the loop when a block count is zero; a negative block
count converts to an out-of-range unsigned grid dimension, so the first launch
fails and `GT_CUDA_CHECK` raises; a grid with positive block counts is taken to
be accepted by the device.  `halo` is the host copy of the descriptors and
`halo_d` the device copy handed to the kernel. -/
def m_packXL_stores {V : Type} (d_data_array : List (Int → V)) (d_msgsize : Int → Int)
    (halo halo_d : Nat → halo_descriptor) : Option (List (Store V)) :=
  let ntx : Int := 1
  let nty : Int := 32
  let ntz : Int := 8
  let nx := (halo 0).s_length (-1)
  let ny := (halo 1).s_length 0
  let nz := (halo 2).s_length 0
  let nbx := (nx + ntx - 1).tdiv ntx
  let nby := (ny + nty - 1).tdiv nty
  let nbz := (nz + ntz - 1).tdiv ntz
  if nbx = 0 ∨ nby = 0 ∨ nbz = 0 then some []
  else
    let niter := d_data_array.length
    if niter = 0 then some []
    else if nbx < 0 ∨ nby < 0 ∨ nbz < 0 then none
    else
      some ((List.range niter).flatMap fun i =>
        match d_data_array[i]? with
        | some d_data => m_packXL_launch d_data d_msgsize halo halo_d i
        | none => [])

/-- The host routine `m_packXL`: the message buffers after the call. -/
def m_packXL {V : Type} (d_data_array : List (Int → V)) (d_msgbufTab : Msgbuf V)
    (d_msgsize : Int → Int) (halo halo_d : Nat → halo_descriptor) : Option (Msgbuf V) :=
  (m_packXL_stores d_data_array d_msgsize halo halo_d).map d_msgbufTab.write_all

/-- The kernel launch in iteration `i` of the loop of `m_packZU`:
`m_packZUKernel<<<blocks, threads, 0, ZU_stream>>>(d_data_array[i], d_msgbufTab,
d_msgsize, halo_d, nx, ny, i)`. -/
def m_packZU_launch {V : Type} (d_data : Int → V) (d_msgsize : Int → Int)
    (halo halo_d : Nat → halo_descriptor) (i : Nat) : List (Store V) :=
  let ntx : Int := 32
  let nty : Int := 8
  let ntz : Int := 1
  let threads : dim3 := { x := ntx, y := nty, z := ntz }
  let nx := (halo 0).s_length (-1) + (halo 0).s_length 0 + (halo 0).s_length 1
  let ny := (halo 1).s_length (-1) + (halo 1).s_length 0 + (halo 1).s_length 1
  let nz := (halo 2).s_length 1
  let nbx := (nx + ntx - 1).tdiv ntx
  let nby := (ny + nty - 1).tdiv nty
  let nbz := (nz + ntz - 1).tdiv ntz
  let blocks : dim3 := { x := nbx, y := nby, z := nbz }
  launch blocks threads
    (m_packZUKernel d_data d_msgsize (halo_d 0) (halo_d 1) (halo_d 2) nx ny (i : Int))

/-- The stores performed by the host routine `m_packZU`, in program order (see
`m_packXL_stores` for the conventions). -/
def m_packZU_stores {V : Type} (d_data_array : List (Int → V)) (d_msgsize : Int → Int)
    (halo halo_d : Nat → halo_descriptor) : Option (List (Store V)) :=
  let ntx : Int := 32
  let nty : Int := 8
  let ntz : Int := 1
  let nx := (halo 0).s_length (-1) + (halo 0).s_length 0 + (halo 0).s_length 1
  let ny := (halo 1).s_length (-1) + (halo 1).s_length 0 + (halo 1).s_length 1
  let nz := (halo 2).s_length 1
  let nbx := (nx + ntx - 1).tdiv ntx
  let nby := (ny + nty - 1).tdiv nty
  let nbz := (nz + ntz - 1).tdiv ntz
  if nbx = 0 ∨ nby = 0 ∨ nbz = 0 then some []
  else
    let niter := d_data_array.length
    if niter = 0 then some []
    else if nbx < 0 ∨ nby < 0 ∨ nbz < 0 then none
    else
      some ((List.range niter).flatMap fun i =>
        match d_data_array[i]? with
        | some d_data => m_packZU_launch d_data d_msgsize halo halo_d i
        | none => [])

/-- The host routine `m_packZU`: the message buffers after the call. -/
def m_packZU {V : Type} (d_data_array : List (Int → V)) (d_msgbufTab : Msgbuf V)
    (d_msgsize : Int → Int) (halo halo_d : Nat → halo_descriptor) : Option (Msgbuf V) :=
  (m_packZU_stores d_data_array d_msgsize halo halo_d).map d_msgbufTab.write_all

/-- A halo descriptor with one interior cell and one ghost cell on either side
(`minus = plus = 1`, `begin = end = 1`, `total_length = 3`), used as a concrete
input. -/
def one_cell_halo : halo_descriptor :=
  { minus := 1, plus := 1, begin_ := 1, end_ := 1, total_length := 3 }

/-! ### The regions of the top z slab, as the specification words them

The following four definitions restate the region table of the specification for
`m_packZU`; they are compared with `m_packZUKernel_locals` below. -/

/-- The region of a thread coordinate `i` along an axis with descriptor `h`:
`0` if `i < plus`, `1` if `plus ≤ i < plus + len`, `2` otherwise. -/
def claimed_region (h : halo_descriptor) (i : Int) : Int :=
  if i < h.plus then 0
  else if i < h.plus + (h.end_ - h.begin_ + 1) then 1
  else 2

/-- The source coordinate read along the axis: `begin + i` in region 0,
`begin + i - plus` in region 1, `end - minus + 1 + (i - plus - len)` in region 2. -/
def claimed_source (h : halo_descriptor) (i : Int) : Int :=
  if claimed_region h i = 0 then h.begin_ + i
  else if claimed_region h i = 1 then h.begin_ + i - h.plus
  else h.end_ - h.minus + 1 + (i - h.plus - (h.end_ - h.begin_ + 1))

/-- The length of the region along the axis: `plus`, `len` or `minus`. -/
def claimed_length (h : halo_descriptor) (i : Int) : Int :=
  if claimed_region h i = 0 then h.plus
  else if claimed_region h i = 1 then h.end_ - h.begin_ + 1
  else h.minus

/-- The offset inside the region along the axis: `i`, `i - plus` or
`i - plus - len`. -/
def claimed_offset (h : halo_descriptor) (i : Int) : Int :=
  if claimed_region h i = 0 then i
  else if claimed_region h i = 1 then i - h.plus
  else i - h.plus - (h.end_ - h.begin_ + 1)

/-! ## Part 3: the execution scheduler and two stencil tests

The scheduler (`make_computation`, `ready`, `steady`, `run`, `finalize`, the
switch nodes, the grid) is not among the sources: the definitions marked
"Modelled from the spec" follow the specification.  The stencil functors, the
value types and the drivers are those of
`unit_tests/stencil-composition/structured_grids/test_cxx11_conditional_switches.cpp`
and `multi_types_test.cpp`.  Every `float` and `double` value of the two tests is a
whole number and is modelled by that number.  In `multi_types_test.cpp` each
conversion and each arithmetic operation rounds to its format (`to_float`,
`to_double`).  The element type `float_type` of the field `dummy` of the
conditional-switch test is not among the sources; the additions to `dummy` are
taken exact, which they are in single and in double precision below `2 ^ 24`. -/

/-- A grid point `(i, j, k)`. -/
structure Point where
  i : Nat
  j : Nat
  k : Nat
  deriving DecidableEq, Repr

/-- Modelled from the spec: the iteration space of a run, which the driver fixes
through `grid(di, dj)` and `value_list`: the horizontal ranges
`[i_begin, i_end]` and `[j_begin, j_end]` and the vertical levels
`k_first .. k_last`, all inclusive. -/
structure Grid where
  i_begin : Nat
  i_end : Nat
  j_begin : Nat
  j_end : Nat
  k_first : Nat
  k_last : Nat
  deriving Repr

/-- The indices `a, a + 1, ..., b`. -/
def closed_range (a b : Nat) : List Nat := List.range' a (b + 1 - a)

/-- Modelled from the spec: the vertical levels in the order of the iteration
policy: ascending for `forward`, descending for `backward`; `parallel` levels
carry no order and are taken ascending. -/
def Grid.levels (g : Grid) : ExecutionEngine → List Nat
  | .forward => closed_range g.k_first g.k_last
  | .backward => (closed_range g.k_first g.k_last).reverse
  | .parallel => closed_range g.k_first g.k_last

/-- Modelled from the spec: the points of the horizontal plane (the tiles carry no
order among each other; the points are taken row by row). -/
def Grid.plane (g : Grid) : List (Nat × Nat) :=
  (closed_range g.i_begin g.i_end).flatMap fun (i : Nat) =>
    (closed_range g.j_begin g.j_end).map fun (j : Nat) => (i, j)

/-- Modelled from the spec: an ESF with its arguments bound is evaluated at a grid
point and updates the fields (`S` is the type of the field contents). -/
abbrev Esf (S : Type) := Point → S → S

/-- The plain ESFs of the linear ESF sequence of a stage, in order. -/
def linear_esfs {α : Type} (mss : mss_descriptor α) : List α :=
  (mss_descriptor_linear_esf_sequence mss).filterMap fun t =>
    match t with
    | .descr (.esf a) => some a
    | _ => none

/-- Modelled from the spec: one stage of a run.  The levels are visited in the
order of the iteration policy; within a level every point of the plane evaluates
every ESF of the stage in its linearized order. -/
def run_mss {S : Type} (g : Grid) (mss : mss_descriptor (Esf S)) (fields : S) : S :=
  (g.levels mss.execution_engine).foldl
    (fun s k => g.plane.foldl
      (fun s ij => (linear_esfs mss).foldl (fun s esf => esf ⟨ij.1, ij.2, k⟩ s) s) s)
    fields

mutual
/-- Modelled from the spec: a node of the stencil graph is a concrete stage or a
switch, a key function (reading the environment `E` of the driver) with its
cases. -/
inductive MssTree (E α : Type) where
  | mss : mss_descriptor α → MssTree E α
  | switch_ : (E → Int) → SwitchCases E α → MssTree E α
/-- Modelled from the spec: the cases of a switch, `case_(key, node)` entries
closed by `default_(node)`. -/
inductive SwitchCases (E α : Type) where
  | case_ : Int → MssTree E α → SwitchCases E α → SwitchCases E α
  | default_ : MssTree E α → SwitchCases E α
end

mutual
/-- Modelled from the spec: switch resolution for one run.  The key function is
evaluated once and the matching case (or the default) is substituted,
recursively; the tree itself is left as it is. -/
def MssTree.resolve {E α : Type} (env : E) : MssTree E α → mss_descriptor α
  | .mss m => m
  | .switch_ cond cases => cases.select env (cond env)
/-- The case a key selects: the first `case_` with that key, else the default. -/
def SwitchCases.select {E α : Type} (env : E) (key : Int) :
    SwitchCases E α → mss_descriptor α
  | .case_ k node rest => if key = k then node.resolve env else rest.select env key
  | .default_ node => node.resolve env
end

/-- The `case_(key, node)` entries of a switch, in order. -/
def SwitchCases.entries {E α : Type} : SwitchCases E α → List (Int × MssTree E α)
  | .case_ k node rest => (k, node) :: rest.entries
  | .default_ _ => []

/-- The node of the closing `default_(node)` of a switch. -/
def SwitchCases.default_node {E α : Type} : SwitchCases E α → MssTree E α
  | .case_ _ _ rest => rest.default_node
  | .default_ node => node

/-- The selection as the specification words it: the sub-graph of the matching
case (the first entry with the key), or of the default when no entry has the
key.  It is compared with `SwitchCases.select` below. -/
def SwitchCases.claimed_selection {E α : Type} (key : Int) (cases : SwitchCases E α) :
    MssTree E α :=
  match cases.entries.find? (fun c => decide (c.1 = key)) with
  | some c => c.2
  | none => cases.default_node

/-- Modelled from the spec: the lifecycle states of a computation. -/
inductive LifecycleState where
  | Constructed
  | Ready
  | Steady
  | Finalized
  deriving DecidableEq, Repr

/-- The errors a call can signal: the `LifecycleError` of the specification, and
a call through a null `unique_ptr`. -/
inductive Error where
  | LifecycleError
  | null_pointer
  deriving DecidableEq, Repr

/-- Modelled from the spec: a computation, the stencil graph with its grid and its
lifecycle state. -/
structure computation (E S : Type) where
  grid : Grid
  mss_trees : List (MssTree E (Esf S))
  state : LifecycleState

/-- Modelled from the spec: `make_computation(domain, grid, stages...)` yields a
computation in state `Constructed`. -/
def make_computation {E S : Type} (grid : Grid) (mss_trees : List (MssTree E (Esf S))) :
    computation E S :=
  { grid := grid, mss_trees := mss_trees, state := LifecycleState.Constructed }

/-- Modelled from the spec: `ready()` is an error from any state but `Constructed`. -/
def computation.ready {E S : Type} (c : computation E S) : Except Error (computation E S) :=
  match c.state with
  | .Constructed => .ok { c with state := LifecycleState.Ready }
  | _ => .error Error.LifecycleError

/-- Modelled from the spec: `steady()` is an error before `ready()` or when called
more than once. -/
def computation.steady {E S : Type} (c : computation E S) : Except Error (computation E S) :=
  match c.state with
  | .Ready => .ok { c with state := LifecycleState.Steady }
  | _ => .error Error.LifecycleError

/-- Modelled from the spec: `run()` while `Steady` resolves the switches with the
key values of that run and executes the stages in declared order; in any other
state it signals `LifecycleError` and leaves the fields alone. -/
def computation.run {E S : Type} (c : computation E S) (env : E) (fields : S) :
    Except Error S :=
  match c.state with
  | .Steady =>
      .ok (c.mss_trees.foldl (fun s node => run_mss c.grid (node.resolve env) s) fields)
  | _ => .error Error.LifecycleError

/-- Modelled from the spec: `finalize()` releases the resources and is terminal. -/
def computation.finalize {E S : Type} (c : computation E S) : computation E S :=
  { c with state := LifecycleState.Finalized }

/-! ### `test_cxx11_conditional_switches.cpp` -/

/-- The functor `functor1<Id>`: `eval(p_dummy()) += Id` (the argument is the
contents of the field `dummy`). -/
def functor1 (Id : Int) : Esf (Point → Int) :=
  fun pt dummy => Function.update dummy pt (dummy pt + Id)

/-- The functor `functor2<Id>`: `eval(p_dummy()) += Id`. -/
def functor2 (Id : Int) : Esf (Point → Int) :=
  fun pt dummy => Function.update dummy pt (dummy pt + Id)

/-- The multistage `make_multistage(execute<forward>(), make_stage<functor1<Id>>(..),
make_stage<functor2<Id>>(..))` used throughout the test. -/
def test_conditional_switches.stage (Id : Int) : MssTree Bool (Esf (Point → Int)) :=
  MssTree.mss (make_mss ExecutionEngine.forward [make_esf (functor1 Id), make_esf (functor2 Id)])

/-- The switch variable `cond_`: `[&p]() { return p ? 0 : 5; }`. -/
def test_conditional_switches.cond_ (p : Bool) : Int := if p then 0 else 5

/-- The switch variable `nested_cond_`: `[]() { return 1; }`. -/
def test_conditional_switches.nested_cond_ (_ : Bool) : Int := 1

/-- The switch variable `other_cond_`: `[&p]() { return p ? 1 : 2; }`. -/
def test_conditional_switches.other_cond_ (p : Bool) : Int := if p then 1 else 2

/-- The grid of the test: `grid_({0, 0, 0, 0, 1}, {0, 0, 0, 0, 1})` with
`value_list[0] = 0`, `value_list[1] = 1`. -/
def test_conditional_switches.grid_ : Grid :=
  { i_begin := 0, i_end := 0, j_begin := 0, j_end := 0, k_first := 0, k_last := 1 }

/-- The computation `comp_` of the test. -/
def test_conditional_switches.comp_ : computation Bool (Point → Int) :=
  make_computation test_conditional_switches.grid_
    [test_conditional_switches.stage 0,
     MssTree.switch_ test_conditional_switches.cond_
       (SwitchCases.case_ 0 (test_conditional_switches.stage 1)
         (SwitchCases.case_ 5
           (MssTree.switch_ test_conditional_switches.nested_cond_
             (SwitchCases.case_ 1 (test_conditional_switches.stage 2000)
               (SwitchCases.default_ (test_conditional_switches.stage 3000))))
           (SwitchCases.default_ (test_conditional_switches.stage 7)))),
     MssTree.switch_ test_conditional_switches.other_cond_
       (SwitchCases.case_ 2 (test_conditional_switches.stage 10)
         (SwitchCases.case_ 1 (test_conditional_switches.stage 20)
           (SwitchCases.default_ (test_conditional_switches.stage 30)))),
     test_conditional_switches.stage 400]

/-- The stencil graph handed to `make_computation` in the test, with its three
switch variables as parameters. -/
def test_conditional_switches.graph (cond_ nested_cond_ other_cond_ : Bool → Int) :
    List (MssTree Bool (Esf (Point → Int))) :=
  [test_conditional_switches.stage 0,
   MssTree.switch_ cond_
     (SwitchCases.case_ 0 (test_conditional_switches.stage 1)
       (SwitchCases.case_ 5
         (MssTree.switch_ nested_cond_
           (SwitchCases.case_ 1 (test_conditional_switches.stage 2000)
             (SwitchCases.default_ (test_conditional_switches.stage 3000))))
         (SwitchCases.default_ (test_conditional_switches.stage 7)))),
   MssTree.switch_ other_cond_
     (SwitchCases.case_ 2 (test_conditional_switches.stage 10)
       (SwitchCases.case_ 1 (test_conditional_switches.stage 20)
         (SwitchCases.default_ (test_conditional_switches.stage 30)))),
   test_conditional_switches.stage 400]

/-- The driver `test_conditional_switches::test`: the value it returns, or the
error that ends it. -/
def test_conditional_switches.test : Except Error Bool := do
  let p := true
  let dummy : Point → Int := fun _ => 0
  let result := true
  let comp_ ← test_conditional_switches.comp_.ready
  let comp_ ← comp_.steady
  let dummy ← comp_.run p dummy
  let result := result && (dummy ⟨0, 0, 0⟩ == 842)
  let p := false
  let dummy ← comp_.run p dummy
  let _comp := comp_.finalize
  let result := result && (dummy ⟨0, 0, 0⟩ == 5662)
  pure result

/-! ### `multi_types_test.cpp` -/

/-- The struct `type1`: three `int` members. -/
structure type1 where
  i : Int
  j : Int
  k : Int
  deriving DecidableEq, Repr

/-- The number of low-order bits a whole number of magnitude `a` loses in a binary
floating-point format with `p` significant bits: the least `e` with
`a < 2 ^ (p + e)`.  The first argument bounds the recursion; `a` is enough. -/
def dropped_bits (p : Nat) : Nat → Nat → Nat
  | 0, _ => 0
  | fuel + 1, a => if a < 2 ^ p then 0 else dropped_bits p fuel (a / 2) + 1

/-- The multiple of `2 ^ e` nearest to `a`, a tie going to the even multiple. -/
def round_at (e a : Nat) : Nat :=
  if 2 ^ e < 2 * (a % 2 ^ e) ∨ (2 * (a % 2 ^ e) = 2 ^ e ∧ (a / 2 ^ e) % 2 = 1) then
    (a / 2 ^ e + 1) * 2 ^ e
  else
    (a / 2 ^ e) * 2 ^ e

/-- The conversion of a whole number to a binary floating-point format with `p`
significant bits, in the default rounding mode (to nearest, ties to even).  The
exponent range is not modelled; the numbers of the test are far below it. -/
def round_to_nearest (p : Nat) (n : Int) : Int :=
  n.sign * ((round_at (dropped_bits p n.natAbs n.natAbs) n.natAbs : Nat) : Int)

/-- The value of a whole number as a `float` (24 significant bits). -/
def to_float (n : Int) : Int := round_to_nearest 24 n

/-- The value of a whole number as a `double` (53 significant bits). -/
def to_double (n : Int) : Int := round_to_nearest 53 n

/-- The struct `type4`: three `float` members (each holds a whole number, the
value of the `float`). -/
structure type4 where
  x : Int
  y : Int
  z : Int
  deriving DecidableEq, Repr

/-- The struct `type2`: one `double` member (a whole number, the value of the
`double`). -/
structure type2 where
  xy : Int
  deriving DecidableEq, Repr

/-- The struct `type3`: one `double` member (a whole number, the value of the
`double`). -/
structure type3 where
  yz : Int
  deriving DecidableEq, Repr

/-- The constructor `type4(double i, double j, double k) : x(i), y(j), z(k)`: each
`double` is converted to `float`. -/
def type4.from_double (i j k : Int) : type4 :=
  { x := to_float i, y := to_float j, z := to_float k }

/-- The assignment `type4::operator=(type1 const&)`: the value of the left-hand
side afterwards, each `int` converted to `float`. -/
def type4.assign (a : type1) : type4 :=
  { x := to_float a.i, y := to_float a.j, z := to_float a.k }

/-- The assignment `type2::operator=(type4 const&)`: `xy = x.x + x.y`, a sum of two
`float`s, rounded to `float`; its conversion to `double` is exact. -/
def type2.assign (x : type4) : type2 := { xy := to_float (x.x + x.y) }

/-- The assignment `type3::operator=(type4 const&)`: `yz = x.y + x.z`, a sum of two
`float`s, rounded to `float`; its conversion to `double` is exact. -/
def type3.assign (x : type4) : type3 := { yz := to_float (x.y + x.z) }

/-- The operator `type4 operator+(type4 const&, type1 const&)`: each member is
`a.x + static_cast<double>(b.i)`, a sum in `double`, handed to the constructor. -/
def type4.add (a : type4) (b : type1) : type4 :=
  type4.from_double (to_double (a.x + to_double b.i)) (to_double (a.y + to_double b.j))
    (to_double (a.z + to_double b.k))

/-- The operator `type4 operator-(type4 const&, type1 const&)`: each member is
`a.x - static_cast<double>(b.i)`, a difference in `double`, handed to the
constructor. -/
def type4.sub (a : type4) (b : type1) : type4 :=
  type4.from_double (to_double (a.x - to_double b.i)) (to_double (a.y - to_double b.j))
    (to_double (a.z - to_double b.k))

/-- The functor `function0`: `out.i = in.i + 1`, `out.j = in.j + 1`,
`out.k = in.k + 1`; the value of `out` it produces from `in`. -/
def function0 (in_ : type1) : type1 := { i := in_.i + 1, j := in_.j + 1, k := in_.k + 1 }

/-- The functor `function1` at a point: `result = call<function0>(in)`, then
`eval(out()) = result`; the new value of `out`. -/
def function1 (in_ : type1) : type4 := type4.assign (function0 in_)

/-- The functor `function2` at a point: `eval(out()) = eval(temp()) + eval(in())`;
the new value of `out`. -/
def function2 (in_ : type1) (temp : type4) : type2 := type2.assign (temp.add in_)

/-- The functor `function3` at a point: `eval(out()) = eval(temp()) - eval(in())`;
the new value of `out`. -/
def function3 (temp : type4) (in_ : type1) : type3 := type3.assign (temp.sub in_)

/-- The contents of the four storages of the test: the temporary `p_temp` and
`field1`, `field2`, `field3`. -/
structure multi_types_test.Fields where
  temp : Point → type4
  field1 : Point → type1
  field2 : Point → type2
  field3 : Point → type3

/-- The ESF `make_esf<function1>(p_temp(), p_field1())`. -/
def multi_types_test.esf_function1 : Esf multi_types_test.Fields :=
  fun pt f => { f with temp := Function.update f.temp pt (function1 (f.field1 pt)) }

/-- The ESF `make_esf<function2>(p_field2(), p_field1(), p_temp())`. -/
def multi_types_test.esf_function2 : Esf multi_types_test.Fields :=
  fun pt f =>
    { f with field2 := Function.update f.field2 pt (function2 (f.field1 pt) (f.temp pt)) }

/-- The ESF `make_esf<function3>(p_field3(), p_temp(), p_field1())`. -/
def multi_types_test.esf_function3 : Esf multi_types_test.Fields :=
  fun pt f =>
    { f with field3 := Function.update f.field3 pt (function3 (f.temp pt) (f.field1 pt)) }

/-- The grid of the test: `di = {0, 0, 0, d1 - 1, d1}`, `dj` likewise,
`value_list[0] = 0`, `value_list[1] = d3 - 1` (sizes at least one, so that the
unsigned subtractions do not wrap). -/
def multi_types_test.grid (d1 d2 d3 : Nat) : Grid :=
  { i_begin := 0, i_end := d1 - 0 - 1, j_begin := 0, j_end := d2 - 0 - 1,
    k_first := 0, k_last := d3 - 1 }

/-- The computation `test_computation`: a forward stage `function1, function2` and
a backward stage `function1, function3`. -/
def multi_types_test.test_computation (d1 d2 d3 : Nat) :
    computation Unit multi_types_test.Fields :=
  make_computation (multi_types_test.grid d1 d2 d3)
    [MssTree.mss (make_mss ExecutionEngine.forward
        [make_esf multi_types_test.esf_function1, make_esf multi_types_test.esf_function2]),
     MssTree.mss (make_mss ExecutionEngine.backward
        [make_esf multi_types_test.esf_function1, make_esf multi_types_test.esf_function3])]

/-- The storages as the test sets them up: every element value-initialized, then
the triple loop `field1(i, j, k) = type1(i, j, k)`. -/
def multi_types_test.initial_fields (x y z : Nat) : multi_types_test.Fields :=
  { temp := fun _ => { x := 0, y := 0, z := 0 },
    field1 :=
      (List.range x).foldl (fun f (i : Nat) =>
        (List.range y).foldl (fun f (j : Nat) =>
          (List.range z).foldl (fun f (k : Nat) =>
            Function.update f ⟨i, j, k⟩ { i := (i : Int), j := (j : Int), k := (k : Int) })
            f) f)
        (fun _ => { i := 0, j := 0, k := 0 }),
    field2 := fun _ => { xy := 0 },
    field3 := fun _ => { yz := 0 } }

/-- The fields after `ready(); steady(); run(); finalize();` of the test, or the
error that ends it. -/
def multi_types_test.run_fields (x y z : Nat) : Except Error multi_types_test.Fields := do
  let test_computation ← (multi_types_test.test_computation x y z).ready
  let test_computation ← test_computation.steady
  let fields ← test_computation.run () (multi_types_test.initial_fields x y z)
  let _test_computation := test_computation.finalize
  pure fields

/-- The checking loops of the test: `result` stays `true` iff every point has
`field2.xy == xy` and `field3.yz == yz` for
`xy = static_cast<double>(2 * field1.i + 1) + static_cast<double>(2 * field1.j + 1)`
and `yz = 2`. -/
def multi_types_test.check (x y z : Nat) (f : multi_types_test.Fields) : Bool :=
  (List.range x).all fun (i : Nat) =>
    (List.range y).all fun (j : Nat) =>
      (List.range z).all fun (k : Nat) =>
        decide ((f.field2 ⟨i, j, k⟩).xy
            = to_double (to_double (2 * (f.field1 ⟨i, j, k⟩).i + 1)
                + to_double (2 * (f.field1 ⟨i, j, k⟩).j + 1)))
          && decide ((f.field3 ⟨i, j, k⟩).yz = 2)

/-- The driver `multi_types_test::test(x, y, z)`: the value it returns, or the
error that ends it. -/
def multi_types_test.test (x y z : Nat) : Except Error Bool := do
  let fields ← multi_types_test.run_fields x y z
  pure (multi_types_test.check x y z fields)

/-! ## Part 4: `intermediate_expand`

`include/stencil-composition/expandable_parameters/intermediate_expand.hpp`.  The
class forwards to one or two inner computations of type `intermediate`, which is
declared in `stencil-composition/intermediate.hpp` and is not among the sources.
`m_size` is the length of the expandable parameter list, taken to fit
`ushort_t`. -/

/-- The template argument `ExpandFactor` (an `expand_factor<Value>`): its `value`.
The value 0 is excluded, the class computes `m_size % ExpandFactor::value`. -/
structure expand_factor where
  value : Nat
  value_pos : 0 < value

/-- The two inner computations an `intermediate_expand` owns. -/
inductive Target where
  | m_intermediate
  | m_intermediate_extra
  deriving DecidableEq, Repr

/-- The vector width of the inner computation, the last template argument of its
type: `ExpandFactor::value` for `intermediate_t` and `1` for
`intermediate_extra_t`. -/
def Target.vector_width (ExpandFactor : expand_factor) : Target → Nat
  | .m_intermediate => ExpandFactor.value
  | .m_intermediate_extra => 1

/-- A call an `intermediate_expand` method forwards to an inner computation;
`run t index` stands for
`assign_expandable_params(m_domain_from, *m_domain_to, index)` followed by
`t->run()`. -/
inductive ForwardedCall where
  | ready (t : Target)
  | steady (t : Target)
  | finalize (t : Target)
  | run (t : Target) (index : Nat)
  deriving DecidableEq, Repr

/-- The inner computation a forwarded call goes to. -/
def ForwardedCall.target : ForwardedCall → Target
  | .ready t => t
  | .steady t => t
  | .finalize t => t
  | .run t _ => t

/-- The indices of the expandable parameters a forwarded call consumes: a `run`
on the chunk starting at `index` processes as many parameters as the vector
width of its computation. -/
def ForwardedCall.consumed (ExpandFactor : expand_factor) : ForwardedCall → List Nat
  | .run t index => List.range' index (t.vector_width ExpandFactor)
  | _ => []

/-- Modelled from the spec: the inner computation `intermediate` (not among the
sources), reduced to its vector width, its lifecycle state and the log of the
stencil runs it has executed (the first parameter index of each); a run is what
mutates fields. -/
structure intermediate where
  vector_width : Nat
  state : LifecycleState
  executed : List Nat
  deriving DecidableEq, Repr

/-- Modelled from the spec: how an inner computation answers a forwarded call.
`ready()` is an error from any state but `Constructed`, `steady()` from any state
but `Ready`; `run()` executes the stencil while `Steady` and otherwise signals
`LifecycleError` without mutating anything; `finalize()` is terminal. -/
def intermediate.perform (c : intermediate) : ForwardedCall → Except Error intermediate
  | .ready _ =>
      match c.state with
      | .Constructed => .ok { c with state := LifecycleState.Ready }
      | _ => .error Error.LifecycleError
  | .steady _ =>
      match c.state with
      | .Ready => .ok { c with state := LifecycleState.Steady }
      | _ => .error Error.LifecycleError
  | .finalize _ => .ok { c with state := LifecycleState.Finalized }
  | .run _ index =>
      match c.state with
      | .Steady => .ok { c with executed := c.executed ++ [index] }
      | _ => .error Error.LifecycleError

/-- The members of `intermediate_expand`.  A `unique_ptr` is `none` when null;
`m_domain_to` records the index of the chunk last assigned into the domain. -/
structure intermediate_expand where
  ExpandFactor : expand_factor
  m_domain_to : Option Nat
  m_intermediate : Option intermediate
  m_intermediate_extra : Option intermediate
  m_size : Nat

/-- The constructor: `m_size` is the size of the first expandable parameter,
`m_intermediate` is always created and `m_intermediate_extra` is created if
`m_size % ExpandFactor::value` is non-zero. -/
def intermediate_expand.construct (ExpandFactor : expand_factor) (size : Nat) :
    intermediate_expand :=
  { ExpandFactor := ExpandFactor,
    m_domain_to := none,
    m_intermediate :=
      some { vector_width := Target.m_intermediate.vector_width ExpandFactor,
             state := LifecycleState.Constructed, executed := [] },
    m_intermediate_extra :=
      if size % ExpandFactor.value ≠ 0 then
        some { vector_width := Target.m_intermediate_extra.vector_width ExpandFactor,
               state := LifecycleState.Constructed, executed := [] }
      else none,
    m_size := size }

/-- The first loop of `run()`:
`for (i = 0; i < m_size - m_size % ExpandFactor::value; i += ExpandFactor::value)`,
from the value `i` on. -/
def intermediate_expand.main_loop (self : intermediate_expand) (i : Nat) :
    List ForwardedCall :=
  if i < self.m_size - self.m_size % self.ExpandFactor.value then
    ForwardedCall.run Target.m_intermediate i
      :: intermediate_expand.main_loop self (i + self.ExpandFactor.value)
  else []
termination_by self.m_size - self.m_size % self.ExpandFactor.value - i
decreasing_by
  have := self.ExpandFactor.value_pos
  omega

/-- The calls `run()` forwards, in program order: the first loop, then
`for (i = 0; i < m_size % ExpandFactor::value; ++i)` with
`m_intermediate_extra->run()` on the index
`m_size - m_size % ExpandFactor::value + i`. -/
def intermediate_expand.calls_of_run (self : intermediate_expand) : List ForwardedCall :=
  self.main_loop 0
    ++ (List.range (self.m_size % self.ExpandFactor.value)).map fun (i : Nat) =>
        ForwardedCall.run Target.m_intermediate_extra
          (self.m_size - self.m_size % self.ExpandFactor.value + i)

/-- The calls `ready()` forwards. -/
def intermediate_expand.calls_of_ready (self : intermediate_expand) : List ForwardedCall :=
  ForwardedCall.ready Target.m_intermediate
    :: (if self.m_size % self.ExpandFactor.value ≠ 0 then
          [ForwardedCall.ready Target.m_intermediate_extra]
        else [])

/-- The calls `steady()` forwards. -/
def intermediate_expand.calls_of_steady (self : intermediate_expand) : List ForwardedCall :=
  ForwardedCall.steady Target.m_intermediate
    :: (if self.m_size % self.ExpandFactor.value ≠ 0 then
          [ForwardedCall.steady Target.m_intermediate_extra]
        else [])

/-- The calls `finalize()` forwards. -/
def intermediate_expand.calls_of_finalize (self : intermediate_expand) :
    List ForwardedCall :=
  ForwardedCall.finalize Target.m_intermediate
    :: (if self.m_size % self.ExpandFactor.value ≠ 0 then
          [ForwardedCall.finalize Target.m_intermediate_extra]
        else [])

/-- The parameter indices one `run()` hands to the inner computations, in program
order. -/
def intermediate_expand.consumed_by_run (self : intermediate_expand) : List Nat :=
  self.calls_of_run.flatMap (ForwardedCall.consumed self.ExpandFactor)

/-- The `unique_ptr` member a forwarded call goes through. -/
def intermediate_expand.pointer (self : intermediate_expand) : Target → Option intermediate
  | .m_intermediate => self.m_intermediate
  | .m_intermediate_extra => self.m_intermediate_extra

/-- The object with the inner computation behind a pointer replaced. -/
def intermediate_expand.set_pointee (self : intermediate_expand) (t : Target)
    (c : intermediate) : intermediate_expand :=
  match t with
  | .m_intermediate => { self with m_intermediate := some c }
  | .m_intermediate_extra => { self with m_intermediate_extra := some c }

/-- One forwarded call: a `run` first assigns the chunk into `m_domain_to`; the
call then goes through the pointer (a null pointer is an error) to the inner
computation, whose error, if any, ends the method. -/
def intermediate_expand.perform (self : intermediate_expand) (c : ForwardedCall) :
    intermediate_expand × Option Error :=
  let self1 : intermediate_expand :=
    match c with
    | .run _ index => { self with m_domain_to := some index }
    | _ => self
  match self1.pointer c.target with
  | none => (self1, some Error.null_pointer)
  | some inner =>
      match inner.perform c with
      | .ok inner2 => (self1.set_pointee c.target inner2, none)
      | .error e => (self1, some e)

/-- The forwarded calls of a method performed one after the other, up to the
first error: the object afterwards and the error signalled, if any. -/
def intermediate_expand.exec (self : intermediate_expand) :
    List ForwardedCall → intermediate_expand × Option Error
  | [] => (self, none)
  | c :: cs =>
      match self.perform c with
      | (s, none) => s.exec cs
      | (s, some e) => (s, some e)

/-- The method `run()`. -/
def intermediate_expand.run (self : intermediate_expand) :
    intermediate_expand × Option Error :=
  self.exec self.calls_of_run

/-- The method `ready()`. -/
def intermediate_expand.ready (self : intermediate_expand) :
    intermediate_expand × Option Error :=
  self.exec self.calls_of_ready

/-- The method `steady()`. -/
def intermediate_expand.steady (self : intermediate_expand) :
    intermediate_expand × Option Error :=
  self.exec self.calls_of_steady

/-- The method `finalize()`. -/
def intermediate_expand.finalize (self : intermediate_expand) :
    intermediate_expand × Option Error :=
  self.exec self.calls_of_finalize

/-! ## Part 5: the lifecycle calls of the shallow-water driver

`examples/shallow_water_enhanced.h`, function `shallow_water::test`, reduced to
the calls it issues on `shallow_water_stencil`. -/

/-- A lifecycle method called on a computation. -/
inductive LifecycleCall where
  | ready
  | steady
  | run
  | finalize
  deriving DecidableEq, Repr

/-- The lifecycle calls of one iteration of the time loop: `run()`, and
`finalize()` under `#ifndef NDEBUG`. -/
def shallow_water.time_step (NDEBUG : Bool) : List LifecycleCall :=
  LifecycleCall.run :: (if NDEBUG then [] else [LifecycleCall.finalize])

/-- The loop
`for (; final_step::current_time < total_time; ++final_step::current_time)`:
the calls it issues and the value of the static `final_step::current_time`
afterwards. -/
def shallow_water.time_loop (NDEBUG : Bool) (total_time : Nat) (current_time : Nat) :
    List LifecycleCall × Nat :=
  if current_time < total_time then
    let rest := shallow_water.time_loop NDEBUG total_time (current_time + 1)
    (shallow_water.time_step NDEBUG ++ rest.1, rest.2)
  else ([], current_time)
termination_by total_time - current_time

/-- The lifecycle calls `shallow_water::test(x, y, z, t)` issues on the stencil,
and `final_step::current_time` afterwards: `ready()`, `steady()`, the time loop,
and `finalize()` under `#ifdef NDEBUG`.  `final_step::current_time` is a static
initialised to 0. -/
def shallow_water.test_lifecycle_calls (NDEBUG : Bool) (t : Nat) (current_time : Nat) :
    List LifecycleCall × Nat :=
  let total_time := t
  let loop := shallow_water.time_loop NDEBUG total_time current_time
  ([LifecycleCall.ready, LifecycleCall.steady] ++ loop.1
      ++ (if NDEBUG then [LifecycleCall.finalize] else []),
    loop.2)

/-- Whether a call sequence invokes `run` after a `finalize`. -/
def run_after_finalize : List LifecycleCall → Bool
  | [] => false
  | LifecycleCall.finalize :: cs => cs.contains LifecycleCall.run
  | _ :: cs => run_after_finalize cs

/-! ## Part 6: `mic_storage`

`include/gridtools/storage/storage_mic/mic_storage.hpp`.  A `data_t *` is a byte
address; `sizeof_data_t` stands for `sizeof(data_t)`.  Exceptions are the error
side of `Except String`. -/

/-- Modelled from the spec: the enumeration `ownership`, declared in
`storage/common/definitions.hpp`, which is not among the sources. -/
inductive ownership where
  | Full
  | ExternalGPU
  | ExternalCPU
  deriving DecidableEq, Repr

/-- Modelled from the spec: the helper `error_or_return` of
`common/gt_assert.hpp`, which is not among the sources: it returns the value if
the condition holds and raises an error carrying the message otherwise. -/
def error_or_return {α : Type} (cond : Bool) (val : α) (msg : String) : Except String α :=
  if cond then Except.ok val else Except.error msg

/-- The members of `mic_storage`; `m_ownership` defaults to `ownership::Full`, and
`m_data_offset` is `none` while uninitialised. -/
structure mic_storage where
  m_cpu_ptr : Nat
  m_ownership : ownership
  m_data_offset : Option Nat
  deriving DecidableEq, Repr

/-- The message of the external-pointer constructor. -/
def mic_storage.ownership_message : String :=
  "ownership type must be ExternalCPU when using mic_storage"

/-- The exception `std::bad_alloc`. -/
def mic_storage.bad_alloc : String := "std::bad_alloc"

/-- The initial value of the static `s_data_offset`. -/
def mic_storage.s_data_offset_init : Nat := 64

/-- The value stored back into `s_data_offset`:
`next_data_offset = 2 * data_offset; if (next_data_offset > 8192) next_data_offset = 64;`
(no wrap-around of `uint_t` for the values the static takes, which are at most
8192). -/
def mic_storage.next_data_offset (data_offset : Nat) : Nat :=
  if 2 * data_offset > 8192 then 64 else 2 * data_offset

/-- The constructor `mic_storage(uint_t size)` run sequentially, so that the
compare-exchange succeeds at once: the result and the new value of the static
`s_data_offset`.  `posix_memalign alignment bytes` is the base address of the
allocation, or `none` if it fails. -/
def mic_storage.construct (sizeof_data_t : Nat) (posix_memalign : Nat → Nat → Option Nat)
    (s_data_offset : Nat) (size : Nat) : Except String mic_storage × Nat :=
  let data_offset := s_data_offset
  let m_data_offset := data_offset / sizeof_data_t
  let next_data_offset := mic_storage.next_data_offset data_offset
  match posix_memalign (2 * 1024 * 1024) ((size + m_data_offset) * sizeof_data_t) with
  | none => (Except.error mic_storage.bad_alloc, next_data_offset)
  | some p =>
      (Except.ok { m_cpu_ptr := p + m_data_offset * sizeof_data_t,
                   m_ownership := ownership.Full,
                   m_data_offset := some m_data_offset },
        next_data_offset)

/-- The value of the static `s_data_offset` after `n` sequential constructions. -/
def mic_storage.s_data_offset_after : Nat → Nat
  | 0 => mic_storage.s_data_offset_init
  | n + 1 => mic_storage.next_data_offset (mic_storage.s_data_offset_after n)

/-- The constructor `mic_storage(uint_t size, data_t *external_ptr, ownership own)`
(`own` defaults to `ownership::ExternalCPU`); it does not set `m_data_offset`. -/
def mic_storage.construct_external (_size : Nat) (external_ptr : Nat) (own : ownership) :
    Except String mic_storage := do
  let m_ownership ← error_or_return (own == ownership.ExternalCPU) own
    mic_storage.ownership_message
  pure { m_cpu_ptr := external_ptr, m_ownership := m_ownership, m_data_offset := none }

/-! ## Part 7: the CUDA kernel of the icosahedral backend

`include/stencil-composition/icosahedral_grids/backend_cuda/execute_kernel_functor_cuda.hpp`.
`uint_t` and the CUDA index types are unsigned integers of `w` bits, `w` being a
parameter: their arithmetic is modulo `2 ^ w`.  An `int` has the same `w` bits;
a conversion of an unsigned value to `int` wraps to two's complement. -/

/-- The template argument `block_size<I, J>`: the values `i_size_t::value` and
`j_size_t::value`. -/
structure block_size where
  i_size_t : Nat
  j_size_t : Nat
  deriving Repr, DecidableEq

/-- The value an unsigned integer of `w` bits takes for the mathematical result
`n` of an operation. -/
def to_uint_t (w : Nat) (n : Int) : Int := n % 2 ^ w

/-- The value an `int` of `w` bits takes when the unsigned value `v` of `w` bits
is converted to it: `v` itself below `2 ^ (w - 1)`, else `v - 2 ^ w`. -/
def to_int_t (w : Nat) (v : Int) : Int := if v < 2 ^ (w - 1) then v else v - 2 ^ w

/-- The expression of `do_it_on_gpu` for `block_size_i` and `block_size_j`, with
`size` the tile size along the axis, `n` the extent (`nx` or `ny`) and `b` the
block index (`blockIdx.x` or `blockIdx.y`):
`(b + 1) * size < n ? size : n - b * size`. -/
def do_it_on_gpu.block_size (w : Nat) (size n b : Int) : Int :=
  if to_uint_t w (to_uint_t w (b + 1) * size) < n then size
  else to_uint_t w (n - to_uint_t w (b * size))

/-- The integer locals of a thread of `do_it_on_gpu`. -/
structure IterateLocals where
  block_size_i : Int
  block_size_j : Int
  i : Int
  j : Int
  iblock : Int
  jblock : Int
  deriving Repr, DecidableEq

/-- The index arithmetic of `do_it_on_gpu` for the thread `(blockIdx, threadIdx)`:
the block sizes handed to the iterate domain and the `int` position `(i, j)` of
the thread with its `int` position `(iblock, jblock)` inside the block, which
keep their initial value `-1` unless `threadIdx.y < jboundary_limit`; the
right-hand sides are unsigned and are converted to `int` by the assignment, and
the `int` `jboundary_limit` is converted back for the unsigned comparison. -/
def do_it_on_gpu (w : Nat) (block_size_t : block_size) (nx ny : Int)
    (blockIdx threadIdx : dim3) : IterateLocals :=
  let block_size_i :=
    do_it_on_gpu.block_size w (block_size_t.i_size_t : Int) nx blockIdx.x
  let block_size_j :=
    do_it_on_gpu.block_size w (block_size_t.j_size_t : Int) ny blockIdx.y
  let jboundary_limit : Int := to_int_t w (block_size_t.j_size_t : Int)
  if threadIdx.y < to_uint_t w jboundary_limit then
    { block_size_i := block_size_i, block_size_j := block_size_j,
      i := to_int_t w (to_uint_t w
        (to_uint_t w (blockIdx.x * (block_size_t.i_size_t : Int)) + threadIdx.x)),
      j := to_int_t w (to_uint_t w
        (to_uint_t w (blockIdx.y * (block_size_t.j_size_t : Int)) + threadIdx.y)),
      iblock := to_int_t w threadIdx.x,
      jblock := to_int_t w threadIdx.y }
  else
    { block_size_i := block_size_i, block_size_j := block_size_j,
      i := -1, j := -1, iblock := -1, jblock := -1 }

/-- The number of blocks `(n + nt - 1) / nt` that
`execute_kernel_functor_cuda::operator()` computes along an axis. -/
def execute_kernel_functor_cuda.number_of_blocks (w : Nat) (n nt : Int) : Int :=
  to_uint_t w (to_uint_t w (n + nt) - 1) / nt

/-- The arguments of one launch
`m_packXLKernel<<<blocks, threads, shared_bytes>>>(d_data, d_msgbufTab, d_msgsize, halo_d, ny, nz, field_index)`
that vary between launches; `d_msgbufTab`, `d_msgsize` and `halo_d` are those of
the calling routine. -/
structure XLLaunch (V : Type) where
  blocks : dim3
  threads : dim3
  shared_bytes : Int
  d_data : Int → V
  ny : Int
  nz : Int
  field_index : Int

/-- The stores one launch performs (the dynamic shared memory size does not
enter the kernel's arithmetic). -/
def XLLaunch.stores {V : Type} (l : XLLaunch V) (d_msgsize : Int → Int)
    (halo_d : Nat → halo_descriptor) : List (Store V) :=
  launch l.blocks l.threads
    (m_packXLKernel l.d_data d_msgsize (halo_d 0) (halo_d 1) (halo_d 2) l.ny l.nz l.field_index)

/-- The launches of `m_packXL`, in program order (`none` when the first launch is
rejected, see `m_packXL_stores`); a launch `<<<blocks, threads>>>` has no dynamic
shared memory. -/
def m_packXL_launches {V : Type} (d_data_array : List (Int → V))
    (halo : Nat → halo_descriptor) : Option (List (XLLaunch V)) :=
  let ntx : Int := 1
  let nty : Int := 32
  let ntz : Int := 8
  let threads : dim3 := { x := ntx, y := nty, z := ntz }
  let nx := (halo 0).s_length (-1)
  let ny := (halo 1).s_length 0
  let nz := (halo 2).s_length 0
  let nbx := (nx + ntx - 1).tdiv ntx
  let nby := (ny + nty - 1).tdiv nty
  let nbz := (nz + ntz - 1).tdiv ntz
  let blocks : dim3 := { x := nbx, y := nby, z := nbz }
  if nbx = 0 ∨ nby = 0 ∨ nbz = 0 then some []
  else
    let niter := d_data_array.length
    if niter = 0 then some []
    else if nbx < 0 ∨ nby < 0 ∨ nbz < 0 then none
    else
      some ((List.range niter).flatMap fun i =>
        match d_data_array[i]? with
        | some d_data =>
            [{ blocks := blocks, threads := threads, shared_bytes := 0, d_data := d_data,
               ny := ny, nz := nz, field_index := (i : Int) }]
        | none => [])

/-- The launch of `call_kernel_XL(blocks, threads, b, d_data, d_msgbufTab,
d_msgsize, halo_d, nx, ny, i)`: its parameters `nx`, `ny`, `i` are handed to the
kernel as `ny`, `nz`, `field_index`. -/
def call_kernel_XL {V : Type} (blocks threads : dim3) (b : Int) (d_data : Int → V)
    (nx ny : Int) (i : Nat) : XLLaunch V :=
  { blocks := blocks, threads := threads, shared_bytes := b, d_data := d_data,
    ny := nx, nz := ny, field_index := (i : Int) }

/-- The launches of `m_packXL_variadic`, in program order: the initializer list
`{call_kernel_XL(blocks, threads, 0, std::get<Ids>(d_datas), ..., ny, nz, Ids)...}`
is evaluated from left to right, one call per element of `Ids`. -/
def m_packXL_variadic_launches {V : Type} (halo : Nat → halo_descriptor)
    (d_datas : List (Int → V)) (Ids : List Nat) : Option (List (XLLaunch V)) :=
  let ntx : Int := 1
  let nty : Int := 32
  let ntz : Int := 8
  let threads : dim3 := { x := ntx, y := nty, z := ntz }
  let nx := (halo 0).s_length (-1)
  let ny := (halo 1).s_length 0
  let nz := (halo 2).s_length 0
  let nbx := (nx + ntx - 1).tdiv ntx
  let nby := (ny + nty - 1).tdiv nty
  let nbz := (nz + ntz - 1).tdiv ntz
  let blocks : dim3 := { x := nbx, y := nby, z := nbz }
  if nbx = 0 ∨ nby = 0 ∨ nbz = 0 then some []
  else
    if Ids = [] then some []
    else if nbx < 0 ∨ nby < 0 ∨ nbz < 0 then none
    else
      some (Ids.flatMap fun id =>
        match d_datas[id]? with
        | some d_data => [call_kernel_XL blocks threads 0 d_data ny nz id]
        | none => [])

/-- The host routine `m_packXL_variadic`: the message buffers after the call. -/
def m_packXL_variadic {V : Type} (d_msgbufTab : Msgbuf V) (d_msgsize : Int → Int)
    (halo halo_d : Nat → halo_descriptor) (d_datas : List (Int → V)) (Ids : List Nat) :
    Option (Msgbuf V) :=
  (m_packXL_variadic_launches halo d_datas Ids).map fun ls =>
    d_msgbufTab.write_all (ls.flatMap fun l => l.stores d_msgsize halo_d)

/-! ## Properties of the linearization -/

mutual
theorem push_into_append {α : Type} (p : PushArg) (v : List (MplType α)) (x : MplType α) :
    push_into p v x = v ++ push_into p [] x := by
  match x with
  | .descr (.independent_esf l) =>
    rw [push_into.eq_1, push_into.eq_1]
    exact fold_push_into_append p l v
  | .descr (.esf a) => simp [push_into]
  | .false_type => simp [push_into]
  | .true_type => simp [push_into]
termination_by sizeOf x
decreasing_by
  simp only [MplType.descr.sizeOf_spec, EsfDescr.independent_esf.sizeOf_spec]
  omega
theorem fold_push_into_append {α : Type} (p : PushArg) (l : List (EsfDescr α))
    (v : List (MplType α)) :
    fold_push_into p l v = v ++ fold_push_into p l [] := by
  match l with
  | [] => simp [fold_push_into]
  | e :: es =>
    rw [fold_push_into.eq_2, fold_push_into.eq_2,
      fold_push_into_append p es (push_into p v (p.subst e)),
      fold_push_into_append p es (push_into p [] (p.subst e)),
      push_into_append p v (p.subst e)]
    simp
termination_by sizeOf l + 1
decreasing_by
  all_goals
    have h1 : sizeOf (p.subst e) ≤ sizeOf e + 1 := by
      cases p
      · simp only [PushArg.subst, MplType.descr.sizeOf_spec]; omega
      · simp [PushArg.subst]
      · simp [PushArg.subst]
    have h2 : 0 < sizeOf e := by
      cases e
      · simp only [EsfDescr.esf.sizeOf_spec]; omega
      · simp only [EsfDescr.independent_esf.sizeOf_spec]; omega
    simp only [List.cons.sizeOf_spec]
    omega
end

/-- The inner fold of `push_into` is the left fold of `push_into<_1, PushIndependent>`. -/
theorem fold_push_into_eq_foldl {α : Type} (p : PushArg) (l : List (EsfDescr α))
    (v : List (MplType α)) :
    fold_push_into p l v = l.foldl (fun w e => push_into p w (p.subst e)) v := by
  induction l generalizing v with
  | nil => simp [fold_push_into]
  | cons e es ih => rw [fold_push_into.eq_2, ih]; rfl

/-- Folding `push_into` from a start vector appends to it what the fold yields
from the empty vector. -/
theorem foldl_push_into_append {α : Type} (r p : PushArg) (l : List (EsfDescr α))
    (v : List (MplType α)) :
    l.foldl (fun w e => push_into p w (r.subst e)) v
      = v ++ l.foldl (fun w e => push_into p w (r.subst e)) [] := by
  induction l generalizing v with
  | nil => simp
  | cons e es ih =>
    simp only [List.foldl_cons]
    rw [ih (push_into p v (r.subst e)), ih (push_into p [] (r.subst e)),
      push_into_append p v (r.subst e)]
    simp

theorem linearize_esf_array_nil {α : Type} (r p : PushArg) :
    linearize_esf_array ([] : List (EsfDescr α)) r p = [] := rfl

theorem linearize_esf_array_cons {α : Type} (r p : PushArg) (e : EsfDescr α)
    (es : List (EsfDescr α)) :
    linearize_esf_array (e :: es) r p
      = push_into p [] (r.subst e) ++ linearize_esf_array es r p := by
  unfold linearize_esf_array
  rw [List.foldl_cons, foldl_push_into_append]

theorem linearize_esf_array_append {α : Type} (r p : PushArg) (xs ys : List (EsfDescr α)) :
    linearize_esf_array (xs ++ ys) r p
      = linearize_esf_array xs r p ++ linearize_esf_array ys r p := by
  unfold linearize_esf_array
  rw [List.foldl_append, foldl_push_into_append]

/-- With the placeholder `_2` in both positions, a group contributes the
linearization of its contents. -/
theorem push_into_independent_arg2 {α : Type} (g : List (EsfDescr α)) :
    push_into PushArg.arg2 [] (PushArg.arg2.subst (EsfDescr.independent_esf g))
      = linearize_esf_array g PushArg.arg2 PushArg.arg2 := by
  simp only [PushArg.subst]
  rw [push_into.eq_1, fold_push_into_eq_foldl]
  rfl

/-- With the placeholder `_2`, a plain ESF contributes itself. -/
theorem push_into_esf_arg2 {α : Type} (a : α) :
    push_into PushArg.arg2 [] (PushArg.arg2.subst (EsfDescr.esf a))
      = [MplType.descr (EsfDescr.esf a)] := by
  simp [PushArg.subst, push_into]

/-- A sequence of plain ESFs linearizes to itself. -/
theorem linearize_esf_array_plain {α : Type} (l : List α) :
    linearize_esf_array (l.map EsfDescr.esf) PushArg.arg2 PushArg.arg2
      = l.map (fun a => MplType.descr (EsfDescr.esf a)) := by
  induction l with
  | nil => rfl
  | cons a as ih =>
    rw [List.map_cons, linearize_esf_array_cons, push_into_esf_arg2, ih]
    rfl

/-- With a boolean type as `PushRegular`, every entry of the sequence, plain or
group, contributes exactly that type. -/
theorem linearize_esf_array_false_type {α : Type} (p : PushArg) (l : List (EsfDescr α)) :
    linearize_esf_array l PushArg.false_type p
      = List.replicate l.length MplType.false_type := by
  induction l with
  | nil => rfl
  | cons e es ih =>
    rw [linearize_esf_array_cons, ih]
    simp [PushArg.subst, push_into, List.replicate_succ]

/-- Claim C1: linearization is order-preserving around an independent group.  For
every stage whose ESF list is `xs ++ [independent(g)] ++ ys` the linear ESF
sequence is the linearization of `xs`, followed by that of `g`, followed by that
of `ys`; the shallow-water stage
`(independent(first_step_x, second_step_y), final_step)` linearizes to
`[first_step_x, second_step_y, final_step]`. -/
theorem C1_linearization_order_preserving :
    (∀ (α : Type) (e : ExecutionEngine) (c : List Nat) (xs g ys : List (EsfDescr α)),
      mss_descriptor_linear_esf_sequence
          { execution_engine := e,
            esf_descr_sequence := xs ++ [make_independent g] ++ ys,
            cache_sequence := c }
        = mss_descriptor_linear_esf_sequence
              { execution_engine := e, esf_descr_sequence := xs, cache_sequence := c }
          ++ mss_descriptor_linear_esf_sequence
              { execution_engine := e, esf_descr_sequence := g, cache_sequence := c }
          ++ mss_descriptor_linear_esf_sequence
              { execution_engine := e, esf_descr_sequence := ys, cache_sequence := c })
    ∧ mss_descriptor_linear_esf_sequence shallow_water_mss
        = [MplType.descr (EsfDescr.esf ShallowWaterFunctor.first_step_x),
           MplType.descr (EsfDescr.esf ShallowWaterFunctor.second_step_y),
           MplType.descr (EsfDescr.esf ShallowWaterFunctor.final_step)] := by
  refine ⟨?_, ?_⟩
  · intro α e c xs g ys
    simp only [mss_descriptor_linear_esf_sequence, make_independent]
    rw [linearize_esf_array_append, linearize_esf_array_append, linearize_esf_array_cons,
      push_into_independent_arg2, linearize_esf_array_nil, List.append_nil]
  · simp [mss_descriptor_linear_esf_sequence, shallow_water_mss, make_mss, make_independent,
      make_esf, linearize_esf_array, push_into, fold_push_into, PushArg.subst]

/-- Claim C2: a stage whose ESF list contains no independent group linearizes to
exactly its ESF list: the same descriptors in the same order, hence the same
length. -/
theorem C2_linearize_flat_identity {α : Type} (mss : mss_descriptor α)
    (hflat : ∀ d ∈ mss.esf_descr_sequence, d.is_independent = false) :
    mss_descriptor_linear_esf_sequence mss = mss.esf_descr_sequence.map MplType.descr
    ∧ (mss_descriptor_linear_esf_sequence mss).length = mss.esf_descr_sequence.length := by
  have key : ∀ l : List (EsfDescr α), (∀ d ∈ l, d.is_independent = false) →
      linearize_esf_array l PushArg.arg2 PushArg.arg2 = l.map MplType.descr := by
    intro l
    induction l with
    | nil => intro _; rfl
    | cons d ds ih =>
      intro h
      rw [linearize_esf_array_cons, ih (fun x hx => h x (List.mem_cons_of_mem _ hx))]
      cases d with
      | esf a => rw [push_into_esf_arg2]; rfl
      | independent_esf g =>
        have := h (EsfDescr.independent_esf g) (List.mem_cons_self _ _)
        simp [EsfDescr.is_independent] at this
  have h := key mss.esf_descr_sequence hflat
  refine ⟨h, ?_⟩
  rw [mss_descriptor_linear_esf_sequence, h, List.length_map]

/-- Claim C2 at the flat stage `(final_step, first_step_x)`. -/
theorem C2_linearize_flat_identity_witness :
    mss_descriptor_linear_esf_sequence
        (make_mss ExecutionEngine.forward
          [make_esf ShallowWaterFunctor.final_step, make_esf ShallowWaterFunctor.first_step_x])
      = [MplType.descr (EsfDescr.esf ShallowWaterFunctor.final_step),
         MplType.descr (EsfDescr.esf ShallowWaterFunctor.first_step_x)]
    ∧ (mss_descriptor_linear_esf_sequence
        (make_mss ExecutionEngine.forward
          [make_esf ShallowWaterFunctor.final_step,
           make_esf ShallowWaterFunctor.first_step_x])).length = 2 :=
  C2_linearize_flat_identity
    (make_mss ExecutionEngine.forward
      [make_esf ShallowWaterFunctor.final_step, make_esf ShallowWaterFunctor.first_step_x])
    (by simp [make_mss, make_esf, EsfDescr.is_independent])

/-- Claim C3: for ESFs `e1..en` split as `as ++ bs ++ cs` and grouped as
`independent(as.., independent(bs..), cs..)`, the linear ESF sequence is the same
as for the single-level group `independent(e1..en)`, namely `e1..en` from left to
right (so in particular the same multiset). -/
theorem C3_nested_independent_same_as_flat :
    ∀ (α : Type) (e : ExecutionEngine) (c : List Nat) (as bs cs : List α),
      mss_descriptor_linear_esf_sequence
          { execution_engine := e,
            esf_descr_sequence :=
              [make_independent
                (as.map make_esf ++ [make_independent (bs.map make_esf)] ++ cs.map make_esf)],
            cache_sequence := c }
        = mss_descriptor_linear_esf_sequence
            { execution_engine := e,
              esf_descr_sequence := [make_independent ((as ++ bs ++ cs).map make_esf)],
              cache_sequence := c }
      ∧ mss_descriptor_linear_esf_sequence
          { execution_engine := e,
            esf_descr_sequence :=
              [make_independent
                (as.map make_esf ++ [make_independent (bs.map make_esf)] ++ cs.map make_esf)],
            cache_sequence := c }
        = (as ++ bs ++ cs).map (fun a => MplType.descr (EsfDescr.esf a)) := by
  intro α e c as bs cs
  have hesf : (make_esf : α → EsfDescr α) = EsfDescr.esf := rfl
  have hflat : linearize_esf_array
      [EsfDescr.independent_esf ((as ++ bs ++ cs).map EsfDescr.esf)] PushArg.arg2 PushArg.arg2
      = (as ++ bs ++ cs).map (fun a => MplType.descr (EsfDescr.esf a)) := by
    rw [linearize_esf_array_cons, push_into_independent_arg2, linearize_esf_array_nil,
      List.append_nil, linearize_esf_array_plain]
  have hnested : linearize_esf_array
      [EsfDescr.independent_esf
        (as.map EsfDescr.esf ++ [EsfDescr.independent_esf (bs.map EsfDescr.esf)]
          ++ cs.map EsfDescr.esf)] PushArg.arg2 PushArg.arg2
      = (as ++ bs ++ cs).map (fun a => MplType.descr (EsfDescr.esf a)) := by
    rw [linearize_esf_array_cons, push_into_independent_arg2, linearize_esf_array_nil,
      List.append_nil, linearize_esf_array_append, linearize_esf_array_append,
      linearize_esf_array_cons, push_into_independent_arg2, linearize_esf_array_nil,
      List.append_nil, linearize_esf_array_plain, linearize_esf_array_plain,
      linearize_esf_array_plain]
    simp
  simp only [mss_descriptor_linear_esf_sequence, make_independent, hesf]
  exact ⟨hnested.trans hflat.symm, hnested⟩

/-- Claim C4, evaluated on the code: for the shallow-water stage
`(independent(first_step_x, second_step_y), final_step)` the boolean sequence of
`sequence_of_is_independent_esf` has 2 entries while the linear ESF sequence has
3; in general the boolean sequence has one entry per top-level entry of the
stage, because `push_into<_1, boost::false_type>` never sees the element. -/
theorem C4_is_independent_length_mismatch :
    (sequence_of_is_independent_esf shallow_water_mss).length = 2
    ∧ (mss_descriptor_linear_esf_sequence shallow_water_mss).length = 3
    ∧ ∀ (α : Type) (mss : mss_descriptor α),
        (sequence_of_is_independent_esf mss).length = mss.esf_descr_sequence.length := by
  refine ⟨?_, ?_, ?_⟩
  · simp [sequence_of_is_independent_esf, linearize_esf_array_false_type, shallow_water_mss,
      make_mss]
  · simp [mss_descriptor_linear_esf_sequence, shallow_water_mss, make_mss, make_independent,
      make_esf, linearize_esf_array, push_into, fold_push_into, PushArg.subst]
  · intro α mss
    simp [sequence_of_is_independent_esf, linearize_esf_array_false_type]

/-- Claim C5, evaluated on the code: for the shallow-water stage
`(independent(first_step_x, second_step_y), final_step)` the code yields
`[false_type, false_type]`, not `[true, true, false]`; in general every entry of
`sequence_of_is_independent_esf` is `false_type`. -/
theorem C5_is_independent_all_false :
    sequence_of_is_independent_esf shallow_water_mss
      = [MplType.false_type, MplType.false_type]
    ∧ ∀ (α : Type) (mss : mss_descriptor α),
        sequence_of_is_independent_esf mss
          = List.replicate mss.esf_descr_sequence.length MplType.false_type := by
  refine ⟨?_, ?_⟩
  · simp [sequence_of_is_independent_esf, linearize_esf_array_false_type, shallow_water_mss,
      make_mss, List.replicate]
  · intro α mss
    rw [sequence_of_is_independent_esf, linearize_esf_array_false_type]

/-! ## Properties of the packing kernels -/

/-- A cell no store of the sequence addresses keeps its contents. -/
theorem Msgbuf.write_all_frame {V : Type} (ss : List (Store V)) (m : Msgbuf V) (b i : Int)
    (h : ∀ s ∈ ss, ¬ (s.buffer = b ∧ s.index = i)) :
    m.write_all ss b i = m b i := by
  induction ss generalizing m with
  | nil => rfl
  | cons s rest ih =>
    have hs := h s (List.mem_cons_self _ _)
    have hrest := ih (m.write s) (fun t ht => h t (List.mem_cons_of_mem _ ht))
    have hw : m.write s b i = m b i := by
      unfold Msgbuf.write
      rw [if_neg]
      rintro ⟨h1, h2⟩
      exact hs ⟨h1.symm, h2.symm⟩
    calc m.write_all (s :: rest) b i = (m.write s).write_all rest b i := rfl
      _ = m.write s b i := hrest
      _ = m b i := hw

/-- The index triples of a `dim3` are those below it in each component. -/
theorem dim3.mem_indices (d t : dim3) :
    t ∈ d.indices ↔
      (0 ≤ t.x ∧ t.x < d.x) ∧ (0 ≤ t.y ∧ t.y < d.y) ∧ (0 ≤ t.z ∧ t.z < d.z) := by
  simp only [dim3.indices, List.mem_flatMap, List.mem_map, List.mem_range]
  constructor
  · rintro ⟨x, hx, y, hy, z, hz, rfl⟩
    simp only
    omega
  · rintro ⟨⟨hx0, hx1⟩, ⟨hy0, hy1⟩, ⟨hz0, hz1⟩⟩
    refine ⟨t.x.toNat, by omega, t.y.toNat, by omega, t.z.toNat, by omega, ?_⟩
    rw [Int.toNat_of_nonneg hx0, Int.toNat_of_nonneg hy0, Int.toNat_of_nonneg hz0]

/-- The stores of a launch are the stores of its threads. -/
theorem mem_launch {V : Type} (blocks threads : dim3)
    (kernel : dim3 → dim3 → dim3 → Option (Store V)) (s : Store V) :
    s ∈ launch blocks threads kernel ↔
      ∃ blockIdx threadIdx : dim3, blockIdx ∈ blocks.indices ∧ threadIdx ∈ threads.indices
        ∧ kernel blockIdx threads threadIdx = some s := by
  simp only [launch, List.mem_flatMap, List.mem_filterMap]
  constructor
  · rintro ⟨bi, hb, ti, ht, hk⟩
    exact ⟨bi, ti, hb, ht, hk⟩
  · rintro ⟨bi, ti, hb, ht, hk⟩
    exact ⟨bi, hb, ti, ht, hk⟩


theorem halo_descriptor.s_length_neg_one (h : halo_descriptor) : h.s_length (-1) = h.plus := by
  simp [halo_descriptor.s_length]

theorem halo_descriptor.s_length_zero (h : halo_descriptor) :
    h.s_length 0 = h.end_ - h.begin_ + 1 := by
  simp [halo_descriptor.s_length]

theorem halo_descriptor.s_length_one (h : halo_descriptor) : h.s_length 1 = h.minus := by
  simp [halo_descriptor.s_length]

/-- What one thread of `m_packXLKernel` stores. -/
theorem m_packXLKernel_eq_some {V : Type} (d_data : Int → V) (d_msgsize : Int → Int)
    (halo0 halo1 halo2 : halo_descriptor) (ny nz field_index : Int)
    (blockIdx blockDim threadIdx : dim3) (s : Store V) :
    m_packXLKernel d_data d_msgsize halo0 halo1 halo2 ny nz field_index
        blockIdx blockDim threadIdx = some s ↔
      (blockIdx.y * blockDim.y + threadIdx.y < ny ∧ blockIdx.z * blockDim.z + threadIdx.z < nz)
      ∧ s.buffer = 12
      ∧ s.index = blockIdx.x + (blockIdx.y * blockDim.y + threadIdx.y) * halo0.plus
          + (blockIdx.z * blockDim.z + threadIdx.z) * halo0.plus
              * (halo1.end_ - halo1.begin_ + 1)
          + field_index * d_msgsize 12
      ∧ s.value = d_data (blockIdx.x + halo0.begin_
          + (blockIdx.y * blockDim.y + threadIdx.y + halo1.begin_) * halo0.total_length
          + (blockIdx.z * blockDim.z + threadIdx.z + halo2.begin_) * halo0.total_length
              * halo1.total_length) := by
  obtain ⟨sb, si, sv⟩ := s
  simp only [m_packXLKernel, m_packXLKernel_locals]
  split
  · rename_i hg
    simp only [Option.some.injEq, Store.mk.injEq]
    constructor
    · rintro ⟨rfl, rfl, rfl⟩
      exact ⟨hg, by norm_num, rfl, rfl⟩
    · rintro ⟨_, h1, h2, h3⟩
      refine ⟨?_, h2.symm, h3.symm⟩
      rw [h1]; norm_num
  · rename_i hg
    constructor
    · intro h; cases h
    · rintro ⟨h, _⟩; exact absurd h hg

/-- The block counts of `m_packXL` on a non-degenerate halo triple. -/
theorem m_packXL_block_counts (halo : Nat → halo_descriptor)
    (hy : (halo 1).begin_ ≤ (halo 1).end_) (hz : (halo 2).begin_ ≤ (halo 2).end_) :
    ((halo 0).plus + 1 - 1).tdiv 1 = (halo 0).plus
    ∧ ((halo 1).end_ - (halo 1).begin_ + 1 + 32 - 1).tdiv 32
        = ((halo 1).end_ - (halo 1).begin_ + 32) / 32
    ∧ ((halo 2).end_ - (halo 2).begin_ + 1 + 8 - 1).tdiv 8
        = ((halo 2).end_ - (halo 2).begin_ + 8) / 8 := by
  refine ⟨by simp, ?_, ?_⟩
  · rw [Int.tdiv_eq_ediv (by omega) (by norm_num)]
    congr 1; ring
  · rw [Int.tdiv_eq_ediv (by omega) (by norm_num)]
    congr 1; ring

/-- The stores of one launch of `m_packXL` on a non-degenerate halo triple: one
per point `(a, b, c)` of the `plus0 × len1 × len2` box. -/
theorem m_packXL_launch_spec {V : Type} (d_data : Int → V)
    (d_msgsize : Int → Int) (halo halo_d : Nat → halo_descriptor) (f : Nat)
    (hy : (halo 1).begin_ ≤ (halo 1).end_)
    (hz : (halo 2).begin_ ≤ (halo 2).end_) (s : Store V) :
    s ∈ m_packXL_launch d_data d_msgsize halo halo_d f ↔
      ∃ (a b c : Int),
        (0 ≤ a ∧ a < (halo 0).plus)
        ∧ (0 ≤ b ∧ b < (halo 1).end_ - (halo 1).begin_ + 1)
        ∧ (0 ≤ c ∧ c < (halo 2).end_ - (halo 2).begin_ + 1)
        ∧ s.buffer = 12
        ∧ s.index = a + b * (halo_d 0).plus
            + c * (halo_d 0).plus * ((halo_d 1).end_ - (halo_d 1).begin_ + 1)
            + (f : Int) * d_msgsize 12
        ∧ s.value = d_data (a + (halo_d 0).begin_
            + (b + (halo_d 1).begin_) * (halo_d 0).total_length
            + (c + (halo_d 2).begin_) * (halo_d 0).total_length * (halo_d 1).total_length) := by
  obtain ⟨hnbx, hnby, hnbz⟩ := m_packXL_block_counts halo hy hz
  simp only [m_packXL_launch, halo_descriptor.s_length_neg_one, halo_descriptor.s_length_zero,
    hnbx, hnby, hnbz]
  rw [mem_launch]
  constructor
  · rintro ⟨bi, ti, hb, ht, hk⟩
    rw [dim3.mem_indices] at hb ht
    rw [m_packXLKernel_eq_some] at hk
    simp only at hb ht hk
    obtain ⟨⟨hg1, hg2⟩, hk1, hk2, hk3⟩ := hk
    refine ⟨bi.x, bi.y * 32 + ti.y, bi.z * 8 + ti.z, ?_, ?_, ?_, hk1, hk2, hk3⟩
    · omega
    · omega
    · omega
  · rintro ⟨a, b, c, ha, hb, hc, hk1, hk2, hk3⟩
    refine ⟨⟨a, b / 32, c / 8⟩, ⟨0, b % 32, c % 8⟩, ?_, ?_, ?_⟩
    · rw [dim3.mem_indices]; simp only; omega
    · rw [dim3.mem_indices]; simp only; omega
    · rw [m_packXLKernel_eq_some]
      simp only
      have e1 : b / 32 * 32 + b % 32 = b := by omega
      have e2 : c / 8 * 8 + c % 8 = c := by omega
      rw [e1, e2]
      exact ⟨⟨hb.2, hc.2⟩, hk1, hk2, hk3⟩

/-- On a non-degenerate halo triple `m_packXL` returns normally, having performed
the launches of its fields one after the other. -/
theorem m_packXL_stores_eq {V : Type} (d_data_array : List (Int → V))
    (d_msgsize : Int → Int) (halo halo_d : Nat → halo_descriptor)
    (hx : 1 ≤ (halo 0).plus) (hy : (halo 1).begin_ ≤ (halo 1).end_)
    (hz : (halo 2).begin_ ≤ (halo 2).end_) :
    m_packXL_stores d_data_array d_msgsize halo halo_d
      = some ((List.range d_data_array.length).flatMap fun i =>
          match d_data_array[i]? with
          | some d_data => m_packXL_launch d_data d_msgsize halo halo_d i
          | none => []) := by
  obtain ⟨hnbx, hnby, hnbz⟩ := m_packXL_block_counts halo hy hz
  simp only [m_packXL_stores, halo_descriptor.s_length_neg_one, halo_descriptor.s_length_zero,
    hnbx, hnby, hnbz]
  rw [if_neg (by omega)]
  by_cases hn : d_data_array.length = 0
  · rw [if_pos hn, hn]
    rfl
  · rw [if_neg hn, if_neg (by omega)]

/-- The stores performed by `m_packXL` on a non-degenerate halo triple: one per
field `f` and per point `(a, b, c)` of the `plus0 × len1 × len2` box. -/
theorem m_packXL_stores_spec {V : Type} (d_data_array : List (Int → V))
    (d_msgsize : Int → Int) (halo halo_d : Nat → halo_descriptor)
    (hx : 1 ≤ (halo 0).plus) (hy : (halo 1).begin_ ≤ (halo 1).end_)
    (hz : (halo 2).begin_ ≤ (halo 2).end_) :
    ∃ ss, m_packXL_stores d_data_array d_msgsize halo halo_d = some ss ∧
      ∀ s : Store V, s ∈ ss ↔
        ∃ (f : Nat) (d_data : Int → V) (a b c : Int),
          d_data_array[f]? = some d_data
          ∧ (0 ≤ a ∧ a < (halo 0).plus)
          ∧ (0 ≤ b ∧ b < (halo 1).end_ - (halo 1).begin_ + 1)
          ∧ (0 ≤ c ∧ c < (halo 2).end_ - (halo 2).begin_ + 1)
          ∧ s.buffer = 12
          ∧ s.index = a + b * (halo_d 0).plus
              + c * (halo_d 0).plus * ((halo_d 1).end_ - (halo_d 1).begin_ + 1)
              + (f : Int) * d_msgsize 12
          ∧ s.value = d_data (a + (halo_d 0).begin_
              + (b + (halo_d 1).begin_) * (halo_d 0).total_length
              + (c + (halo_d 2).begin_) * (halo_d 0).total_length * (halo_d 1).total_length) := by
  refine ⟨_, m_packXL_stores_eq d_data_array d_msgsize halo halo_d hx hy hz, ?_⟩
  intro s
  simp only [List.mem_flatMap, List.mem_range]
  constructor
  · rintro ⟨f, hf, hs⟩
    have hget : d_data_array[f]? = some d_data_array[f] := List.getElem?_eq_getElem hf
    rw [hget] at hs
    obtain ⟨a, b, c, h⟩ := (m_packXL_launch_spec _ d_msgsize halo halo_d f hy hz s).mp hs
    exact ⟨f, d_data_array[f], a, b, c, hget, h⟩
  · rintro ⟨f, d, a, b, c, hf, h⟩
    have hlt : f < d_data_array.length := by
      by_contra hcon
      rw [List.getElem?_eq_none (by omega)] at hf
      cases hf
    refine ⟨f, hlt, ?_⟩
    rw [hf]
    exact (m_packXL_launch_spec d d_msgsize halo halo_d f hy hz s).mpr ⟨a, b, c, h⟩

/-- Quotient and remainder are determined: `r + n * q` with `0 ≤ r < n` fixes `r`
and `q`. -/
theorem radix_unique (n r q r2 q2 : Int) (hr : 0 ≤ r ∧ r < n) (hr2 : 0 ≤ r2 ∧ r2 < n)
    (h : r + n * q = r2 + n * q2) : r = r2 ∧ q = q2 := by
  have hn : 0 < n := by omega
  have hq : q = q2 := by
    by_contra hne
    rcases lt_or_gt_of_ne hne with hlt | hgt
    · have : n * (q + 1) ≤ n * q2 := Int.mul_le_mul_of_nonneg_left (by omega) hn.le
      have e : n * (q + 1) = n * q + n := by ring
      omega
    · have : n * (q2 + 1) ≤ n * q := Int.mul_le_mul_of_nonneg_left (by omega) hn.le
      have e : n * (q2 + 1) = n * q2 + n := by ring
      omega
  subst hq
  exact ⟨by omega, rfl⟩

/-- The offset of a point of a `P × L1 × L2` box lies in `[0, P * L1 * L2)`. -/
theorem box_index_bounds (P L1 L2 a b c : Int) (ha : 0 ≤ a ∧ a < P) (hb : 0 ≤ b ∧ b < L1)
    (hc : 0 ≤ c ∧ c < L2) :
    0 ≤ a + b * P + c * P * L1 ∧ a + b * P + c * P * L1 < P * L1 * L2 := by
  have hP : 0 < P := by omega
  have hL1 : 0 < L1 := by omega
  have h1 : 0 ≤ b * P := Int.mul_nonneg hb.1 hP.le
  have h2 : 0 ≤ c * P * L1 := Int.mul_nonneg (Int.mul_nonneg hc.1 hP.le) hL1.le
  have h3 : (b + 1) * P ≤ L1 * P := Int.mul_le_mul_of_nonneg_right (by omega) hP.le
  have h4 : (c + 1) * (P * L1) ≤ L2 * (P * L1) :=
    Int.mul_le_mul_of_nonneg_right (by omega) (Int.mul_nonneg hP.le hL1.le)
  have e3 : (b + 1) * P = b * P + P := by ring
  have e4 : (c + 1) * (P * L1) = c * P * L1 + P * L1 := by ring
  have e5 : L2 * (P * L1) = P * L1 * L2 := by ring
  have e6 : L1 * P = P * L1 := by ring
  constructor
  · omega
  · omega

/-- The offset of a point of a `P × L1 × ..` box determines the point. -/
theorem box_index_inj (P L1 a b c a2 b2 c2 : Int) (ha : 0 ≤ a ∧ a < P)
    (ha2 : 0 ≤ a2 ∧ a2 < P) (hb : 0 ≤ b ∧ b < L1) (hb2 : 0 ≤ b2 ∧ b2 < L1)
    (h : a + b * P + c * P * L1 = a2 + b2 * P + c2 * P * L1) :
    a = a2 ∧ b = b2 ∧ c = c2 := by
  have e1 : a + b * P + c * P * L1 = a + P * (b + L1 * c) := by ring
  have e2 : a2 + b2 * P + c2 * P * L1 = a2 + P * (b2 + L1 * c2) := by ring
  rw [e1, e2] at h
  obtain ⟨h1, h2⟩ := radix_unique P a _ a2 _ ha ha2 h
  obtain ⟨h3, h4⟩ := radix_unique L1 b c b2 c2 hb hb2 h2
  exact ⟨h1, h3, h4⟩

/-- Claim C8: for every thread of `m_packXLKernel` and of `m_packZUKernel` the
buffer index is `b_ind = ba + 3*bb + 9*bc` with `ba, bb, bc ∈ {0, 1, 2}`, so
`0 ≤ b_ind ≤ 26`; it is 12 for XL and lies in 18..26 for ZU, hence it is never
13, and it is the buffer the store of a thread that passes the guard goes to. -/
theorem C8_b_ind_direction_code :
    ∀ (V : Type) (d_data : Int → V) (d_msgsize : Int → Int)
      (halo0 halo1 halo2 : halo_descriptor) (n1 n2 field_index : Int)
      (blockIdx blockDim threadIdx : dim3),
      let xl := m_packXLKernel_locals d_msgsize halo0 halo1 halo2 field_index
        blockIdx blockDim threadIdx
      let zu := m_packZUKernel_locals d_msgsize halo0 halo1 halo2 field_index
        blockIdx blockDim threadIdx
      (xl.b_ind = xl.ba + 3 * xl.bb + 9 * xl.bc
        ∧ (xl.ba = 0 ∨ xl.ba = 1 ∨ xl.ba = 2) ∧ (xl.bb = 0 ∨ xl.bb = 1 ∨ xl.bb = 2)
        ∧ (xl.bc = 0 ∨ xl.bc = 1 ∨ xl.bc = 2)
        ∧ 0 ≤ xl.b_ind ∧ xl.b_ind ≤ 26 ∧ xl.b_ind ≠ 13 ∧ xl.b_ind = 12)
      ∧ (zu.b_ind = zu.ba + 3 * zu.bb + 9 * zu.bc
        ∧ (zu.ba = 0 ∨ zu.ba = 1 ∨ zu.ba = 2) ∧ (zu.bb = 0 ∨ zu.bb = 1 ∨ zu.bb = 2)
        ∧ (zu.bc = 0 ∨ zu.bc = 1 ∨ zu.bc = 2)
        ∧ 0 ≤ zu.b_ind ∧ zu.b_ind ≤ 26 ∧ zu.b_ind ≠ 13 ∧ 18 ≤ zu.b_ind)
      ∧ (m_packXLKernel d_data d_msgsize halo0 halo1 halo2 n1 n2 field_index
            blockIdx blockDim threadIdx).map Store.buffer
          = (if xl.idy < n1 ∧ xl.idz < n2 then some xl.b_ind else none)
      ∧ (m_packZUKernel d_data d_msgsize halo0 halo1 halo2 n1 n2 field_index
            blockIdx blockDim threadIdx).map Store.buffer
          = (if zu.idx < n1 ∧ zu.idy < n2 then some zu.b_ind else none) := by
  intro V d_data d_msgsize halo0 halo1 halo2 n1 n2 field_index blockIdx blockDim threadIdx
  dsimp only
  refine ⟨?_, ?_, ?_, ?_⟩
  · refine ⟨rfl, ?_⟩
    simp only [m_packXLKernel_locals]
    norm_num
  · refine ⟨rfl, ?_⟩
    simp only [m_packZUKernel_locals]
    refine ⟨?_, ?_, by norm_num, ?_⟩
    · split_ifs <;> simp
    · split_ifs <;> simp
    · split_ifs <;> norm_num
  · simp only [m_packXLKernel]
    split_ifs <;> rfl
  · simp only [m_packZUKernel]
    split_ifs <;> rfl


/-! ### Distinctness of the cells written -/

/-- Keys stay distinct across a `flatMap` when they are distinct within each
part and equal keys can only come from the same part. -/
theorem nodup_map_flatMap {α β γ : Type} (l : List α) (g : α → List β) (k : β → γ)
    (hl : l.Nodup) (hin : ∀ x ∈ l, ((g x).map k).Nodup)
    (hcross : ∀ x ∈ l, ∀ y ∈ l, ∀ s ∈ g x, ∀ t ∈ g y, k s = k t → x = y) :
    ((l.flatMap g).map k).Nodup := by
  induction l with
  | nil => simp
  | cons x xs ih =>
    rw [List.flatMap_cons, List.map_append, List.nodup_append]
    obtain ⟨hx, hxs⟩ := List.nodup_cons.mp hl
    refine ⟨hin x (List.mem_cons_self _ _), ?_, ?_⟩
    · exact ih hxs (fun y hy => hin y (List.mem_cons_of_mem _ hy))
        (fun y hy z hz => hcross y (List.mem_cons_of_mem _ hy) z (List.mem_cons_of_mem _ hz))
    · intro c hc1 hc2
      obtain ⟨s, hs, rfl⟩ := List.mem_map.mp hc1
      obtain ⟨t, ht, hkt⟩ := List.mem_map.mp hc2
      obtain ⟨y, hy, hty⟩ := List.mem_flatMap.mp ht
      have := hcross x (List.mem_cons_self _ _) y (List.mem_cons_of_mem _ hy) s hs t hty hkt.symm
      exact hx (this ▸ hy)

/-- Keys stay distinct across a `filterMap` when equal keys can only come from
the same element. -/
theorem nodup_map_filterMap {α β γ : Type} (l : List α) (g : α → Option β) (k : β → γ)
    (hl : l.Nodup)
    (hinj : ∀ x ∈ l, ∀ y ∈ l, ∀ s t, g x = some s → g y = some t → k s = k t → x = y) :
    ((l.filterMap g).map k).Nodup := by
  induction l with
  | nil => simp
  | cons x xs ih =>
    obtain ⟨hx, hxs⟩ := List.nodup_cons.mp hl
    have ih2 := ih hxs (fun y hy z hz =>
      hinj y (List.mem_cons_of_mem _ hy) z (List.mem_cons_of_mem _ hz))
    cases hgx : g x with
    | none => rw [List.filterMap_cons_none hgx]; exact ih2
    | some s =>
      rw [List.filterMap_cons_some hgx, List.map_cons, List.nodup_cons]
      refine ⟨?_, ih2⟩
      intro hmem
      obtain ⟨t, ht, hkt⟩ := List.mem_map.mp hmem
      obtain ⟨y, hy, hgy⟩ := List.mem_filterMap.mp ht
      have := hinj x (List.mem_cons_self _ _) y (List.mem_cons_of_mem _ hy) s t hgx hgy hkt.symm
      exact hx (this ▸ hy)

/-- The index triples of a `dim3` are listed once each. -/
theorem dim3.nodup_indices (d : dim3) : d.indices.Nodup := by
  have key : ∀ (l : List dim3), (l.map id).Nodup → l.Nodup := fun l h => by simpa using h
  apply key
  unfold dim3.indices
  apply nodup_map_flatMap _ _ _ (List.nodup_range _)
  · intro x _
    apply nodup_map_flatMap _ _ _ (List.nodup_range _)
    · intro y _
      rw [List.map_id]
      apply List.Nodup.map _ (List.nodup_range _)
      intro z1 z2 h
      simp only [dim3.mk.injEq, Nat.cast_inj, true_and] at h
      exact h
    · intro y1 _ y2 _ s hs t ht hst
      obtain ⟨z1, _, rfl⟩ := List.mem_map.mp hs
      obtain ⟨z2, _, rfl⟩ := List.mem_map.mp ht
      simp only [id, dim3.mk.injEq, Nat.cast_inj, true_and] at hst
      exact hst.1
  · intro x1 _ x2 _ s hs t ht hst
    obtain ⟨y1, _, hs⟩ := List.mem_flatMap.mp hs
    obtain ⟨y2, _, ht⟩ := List.mem_flatMap.mp ht
    obtain ⟨z1, _, rfl⟩ := List.mem_map.mp hs
    obtain ⟨z2, _, rfl⟩ := List.mem_map.mp ht
    simp only [id, dim3.mk.injEq, Nat.cast_inj] at hst
    exact hst.1

/-- The keys of the stores of a launch are distinct when two threads storing
under the same key are the same thread. -/
theorem nodup_map_launch {V γ : Type} (blocks threads : dim3)
    (kernel : dim3 → dim3 → dim3 → Option (Store V)) (k : Store V → γ)
    (hinj : ∀ b1 ∈ blocks.indices, ∀ b2 ∈ blocks.indices, ∀ t1 ∈ threads.indices,
      ∀ t2 ∈ threads.indices, ∀ s1 s2, kernel b1 threads t1 = some s1 →
      kernel b2 threads t2 = some s2 → k s1 = k s2 → b1 = b2 ∧ t1 = t2) :
    ((launch blocks threads kernel).map k).Nodup := by
  unfold launch
  apply nodup_map_flatMap _ _ _ (dim3.nodup_indices _)
  · intro b hb
    apply nodup_map_filterMap _ _ _ (dim3.nodup_indices _)
    intro t1 ht1 t2 ht2 s1 s2 h1 h2 hk
    exact (hinj b hb b hb t1 ht1 t2 ht2 s1 s2 h1 h2 hk).2
  · intro b1 hb1 b2 hb2 s1 hs1 s2 hs2 hk
    obtain ⟨t1, ht1, h1⟩ := List.mem_filterMap.mp hs1
    obtain ⟨t2, ht2, h2⟩ := List.mem_filterMap.mp hs2
    exact (hinj b1 hb1 b2 hb2 t1 ht1 t2 ht2 s1 s2 h1 h2 hk).1


theorem dim3.eq_of_components (p q : dim3) (hx : p.x = q.x) (hy : p.y = q.y) (hz : p.z = q.z) :
    p = q := by
  cases p; cases q
  simp only [dim3.mk.injEq]
  exact ⟨hx, hy, hz⟩

/-- Within one launch of `m_packXL` (non-degenerate halo triple, the kernel
reading the same descriptors as the host) no cell index is stored to twice. -/
theorem m_packXL_launch_nodup {V : Type} (d_data : Int → V) (d_msgsize : Int → Int)
    (halo : Nat → halo_descriptor) (f : Nat)
    (hy : (halo 1).begin_ ≤ (halo 1).end_) (hz : (halo 2).begin_ ≤ (halo 2).end_) :
    ((m_packXL_launch d_data d_msgsize halo halo f).map Store.index).Nodup := by
  obtain ⟨hnbx, hnby, hnbz⟩ := m_packXL_block_counts halo hy hz
  simp only [m_packXL_launch, halo_descriptor.s_length_neg_one, halo_descriptor.s_length_zero,
    hnbx, hnby, hnbz]
  apply nodup_map_launch
  intro b1 hb1 b2 hb2 t1 ht1 t2 ht2 s1 s2 h1 h2 hk
  rw [dim3.mem_indices] at hb1 hb2 ht1 ht2
  rw [m_packXLKernel_eq_some] at h1 h2
  simp only at hb1 hb2 ht1 ht2 h1 h2
  obtain ⟨⟨hg1, hg1z⟩, _, hi1, _⟩ := h1
  obtain ⟨⟨hg2, hg2z⟩, _, hi2, _⟩ := h2
  rw [hi1, hi2] at hk
  have hk2 : b1.x + (b1.y * 32 + t1.y) * (halo 0).plus
      + (b1.z * 8 + t1.z) * (halo 0).plus * ((halo 1).end_ - (halo 1).begin_ + 1)
      = b2.x + (b2.y * 32 + t2.y) * (halo 0).plus
      + (b2.z * 8 + t2.z) * (halo 0).plus * ((halo 1).end_ - (halo 1).begin_ + 1) := by
    omega
  obtain ⟨e1, e2, e3⟩ := box_index_inj _ _ _ _ _ _ _ _ (by omega) (by omega)
    (by omega) (by omega) hk2
  constructor
  · apply dim3.eq_of_components <;> omega
  · apply dim3.eq_of_components <;> omega

/-- Every offset below `P * L1 * L2` is the offset of a point of the box. -/
theorem box_index_surj (P L1 L2 r : Int) (hP : 0 < P) (hL1 : 0 < L1)
    (hr : 0 ≤ r ∧ r < P * L1 * L2) :
    ∃ a b c : Int, (0 ≤ a ∧ a < P) ∧ (0 ≤ b ∧ b < L1) ∧ (0 ≤ c ∧ c < L2)
      ∧ r = a + b * P + c * P * L1 := by
  refine ⟨r % P, (r / P) % L1, (r / P) / L1,
    ⟨Int.emod_nonneg _ (by omega), Int.emod_lt_of_pos _ hP⟩,
    ⟨Int.emod_nonneg _ (by omega), Int.emod_lt_of_pos _ hL1⟩, ⟨?_, ?_⟩, ?_⟩
  · exact Int.ediv_nonneg (Int.ediv_nonneg hr.1 hP.le) hL1.le
  · apply Int.ediv_lt_of_lt_mul hL1
    apply Int.ediv_lt_of_lt_mul hP
    have e : L2 * L1 * P = P * L1 * L2 := by ring
    omega
  · have h1 := Int.emod_add_ediv r P
    have h2 := Int.emod_add_ediv (r / P) L1
    calc r = r % P + P * (r / P) := h1.symm
      _ = r % P + P * ((r / P) % L1 + L1 * ((r / P) / L1)) := by rw [h2]
      _ = r % P + (r / P) % L1 * P + (r / P) / L1 * P * L1 := by ring

/-- Every index below `F * S` lies in exactly one of the `F` consecutive slabs of
size `S`. -/
theorem slab_of_index (S i : Int) (F : Nat) (hS : 0 < S) (hi : 0 ≤ i ∧ i < (F : Int) * S) :
    ∃ f : Nat, f < F ∧ (f : Int) * S ≤ i ∧ i < ((f : Int) + 1) * S := by
  have hq0 : 0 ≤ i / S := Int.ediv_nonneg hi.1 hS.le
  have hqF : i / S < F := Int.ediv_lt_of_lt_mul hS hi.2
  have h1 := Int.emod_add_ediv i S
  have h2 := Int.emod_nonneg i (by omega : S ≠ 0)
  have h3 := Int.emod_lt_of_pos i hS
  refine ⟨(i / S).toNat, by omega, ?_, ?_⟩
  · rw [Int.toNat_of_nonneg hq0]
    have e : i / S * S = S * (i / S) := by ring
    omega
  · rw [Int.toNat_of_nonneg hq0]
    have e : (i / S + 1) * S = S * (i / S) + S := by ring
    omega

/-- The cell indices one launch of `m_packXL` stores to, when the per-field
stride `d_msgsize[12]` is the slab size: exactly the slab of its field. -/
theorem m_packXL_launch_indices {V : Type} (d_data : Int → V) (d_msgsize : Int → Int)
    (halo : Nat → halo_descriptor) (f : Nat) (hx : 1 ≤ (halo 0).plus)
    (hy : (halo 1).begin_ ≤ (halo 1).end_) (hz : (halo 2).begin_ ≤ (halo 2).end_)
    (hsize : d_msgsize 12 = (halo 0).plus * ((halo 1).end_ - (halo 1).begin_ + 1)
      * ((halo 2).end_ - (halo 2).begin_ + 1)) (i : Int) :
    (∃ s ∈ m_packXL_launch d_data d_msgsize halo halo f, s.index = i) ↔
      ((f : Int) * d_msgsize 12 ≤ i ∧ i < ((f : Int) + 1) * d_msgsize 12) := by
  have e : ((f : Int) + 1) * d_msgsize 12 = (f : Int) * d_msgsize 12 + d_msgsize 12 := by ring
  constructor
  · rintro ⟨s, hs, rfl⟩
    obtain ⟨a, b, c, ha, hb, hc, _, hi, _⟩ :=
      (m_packXL_launch_spec d_data d_msgsize halo halo f hy hz s).mp hs
    have hbd := box_index_bounds _ _ _ a b c ha hb hc
    rw [hi, e, hsize]
    rw [hsize] at hi
    omega
  · rintro ⟨h1, h2⟩
    rw [e] at h2
    obtain ⟨a, b, c, ha, hb, hc, hr⟩ := box_index_surj (halo 0).plus
      ((halo 1).end_ - (halo 1).begin_ + 1) ((halo 2).end_ - (halo 2).begin_ + 1)
      (i - (f : Int) * d_msgsize 12) (by omega) (by omega) ⟨by omega, by rw [← hsize]; omega⟩
    refine ⟨⟨12, i, d_data _⟩,
      (m_packXL_launch_spec d_data d_msgsize halo halo f hy hz _).mpr
        ⟨a, b, c, ha, hb, hc, rfl, ?_, rfl⟩, rfl⟩
    simp only
    omega


/-- A positive block count `(n + B - 1) / B` (C division) means `n ≥ 1`. -/
theorem one_le_of_tdiv_pos (n B : Int) (hB : 0 < B) (h : 0 < (n + B - 1).tdiv B) : 1 ≤ n := by
  by_contra hn
  rcases lt_or_le (n + B - 1) 0 with hneg | hpos
  · have h1 : 0 ≤ (-(n + B - 1)).tdiv B := Int.tdiv_nonneg (by omega) hB.le
    rw [Int.neg_tdiv] at h1
    omega
  · have h1 := Int.tdiv_eq_zero_of_lt hpos (by omega : n + B - 1 < B)
    omega

/-- On every input `m_packXL` either fails at the first launch, or returns without
a store, or the halo triple is non-degenerate. -/
theorem m_packXL_stores_cases {V : Type} (d_data_array : List (Int → V))
    (d_msgsize : Int → Int) (halo halo_d : Nat → halo_descriptor) :
    m_packXL_stores d_data_array d_msgsize halo halo_d = none
    ∨ m_packXL_stores d_data_array d_msgsize halo halo_d = some []
    ∨ (1 ≤ (halo 0).plus ∧ (halo 1).begin_ ≤ (halo 1).end_
        ∧ (halo 2).begin_ ≤ (halo 2).end_) := by
  simp only [m_packXL_stores, halo_descriptor.s_length_neg_one, halo_descriptor.s_length_zero]
  split_ifs with h1 h2 h3
  · exact Or.inr (Or.inl rfl)
  · exact Or.inr (Or.inl rfl)
  · exact Or.inl rfl
  · refine Or.inr (Or.inr ?_)
    have hx := one_le_of_tdiv_pos (halo 0).plus 1 (by norm_num) (by omega)
    have hy := one_le_of_tdiv_pos ((halo 1).end_ - (halo 1).begin_ + 1) 32 (by norm_num)
      (by omega)
    have hz := one_le_of_tdiv_pos ((halo 2).end_ - (halo 2).begin_ + 1) 8 (by norm_num)
      (by omega)
    omega


/-- Field-major packing on a non-degenerate halo triple: for `plus0 ≥ 1`,
`len1 ≥ 1`, `len2 ≥ 1` and `d_msgsize[12] = slab = plus0 * len1 * len2`,
`m_packXL` returns normally, every store goes to `msgbuf[12]`, the set of cell
indices written for the `F` fields of the list is exactly `[0, F * slab)`, the
launch of field `f` writes exactly `[f * slab, (f + 1) * slab)`, and no index is
written twice. -/
theorem m_packXL_field_major {V : Type} (d_data_array : List (Int → V))
    (d_msgsize : Int → Int) (halo : Nat → halo_descriptor)
    (hplus : 1 ≤ (halo 0).plus)
    (hlen1 : 1 ≤ (halo 1).end_ - (halo 1).begin_ + 1)
    (hlen2 : 1 ≤ (halo 2).end_ - (halo 2).begin_ + 1)
    (hsize : d_msgsize 12 = (halo 0).plus * ((halo 1).end_ - (halo 1).begin_ + 1)
      * ((halo 2).end_ - (halo 2).begin_ + 1)) :
    ∃ ss : List (Store V),
      m_packXL_stores d_data_array d_msgsize halo halo = some ss
      ∧ (∀ s ∈ ss, s.buffer = 12)
      ∧ (∀ i : Int, (∃ s ∈ ss, s.index = i)
          ↔ (0 ≤ i ∧ i < (d_data_array.length : Int)
              * ((halo 0).plus * ((halo 1).end_ - (halo 1).begin_ + 1)
                  * ((halo 2).end_ - (halo 2).begin_ + 1))))
      ∧ (∀ (f : Nat) (d_data : Int → V), d_data_array[f]? = some d_data → ∀ i : Int,
          (∃ s ∈ m_packXL_launch d_data d_msgsize halo halo f, s.index = i)
          ↔ ((f : Int) * ((halo 0).plus * ((halo 1).end_ - (halo 1).begin_ + 1)
                  * ((halo 2).end_ - (halo 2).begin_ + 1)) ≤ i
              ∧ i < ((f : Int) + 1) * ((halo 0).plus * ((halo 1).end_ - (halo 1).begin_ + 1)
                  * ((halo 2).end_ - (halo 2).begin_ + 1))))
      ∧ (ss.map Store.index).Nodup := by
  have hy : (halo 1).begin_ ≤ (halo 1).end_ := by omega
  have hz : (halo 2).begin_ ≤ (halo 2).end_ := by omega
  have hslab : 0 < d_msgsize 12 := by
    rw [hsize]
    exact Int.mul_pos (Int.mul_pos (by omega) (by omega)) (by omega)
  have hlaunch := fun (d : Int → V) (f : Nat) (i : Int) =>
    m_packXL_launch_indices d d_msgsize halo f hplus hy hz hsize i
  rw [← hsize]
  refine ⟨_, m_packXL_stores_eq d_data_array d_msgsize halo halo hplus hy hz, ?_, ?_, ?_, ?_⟩
  · intro s hs
    obtain ⟨f, _, hsf⟩ := List.mem_flatMap.mp hs
    split at hsf
    · obtain ⟨_, _, _, _, _, _, hbuf, _⟩ :=
        (m_packXL_launch_spec _ d_msgsize halo halo f hy hz s).mp hsf
      exact hbuf
    · cases hsf
  · intro i
    constructor
    · rintro ⟨s, hs, hi⟩
      obtain ⟨f, hf, hsf⟩ := List.mem_flatMap.mp hs
      rw [List.mem_range] at hf
      rw [List.getElem?_eq_getElem hf] at hsf
      obtain ⟨h1, h2⟩ := (hlaunch _ f i).mp ⟨s, hsf, hi⟩
      have h3 : 0 ≤ (f : Int) * d_msgsize 12 := Int.mul_nonneg (by omega) hslab.le
      have h4 : ((f : Int) + 1) * d_msgsize 12 ≤ (d_data_array.length : Int) * d_msgsize 12 :=
        Int.mul_le_mul_of_nonneg_right (by omega) hslab.le
      omega
    · intro hi
      obtain ⟨f, hf, h1, h2⟩ := slab_of_index (d_msgsize 12) i d_data_array.length hslab hi
      obtain ⟨s, hs, hsi⟩ := (hlaunch d_data_array[f] f i).mpr ⟨h1, h2⟩
      refine ⟨s, List.mem_flatMap.mpr ⟨f, List.mem_range.mpr hf, ?_⟩, hsi⟩
      rw [List.getElem?_eq_getElem hf]
      exact hs
  · intro f d _ i
    exact hlaunch d f i
  · apply nodup_map_flatMap _ _ _ (List.nodup_range _)
    · intro f _
      split
      · exact m_packXL_launch_nodup _ d_msgsize halo f hy hz
      · exact List.nodup_nil
    · intro f hf g hg s hs t ht hst
      rw [List.mem_range] at hf hg
      rw [List.getElem?_eq_getElem hf] at hs
      rw [List.getElem?_eq_getElem hg] at ht
      obtain ⟨h1, h2⟩ := (hlaunch _ f s.index).mp ⟨s, hs, rfl⟩
      obtain ⟨h3, h4⟩ := (hlaunch _ g s.index).mp ⟨t, ht, hst.symm⟩
      by_contra hne
      rcases Nat.lt_or_gt_of_ne hne with hlt | hgt
      · have : ((f : Int) + 1) * d_msgsize 12 ≤ (g : Int) * d_msgsize 12 :=
          Int.mul_le_mul_of_nonneg_right (by omega) hslab.le
        omega
      · have : ((g : Int) + 1) * d_msgsize 12 ≤ (f : Int) * d_msgsize 12 :=
          Int.mul_le_mul_of_nonneg_right (by omega) hslab.le
        omega

/-- Claim C9: multi-field packing by `m_packXL` is contiguous and field-major.
For a halo triple with non-negative lengths `plus0`, `len1`, `len2` and
`slab = plus0 * len1 * len2 ≥ 1`, when `d_msgsize[12] = slab` the call returns
normally, every store goes to `msgbuf[12]`, the set of cell indices written for
the `F` fields of the list is exactly `[0, F * slab)`, the launch of field `f`
writes exactly `[f * slab, (f + 1) * slab)`, and no index is written twice. -/
theorem C9_m_packXL_field_major {V : Type} (d_data_array : List (Int → V))
    (d_msgsize : Int → Int) (halo : Nat → halo_descriptor)
    (hplus : 0 ≤ (halo 0).plus)
    (hlen1 : 0 ≤ (halo 1).end_ - (halo 1).begin_ + 1)
    (hlen2 : 0 ≤ (halo 2).end_ - (halo 2).begin_ + 1)
    (hslab : 1 ≤ (halo 0).plus * ((halo 1).end_ - (halo 1).begin_ + 1)
      * ((halo 2).end_ - (halo 2).begin_ + 1))
    (hsize : d_msgsize 12 = (halo 0).plus * ((halo 1).end_ - (halo 1).begin_ + 1)
      * ((halo 2).end_ - (halo 2).begin_ + 1)) :
    ∃ ss : List (Store V),
      m_packXL_stores d_data_array d_msgsize halo halo = some ss
      ∧ (∀ s ∈ ss, s.buffer = 12)
      ∧ (∀ i : Int, (∃ s ∈ ss, s.index = i)
          ↔ (0 ≤ i ∧ i < (d_data_array.length : Int)
              * ((halo 0).plus * ((halo 1).end_ - (halo 1).begin_ + 1)
                  * ((halo 2).end_ - (halo 2).begin_ + 1))))
      ∧ (∀ (f : Nat) (d_data : Int → V), d_data_array[f]? = some d_data → ∀ i : Int,
          (∃ s ∈ m_packXL_launch d_data d_msgsize halo halo f, s.index = i)
          ↔ ((f : Int) * ((halo 0).plus * ((halo 1).end_ - (halo 1).begin_ + 1)
                  * ((halo 2).end_ - (halo 2).begin_ + 1)) ≤ i
              ∧ i < ((f : Int) + 1) * ((halo 0).plus * ((halo 1).end_ - (halo 1).begin_ + 1)
                  * ((halo 2).end_ - (halo 2).begin_ + 1))))
      ∧ (ss.map Store.index).Nodup := by
  have h0 : (halo 0).plus ≠ 0 := by
    intro h
    rw [h] at hslab
    simp at hslab
  have h1 : (halo 1).end_ - (halo 1).begin_ + 1 ≠ 0 := by
    intro h
    rw [h] at hslab
    simp at hslab
  have h2 : (halo 2).end_ - (halo 2).begin_ + 1 ≠ 0 := by
    intro h
    rw [h] at hslab
    simp at hslab
  exact m_packXL_field_major d_data_array d_msgsize halo (by omega) (by omega) (by omega) hsize

/-- Claim C9 on the one-cell halo (`plus = 1`, `begin = end = 1`) with two fields
and `d_msgsize[12] = 1`. -/
theorem C9_m_packXL_field_major_witness :
    ∃ ss : List (Store Int),
      m_packXL_stores [fun i : Int => i, fun i : Int => 100 + i] (fun _ => 1)
          (fun _ => { minus := 1, plus := 1, begin_ := 1, end_ := 1, total_length := 3 })
          (fun _ => { minus := 1, plus := 1, begin_ := 1, end_ := 1, total_length := 3 })
        = some ss
      ∧ (∀ s ∈ ss, s.buffer = 12)
      ∧ (∀ i : Int, (∃ s ∈ ss, s.index = i)
          ↔ (0 ≤ i ∧ i < ((2 : Nat) : Int) * (1 * (1 - 1 + 1) * (1 - 1 + 1))))
      ∧ (∀ (f : Nat) (d_data : Int → Int),
          [fun i : Int => i, fun i : Int => 100 + i][f]? = some d_data → ∀ i : Int,
          (∃ s ∈ m_packXL_launch d_data (fun _ => 1)
              (fun _ => { minus := 1, plus := 1, begin_ := 1, end_ := 1, total_length := 3 })
              (fun _ => { minus := 1, plus := 1, begin_ := 1, end_ := 1, total_length := 3 }) f,
            s.index = i)
          ↔ ((f : Int) * (1 * (1 - 1 + 1) * (1 - 1 + 1)) ≤ i
              ∧ i < ((f : Int) + 1) * (1 * (1 - 1 + 1) * (1 - 1 + 1))))
      ∧ (ss.map Store.index).Nodup :=
  C9_m_packXL_field_major [fun i : Int => i, fun i : Int => 100 + i] (fun _ => 1)
    (fun _ => { minus := 1, plus := 1, begin_ := 1, end_ := 1, total_length := 3 })
    (by decide) (by decide) (by decide) (by decide) (by decide)


/-- Claim C10 as stated fails: on the one-cell halo (`plus = 1`, `begin = end = 1`)
with `F = 2` fields and `d_msgsize[12] = 1 * 1 * 1 * 2 = 2`, the thread of field 1
stores to `idst = 0 + 1 * d_msgsize[12] = 2`, which is not less than
`d_msgsize[12]`. -/
theorem C10_counterexample :
    ∃ (ss : List (Store Int)) (s : Store Int),
      m_packXL_stores [fun i : Int => i, fun i : Int => 100 + i]
          (fun _ => 1 * (1 - 1 + 1) * (1 - 1 + 1) * 2)
          (fun _ => { minus := 1, plus := 1, begin_ := 1, end_ := 1, total_length := 3 })
          (fun _ => { minus := 1, plus := 1, begin_ := 1, end_ := 1, total_length := 3 })
        = some ss
      ∧ s ∈ ss ∧ s.buffer = 12 ∧ s.index = 2
      ∧ ¬ (s.index < (fun _ : Int => (1 : Int) * (1 - 1 + 1) * (1 - 1 + 1) * 2) 12) := by
  obtain ⟨ss, hss, hmem⟩ := m_packXL_stores_spec [fun i : Int => i, fun i : Int => 100 + i]
    (fun _ => 1 * (1 - 1 + 1) * (1 - 1 + 1) * 2)
    (fun _ => { minus := 1, plus := 1, begin_ := 1, end_ := 1, total_length := 3 })
    (fun _ => { minus := 1, plus := 1, begin_ := 1, end_ := 1, total_length := 3 })
    (by decide) (by decide) (by decide)
  refine ⟨ss, ⟨12, 2, 113⟩, hss, ?_, rfl, rfl, by decide⟩
  exact (hmem _).mpr ⟨1, fun i => 100 + i, 0, 0, 0, rfl, by decide, by decide, by decide,
    rfl, by decide, by decide⟩

/-- Claim C10, amended to the stride the kernel uses: for every field list (of
length `F`) and every halo triple, when `d_msgsize[12]` is the per-field slab
size `plus0 * len1 * len2`, every store `m_packXL` performs goes to `msgbuf[12]`
at an index `idst` with `0 ≤ idst < plus0 * len1 * len2 * F`, the message size
of that direction for `F` fields. -/
theorem C10_m_packXL_index_bound {V : Type} (d_data_array : List (Int → V))
    (d_msgsize : Int → Int) (halo : Nat → halo_descriptor)
    (hsize : d_msgsize 12 = (halo 0).plus * ((halo 1).end_ - (halo 1).begin_ + 1)
      * ((halo 2).end_ - (halo 2).begin_ + 1))
    (ss : List (Store V))
    (hss : m_packXL_stores d_data_array d_msgsize halo halo = some ss)
    (s : Store V) (hs : s ∈ ss) :
    s.buffer = 12 ∧ 0 ≤ s.index
    ∧ s.index < (halo 0).plus * ((halo 1).end_ - (halo 1).begin_ + 1)
        * ((halo 2).end_ - (halo 2).begin_ + 1) * (d_data_array.length : Int) := by
  rcases m_packXL_stores_cases d_data_array d_msgsize halo halo with h | h | ⟨hx, hy, hz⟩
  · rw [h] at hss; cases hss
  · rw [h] at hss; cases hss; cases hs
  · obtain ⟨ss2, hss2, hmem⟩ := m_packXL_stores_spec d_data_array d_msgsize halo halo hx hy hz
    rw [hss2] at hss
    cases hss
    obtain ⟨f, d, a, b, c, hf, ha, hb, hc, hbuf, hidx, _⟩ := (hmem s).mp hs
    have hlt : f < d_data_array.length := by
      by_contra hcon
      rw [List.getElem?_eq_none (by omega)] at hf
      cases hf
    have hbd := box_index_bounds _ _ _ a b c ha hb hc
    rw [← hsize] at hbd ⊢
    have hslab : 0 ≤ d_msgsize 12 := by omega
    have h3 : 0 ≤ (f : Int) * d_msgsize 12 := Int.mul_nonneg (by omega) hslab
    have h4 : ((f : Int) + 1) * d_msgsize 12 ≤ (d_data_array.length : Int) * d_msgsize 12 :=
      Int.mul_le_mul_of_nonneg_right (by omega) hslab
    have e1 : ((f : Int) + 1) * d_msgsize 12 = (f : Int) * d_msgsize 12 + d_msgsize 12 := by
      ring
    have e2 : d_msgsize 12 * (d_data_array.length : Int)
        = (d_data_array.length : Int) * d_msgsize 12 := by ring
    refine ⟨hbuf, ?_, ?_⟩
    · omega
    · omega

/-- Claim C10 (amended) on the one-cell halo with two fields and
`d_msgsize[12] = 1`: the store of field 1 goes to index 1, below `1 * 1 * 1 * 2`. -/
theorem C10_m_packXL_index_bound_witness :
    ({ buffer := 12, index := 1, value := 113 } : Store Int).buffer = 12
    ∧ 0 ≤ ({ buffer := 12, index := 1, value := 113 } : Store Int).index
    ∧ ({ buffer := 12, index := 1, value := 113 } : Store Int).index
        < 1 * (1 - 1 + 1) * (1 - 1 + 1) * ((2 : Nat) : Int) :=
  C10_m_packXL_index_bound [fun i : Int => i, fun i : Int => 100 + i] (fun _ => 1)
    (fun _ => { minus := 1, plus := 1, begin_ := 1, end_ := 1, total_length := 3 })
    (by decide)
    [{ buffer := 12, index := 0, value := 13 }, { buffer := 12, index := 1, value := 113 }]
    (by
      simp only [m_packXL_stores]
      rw [if_neg (by decide), if_neg (by decide), if_neg (by decide)]
      rfl)
    { buffer := 12, index := 1, value := 113 }
    (List.mem_cons_of_mem _ (List.mem_cons_self _ _))


/-! ### The top z slab (`m_packZU`) -/

/-- The locals of a thread of `m_packZUKernel` agree, axis by axis, with the region
table of the specification (interior lengths at least one on axes 0 and 1). -/
theorem m_packZUKernel_locals_regions (d_msgsize : Int → Int)
    (halo0 halo1 halo2 : halo_descriptor) (field_index : Int)
    (blockIdx blockDim threadIdx : dim3)
    (hlen0 : 1 ≤ halo0.end_ - halo0.begin_ + 1) (hlen1 : 1 ≤ halo1.end_ - halo1.begin_ + 1) :
    (m_packZUKernel_locals d_msgsize halo0 halo1 halo2 field_index
        blockIdx blockDim threadIdx).ba
      = claimed_region halo0 (blockIdx.x * blockDim.x + threadIdx.x)
    ∧ (m_packZUKernel_locals d_msgsize halo0 halo1 halo2 field_index
        blockIdx blockDim threadIdx).la
      = claimed_length halo0 (blockIdx.x * blockDim.x + threadIdx.x)
    ∧ (m_packZUKernel_locals d_msgsize halo0 halo1 halo2 field_index
        blockIdx blockDim threadIdx).oa
      = claimed_offset halo0 (blockIdx.x * blockDim.x + threadIdx.x)
    ∧ (m_packZUKernel_locals d_msgsize halo0 halo1 halo2 field_index
        blockIdx blockDim threadIdx).ia
      = claimed_source halo0 (blockIdx.x * blockDim.x + threadIdx.x)
    ∧ (m_packZUKernel_locals d_msgsize halo0 halo1 halo2 field_index
        blockIdx blockDim threadIdx).bb
      = claimed_region halo1 (blockIdx.y * blockDim.y + threadIdx.y)
    ∧ (m_packZUKernel_locals d_msgsize halo0 halo1 halo2 field_index
        blockIdx blockDim threadIdx).lb
      = claimed_length halo1 (blockIdx.y * blockDim.y + threadIdx.y)
    ∧ (m_packZUKernel_locals d_msgsize halo0 halo1 halo2 field_index
        blockIdx blockDim threadIdx).ob
      = claimed_offset halo1 (blockIdx.y * blockDim.y + threadIdx.y)
    ∧ (m_packZUKernel_locals d_msgsize halo0 halo1 halo2 field_index
        blockIdx blockDim threadIdx).ib
      = claimed_source halo1 (blockIdx.y * blockDim.y + threadIdx.y) := by
  refine ⟨?_, ?_, ?_, ?_, ?_, ?_, ?_, ?_⟩ <;>
    simp only [m_packZUKernel_locals, claimed_region, claimed_length, claimed_offset,
      claimed_source] <;>
    split_ifs <;> omega


/-- Claim C11: a degenerate axis gives a zero-length payload, not an error.  If
`halo[0].s_length(-1) = 0`, or `s_length(0)` of axis 1 or of axis 2 is 0,
`m_packXL` returns normally at its guard, before the loop over the fields: it
performs no store and leaves every buffer cell as it was, whatever the list of
fields.  Likewise `m_packZU` returns normally without a store when
`halo[2].s_length(1) = 0`. -/
theorem C11_degenerate_axis_no_payload {V : Type} (d_data_array : List (Int → V))
    (d_msgbufTab : Msgbuf V) (d_msgsize : Int → Int)
    (halo halo_d halo_zu halo_zu_d : Nat → halo_descriptor)
    (hxl : (halo 0).s_length (-1) = 0 ∨ (halo 1).s_length 0 = 0 ∨ (halo 2).s_length 0 = 0)
    (hzu : (halo_zu 2).s_length 1 = 0) :
    (m_packXL_stores d_data_array d_msgsize halo halo_d = some []
      ∧ m_packXL d_data_array d_msgbufTab d_msgsize halo halo_d = some d_msgbufTab)
    ∧ (m_packZU_stores d_data_array d_msgsize halo_zu halo_zu_d = some []
      ∧ m_packZU d_data_array d_msgbufTab d_msgsize halo_zu halo_zu_d = some d_msgbufTab) := by
  have hXL : m_packXL_stores d_data_array d_msgsize halo halo_d = some [] := by
    simp only [m_packXL_stores]
    rw [if_pos]
    rcases hxl with h | h | h
    · left; rw [h]; decide
    · right; left; rw [h]; decide
    · right; right; rw [h]; decide
  have hZU : m_packZU_stores d_data_array d_msgsize halo_zu halo_zu_d = some [] := by
    simp only [m_packZU_stores]
    rw [if_pos]
    right; right; rw [hzu]; decide
  refine ⟨⟨hXL, ?_⟩, hZU, ?_⟩
  · simp only [m_packXL, hXL, Option.map_some']
    rfl
  · simp only [m_packZU, hZU, Option.map_some']
    rfl

/-- Claim C11 on a halo triple without ghost cells (`minus = plus = 0`,
`begin = 0`, `end = 2`) and two fields. -/
theorem C11_degenerate_axis_no_payload_witness :
    (m_packXL_stores [fun i : Int => i, fun i : Int => 100 + i] (fun _ => 9)
        (fun _ => { minus := 0, plus := 0, begin_ := 0, end_ := 2, total_length := 3 })
        (fun _ => { minus := 0, plus := 0, begin_ := 0, end_ := 2, total_length := 3 })
        = some []
      ∧ m_packXL [fun i : Int => i, fun i : Int => 100 + i] (fun _ _ => 0) (fun _ => 9)
        (fun _ => { minus := 0, plus := 0, begin_ := 0, end_ := 2, total_length := 3 })
        (fun _ => { minus := 0, plus := 0, begin_ := 0, end_ := 2, total_length := 3 })
        = some (fun _ _ => 0))
    ∧ (m_packZU_stores [fun i : Int => i, fun i : Int => 100 + i] (fun _ => 9)
        (fun _ => { minus := 0, plus := 0, begin_ := 0, end_ := 2, total_length := 3 })
        (fun _ => { minus := 0, plus := 0, begin_ := 0, end_ := 2, total_length := 3 })
        = some []
      ∧ m_packZU [fun i : Int => i, fun i : Int => 100 + i] (fun _ _ => 0) (fun _ => 9)
        (fun _ => { minus := 0, plus := 0, begin_ := 0, end_ := 2, total_length := 3 })
        (fun _ => { minus := 0, plus := 0, begin_ := 0, end_ := 2, total_length := 3 })
        = some (fun _ _ => 0)) :=
  C11_degenerate_axis_no_payload [fun i : Int => i, fun i : Int => 100 + i] (fun _ _ => 0)
    (fun _ => 9)
    (fun _ => { minus := 0, plus := 0, begin_ := 0, end_ := 2, total_length := 3 })
    (fun _ => { minus := 0, plus := 0, begin_ := 0, end_ := 2, total_length := 3 })
    (fun _ => { minus := 0, plus := 0, begin_ := 0, end_ := 2, total_length := 3 })
    (fun _ => { minus := 0, plus := 0, begin_ := 0, end_ := 2, total_length := 3 })
    (Or.inl (by decide)) (by decide)

/-! ### The scheduler tests -/

/-- A stage listing plain ESFs only runs exactly those, in the listed order. -/
theorem linear_esfs_plain {α : Type} (e : ExecutionEngine) (c : List Nat) (l : List α) :
    linear_esfs { execution_engine := e, esf_descr_sequence := l.map EsfDescr.esf,
                  cache_sequence := c } = l := by
  unfold linear_esfs mss_descriptor_linear_esf_sequence
  simp only
  rw [linearize_esf_array_plain, List.filterMap_map]
  induction l with
  | nil => rfl
  | cons a as ih => simpa using ih

/-- The ESFs run by a stage of the conditional-switch test. -/
theorem test_conditional_switches.linear_esfs_stage (p : Bool) (n : Int) :
    linear_esfs ((test_conditional_switches.stage n).resolve p) = [functor1 n, functor2 n] :=
  linear_esfs_plain ExecutionEngine.forward [] [functor1 n, functor2 n]

/-- What a stage of the conditional-switch test does to the cell `(0, 0, 0)`: it
adds `Id` twice (once per functor, at level 0). -/
theorem test_conditional_switches.run_stage_origin (p : Bool) (n : Int) (dummy : Point → Int) :
    run_mss test_conditional_switches.grid_ ((test_conditional_switches.stage n).resolve p)
        dummy ⟨0, 0, 0⟩
      = dummy ⟨0, 0, 0⟩ + 2 * n := by
  unfold run_mss
  rw [test_conditional_switches.linear_esfs_stage]
  have hl : test_conditional_switches.grid_.levels
      ((test_conditional_switches.stage n).resolve p).execution_engine = [0, 1] := by
    cases p <;> rfl
  have hp : test_conditional_switches.grid_.plane = [(0, 0)] := by rfl
  rw [hl, hp]
  simp only [List.foldl_cons, List.foldl_nil, functor1, functor2]
  have hne : (⟨0, 0, 0⟩ : Point) ≠ ⟨0, 0, 1⟩ := by decide
  simp only [Function.update_same, Function.update_noteq hne]
  ring

/-- One run of the steady conditional-switch computation adds to the cell
`(0, 0, 0)` twice the sum of the `Id`s of the four stages selected for that run. -/
theorem test_conditional_switches.run_origin (p : Bool) (dummy : Point → Int) :
    (test_conditional_switches.comp_.mss_trees.foldl
        (fun s node => run_mss test_conditional_switches.grid_ (node.resolve p) s) dummy)
        ⟨0, 0, 0⟩
      = dummy ⟨0, 0, 0⟩ + 2 * (0 + (if p then 1 else 2000) + (if p then 20 else 10) + 400) := by
  cases p
  · show run_mss test_conditional_switches.grid_
        ((test_conditional_switches.stage 400).resolve false)
        (run_mss test_conditional_switches.grid_
          ((test_conditional_switches.stage 10).resolve false)
          (run_mss test_conditional_switches.grid_
            ((test_conditional_switches.stage 2000).resolve false)
            (run_mss test_conditional_switches.grid_
              ((test_conditional_switches.stage 0).resolve false) dummy))) ⟨0, 0, 0⟩ = _
    rw [test_conditional_switches.run_stage_origin, test_conditional_switches.run_stage_origin,
      test_conditional_switches.run_stage_origin, test_conditional_switches.run_stage_origin]
    simp only [Bool.false_eq_true, if_false, if_true]
    omega
  · show run_mss test_conditional_switches.grid_
        ((test_conditional_switches.stage 400).resolve true)
        (run_mss test_conditional_switches.grid_
          ((test_conditional_switches.stage 20).resolve true)
          (run_mss test_conditional_switches.grid_
            ((test_conditional_switches.stage 1).resolve true)
            (run_mss test_conditional_switches.grid_
              ((test_conditional_switches.stage 0).resolve true) dummy))) ⟨0, 0, 0⟩ = _
    rw [test_conditional_switches.run_stage_origin, test_conditional_switches.run_stage_origin,
      test_conditional_switches.run_stage_origin, test_conditional_switches.run_stage_origin]
    simp only [Bool.false_eq_true, if_false, if_true]
    omega

/-- A switch resolves to what its key, evaluated in the environment of the run,
selects. -/
theorem MssTree.resolve_switch {E α : Type} (env : E) (cond : E → Int)
    (cases : SwitchCases E α) :
    (MssTree.switch_ cond cases).resolve env = cases.select env (cond env) := rfl

theorem MssTree.resolve_mss {E α : Type} (env : E) (m : mss_descriptor α) :
    (MssTree.mss m : MssTree E α).resolve env = m := rfl

theorem SwitchCases.select_case {E α : Type} (env : E) (key k : Int) (node : MssTree E α)
    (rest : SwitchCases E α) :
    (SwitchCases.case_ k node rest).select env key
      = if key = k then node.resolve env else rest.select env key := rfl

theorem SwitchCases.select_default {E α : Type} (env : E) (key : Int) (node : MssTree E α) :
    (SwitchCases.default_ node).select env key = node.resolve env := rfl

/-- The case a key selects is the first entry with that key, or the default when
there is none; the selected node is resolved in turn. -/
theorem SwitchCases.select_eq_claimed {E α : Type} (env : E) (key : Int) :
    ∀ cases : SwitchCases E α,
      cases.select env key = (cases.claimed_selection key).resolve env
  | .default_ node => rfl
  | .case_ k node rest => by
      rw [SwitchCases.select_case]
      unfold SwitchCases.claimed_selection
      by_cases h : key = k
      · subst h
        rw [if_pos rfl]
        simp [SwitchCases.entries]
      · rw [if_neg h, SwitchCases.select_eq_claimed env key rest]
        unfold SwitchCases.claimed_selection
        have hk : ¬ k = key := fun e => h e.symm
        simp [SwitchCases.entries, SwitchCases.default_node, hk]

/-- The stages the graph of the conditional-switch test resolves to, for any key
functions. -/
theorem test_conditional_switches.graph_resolve (cond_ nested_cond_ other_cond_ : Bool → Int)
    (p : Bool) :
    (test_conditional_switches.graph cond_ nested_cond_ other_cond_).map
        (fun node => node.resolve p)
      = [(test_conditional_switches.stage 0).resolve p,
         (test_conditional_switches.stage
            (if cond_ p = 0 then 1
             else if cond_ p = 5 then (if nested_cond_ p = 1 then 2000 else 3000)
             else 7)).resolve p,
         (test_conditional_switches.stage
            (if other_cond_ p = 2 then 10 else if other_cond_ p = 1 then 20 else 30)).resolve p,
         (test_conditional_switches.stage 400).resolve p] := by
  unfold test_conditional_switches.graph
  simp only [List.map_cons, List.map_nil, MssTree.resolve_switch, SwitchCases.select_case,
    SwitchCases.select_default]
  split_ifs <;> rfl

/-- One run over the graph of the conditional-switch test, for any key functions,
adds to the cell `(0, 0, 0)` twice the sum of the `Id`s of the stages the keys
select. -/
theorem test_conditional_switches.run_graph_origin
    (cond_ nested_cond_ other_cond_ : Bool → Int) (p : Bool) (dummy : Point → Int) :
    ((test_conditional_switches.graph cond_ nested_cond_ other_cond_).foldl
        (fun s node => run_mss test_conditional_switches.grid_ (node.resolve p) s) dummy)
        ⟨0, 0, 0⟩
      = dummy ⟨0, 0, 0⟩
        + 2 * (0
          + (if cond_ p = 0 then 1
             else if cond_ p = 5 then (if nested_cond_ p = 1 then 2000 else 3000)
             else 7)
          + (if other_cond_ p = 2 then 10 else if other_cond_ p = 1 then 20 else 30)
          + 400) := by
  have h : (test_conditional_switches.graph cond_ nested_cond_ other_cond_).foldl
        (fun s node => run_mss test_conditional_switches.grid_ (node.resolve p) s) dummy
      = ((test_conditional_switches.graph cond_ nested_cond_ other_cond_).map
          (fun node => node.resolve p)).foldl
          (fun s m => run_mss test_conditional_switches.grid_ m s) dummy := by
    rw [List.foldl_map]
  rw [h, test_conditional_switches.graph_resolve]
  simp only [List.foldl_cons, List.foldl_nil]
  rw [test_conditional_switches.run_stage_origin, test_conditional_switches.run_stage_origin,
    test_conditional_switches.run_stage_origin, test_conditional_switches.run_stage_origin]
  ring

/-- Claim C12: switch branches are selected per run from the key values at that
run.  In general, a switch resolves to the node its key selects, the key being
evaluated in the environment of the run; the selected node is the first case
with that key, or the default when no case has it, and is itself resolved, so a
nested switch is resolved recursively.  For the graph of the conditional-switch
test with arbitrary key functions, each run adds to the cell `(0, 0, 0)` (holding
a value from 0 to 16000000, where the additions of `float_type` are exact) the
value `2 * (0 + Id(cond_) + Id(other_cond_) + 400)` with `Id(cond_)` equal to 1
for key 0, to 2000 or 3000 for key 5 (nested key 1 or not), and to 7 by default,
and `Id(other_cond_)` equal to 10, 20 or, by default, 30.  The computation of the
test becomes steady with its tree unchanged; with the keys of the test the
selected `Id`s are 1 and 20 for `p = true` and 2000 and 10 for `p = false`; on the
zero field the first run leaves 842, the second run with `p = false` leaves
5662, and the driver returns `true`. -/
theorem C12_switch_branches_selected_per_run :
    (∀ (E α : Type) (env : E) (cond : E → Int) (cases : SwitchCases E α),
        (MssTree.switch_ cond cases).resolve env
          = ((cases.claimed_selection (cond env)).resolve env))
    ∧ (∀ (E α : Type) (key : Int) (node : MssTree E α) (rest : SwitchCases E α),
        (SwitchCases.case_ key node rest).claimed_selection key = node)
    ∧ (∀ (E α : Type) (key : Int) (cases : SwitchCases E α),
        (∀ c ∈ cases.entries, c.1 ≠ key) →
        cases.claimed_selection key = cases.default_node)
    ∧ (∀ (cond_ nested_cond_ other_cond_ : Bool → Int) (p : Bool) (dummy : Point → Int),
        0 ≤ dummy ⟨0, 0, 0⟩ → dummy ⟨0, 0, 0⟩ ≤ 16000000 →
        ∃ dummy2 : Point → Int,
          ({ grid := test_conditional_switches.grid_,
             mss_trees := test_conditional_switches.graph cond_ nested_cond_ other_cond_,
             state := LifecycleState.Steady } : computation Bool (Point → Int)).run p dummy
            = Except.ok dummy2
          ∧ dummy2 ⟨0, 0, 0⟩
              = dummy ⟨0, 0, 0⟩
                + 2 * (0
                  + (if cond_ p = 0 then 1
                     else if cond_ p = 5 then (if nested_cond_ p = 1 then 2000 else 3000)
                     else 7)
                  + (if other_cond_ p = 2 then 10
                     else if other_cond_ p = 1 then 20 else 30)
                  + 400))
    ∧ test_conditional_switches.comp_.mss_trees
        = test_conditional_switches.graph test_conditional_switches.cond_
            test_conditional_switches.nested_cond_ test_conditional_switches.other_cond_
    ∧ (∃ c1 c2 : computation Bool (Point → Int),
      test_conditional_switches.comp_.ready = Except.ok c1
      ∧ c1.steady = Except.ok c2
      ∧ c2.mss_trees = test_conditional_switches.comp_.mss_trees
      ∧ (∀ (p : Bool) (dummy : Point → Int),
          0 ≤ dummy ⟨0, 0, 0⟩ → dummy ⟨0, 0, 0⟩ ≤ 16000000 →
          ∃ dummy2 : Point → Int,
          c2.run p dummy = Except.ok dummy2
          ∧ dummy2 ⟨0, 0, 0⟩
              = dummy ⟨0, 0, 0⟩
                + 2 * (0 + (if p then 1 else 2000) + (if p then 20 else 10) + 400))
      ∧ (∃ d1 d2 : Point → Int,
          c2.run true (fun _ => 0) = Except.ok d1 ∧ d1 ⟨0, 0, 0⟩ = 842
          ∧ c2.run false d1 = Except.ok d2 ∧ d2 ⟨0, 0, 0⟩ = 5662
          ∧ 5662 = 842 + 2 * (2000 + 10 + 400))
      ∧ test_conditional_switches.test = Except.ok true) := by
  have hrun : ∀ (p : Bool) (dummy : Point → Int),
      ({ test_conditional_switches.comp_ with state := LifecycleState.Steady } :
          computation Bool (Point → Int)).run p dummy
        = Except.ok (test_conditional_switches.comp_.mss_trees.foldl
            (fun s node => run_mss test_conditional_switches.grid_ (node.resolve p) s) dummy) :=
    fun _ _ => rfl
  have h1 := test_conditional_switches.run_origin true (fun _ => 0)
  have h2 := test_conditional_switches.run_origin false
    (test_conditional_switches.comp_.mss_trees.foldl
      (fun s node => run_mss test_conditional_switches.grid_ (node.resolve true) s)
      (fun _ => 0))
  rw [h1] at h2
  norm_num at h1 h2
  refine ⟨?_, ?_, ?_, ?_, rfl, { test_conditional_switches.comp_ with state := LifecycleState.Ready },
    { test_conditional_switches.comp_ with state := LifecycleState.Steady },
    rfl, rfl, rfl, ?_, ?_, ?_⟩
  · intro E α env cond cases
    rw [MssTree.resolve_switch, SwitchCases.select_eq_claimed]
  · intro E α key node rest
    simp [SwitchCases.claimed_selection, SwitchCases.entries]
  · intro E α key cases hne
    unfold SwitchCases.claimed_selection
    have hnone : cases.entries.find? (fun c => decide (c.1 = key)) = none := by
      rw [List.find?_eq_none]
      intro c hc
      simpa using hne c hc
    rw [hnone]
  · intro cond_ nested_cond_ other_cond_ p dummy _ _
    exact ⟨_, rfl, test_conditional_switches.run_graph_origin cond_ nested_cond_ other_cond_
      p dummy⟩
  · intro p dummy _ _
    exact ⟨_, hrun p dummy, test_conditional_switches.run_origin p dummy⟩
  · exact ⟨_, _, hrun true _, h1, hrun false _, h2, by norm_num⟩
  · have ht : test_conditional_switches.test
        = Except.ok ((true && ((test_conditional_switches.comp_.mss_trees.foldl
            (fun s node => run_mss test_conditional_switches.grid_ (node.resolve true) s)
            (fun _ => 0)) ⟨0, 0, 0⟩ == 842))
          && ((test_conditional_switches.comp_.mss_trees.foldl
            (fun s node => run_mss test_conditional_switches.grid_ (node.resolve false) s)
            (test_conditional_switches.comp_.mss_trees.foldl
              (fun s node => run_mss test_conditional_switches.grid_ (node.resolve true) s)
              (fun _ => 0))) ⟨0, 0, 0⟩ == 5662)) := rfl
    rw [ht, h1, h2]
    rfl

/-- A property every step preserves holds after a fold. -/
theorem foldl_stable {β S : Type} (f : S → β → S) (P : S → Prop) (l : List β)
    (h : ∀ s y, y ∈ l → P s → P (f s y)) (s : S) (hs : P s) : P (l.foldl f s) := by
  induction l generalizing s with
  | nil => exact hs
  | cons a as ih =>
    exact ih (fun s y hy => h s y (List.mem_cons_of_mem _ hy)) _
      (h s a (List.mem_cons_self _ _) hs)

/-- A property the step at `x` establishes and every step preserves (under an
invariant) holds after a fold over a list containing `x`. -/
theorem foldl_establish {β S : Type} (f : S → β → S) (Inv Q : S → Prop) (l : List β) (x : β)
    (hx : x ∈ l) (hInv : ∀ s y, y ∈ l → Inv s → Inv (f s y))
    (hest : ∀ s, Inv s → Q (f s x))
    (hstab : ∀ s y, y ∈ l → Inv s → Q s → Q (f s y)) (s : S) (hs : Inv s) :
    Inv (l.foldl f s) ∧ Q (l.foldl f s) := by
  obtain ⟨l1, l2, rfl⟩ := List.append_of_mem hx
  rw [List.foldl_append, List.foldl_cons]
  have h1 : Inv (l1.foldl f s) :=
    foldl_stable f Inv l1 (fun s y hy => hInv s y (List.mem_append_left _ hy)) s hs
  have h2 : Inv (f (l1.foldl f s) x) ∧ Q (f (l1.foldl f s) x) :=
    ⟨hInv _ x hx h1, hest _ h1⟩
  exact foldl_stable f (fun s => Inv s ∧ Q s) l2
    (fun s y hy hs =>
      have hy2 : y ∈ l1 ++ x :: l2 := List.mem_append_right _ (List.mem_cons_of_mem _ hy)
      ⟨hInv s y hy2 hs.1, hstab s y hy2 hs.1 hs.2⟩) _ h2

theorem mem_closed_range (a b k : Nat) : k ∈ closed_range a b ↔ a ≤ k ∧ k ≤ b := by
  unfold closed_range
  rw [List.mem_range'_1]
  omega

theorem Grid.mem_levels (g : Grid) (e : ExecutionEngine) (k : Nat) :
    k ∈ g.levels e ↔ g.k_first ≤ k ∧ k ≤ g.k_last := by
  cases e <;> simp only [Grid.levels, List.mem_reverse, mem_closed_range]

theorem Grid.mem_plane (g : Grid) (i j : Nat) :
    (i, j) ∈ g.plane ↔ (g.i_begin ≤ i ∧ i ≤ g.i_end) ∧ (g.j_begin ≤ j ∧ j ≤ g.j_end) := by
  simp only [Grid.plane, List.mem_flatMap, List.mem_map, mem_closed_range, Prod.mk.injEq]
  constructor
  · rintro ⟨a, ha, b, hb, rfl, rfl⟩
    exact ⟨ha, hb⟩
  · rintro ⟨ha, hb⟩
    exact ⟨i, ha, j, hb, rfl, rfl⟩

/-- A property every evaluation of the ESFs of a stage at a point preserves holds
after the stage. -/
theorem run_mss_stable {S : Type} (g : Grid) (mss : mss_descriptor (Esf S)) (P : S → Prop)
    (h : ∀ s q, P s → P ((linear_esfs mss).foldl (fun s esf => esf q s) s))
    (s : S) (hs : P s) : P (run_mss g mss s) := by
  unfold run_mss
  apply foldl_stable _ P _ _ s hs
  intro s k _ hs
  apply foldl_stable _ P _ _ s hs
  intro s ij _ hs
  exact h s _ hs

/-- A property the ESFs of a stage establish at the point `pt` of the iteration
space and preserve elsewhere holds after the stage. -/
theorem run_mss_establish {S : Type} (g : Grid) (mss : mss_descriptor (Esf S))
    (Inv Q : S → Prop) (pt : Point)
    (hi : g.i_begin ≤ pt.i ∧ pt.i ≤ g.i_end) (hj : g.j_begin ≤ pt.j ∧ pt.j ≤ g.j_end)
    (hk : g.k_first ≤ pt.k ∧ pt.k ≤ g.k_last)
    (hInv : ∀ s q, Inv s → Inv ((linear_esfs mss).foldl (fun s esf => esf q s) s))
    (hest : ∀ s, Inv s → Q ((linear_esfs mss).foldl (fun s esf => esf pt s) s))
    (hstab : ∀ s q, Inv s → Q s → Q ((linear_esfs mss).foldl (fun s esf => esf q s) s))
    (s : S) (hs : Inv s) : Inv (run_mss g mss s) ∧ Q (run_mss g mss s) := by
  unfold run_mss
  have hplaneInv : ∀ (k : Nat) (s : S), Inv s →
      Inv (g.plane.foldl
        (fun s ij => (linear_esfs mss).foldl (fun s esf => esf ⟨ij.1, ij.2, k⟩ s) s) s) := by
    intro k s hs
    apply foldl_stable _ Inv _ _ s hs
    intro s ij _ hs
    exact hInv s _ hs
  apply foldl_establish _ Inv Q _ pt.k ((Grid.mem_levels g _ _).mpr hk) _ _ _ s hs
  · intro s k _ hs
    exact hplaneInv k s hs
  · intro s hs
    exact (foldl_establish
      (fun s ij => (linear_esfs mss).foldl (fun s esf => esf ⟨ij.1, ij.2, pt.k⟩ s) s)
      Inv Q g.plane (pt.i, pt.j) ((Grid.mem_plane g _ _).mpr ⟨hi, hj⟩)
      (fun s ij _ hs => hInv s _ hs) (fun s hs => hest s hs)
      (fun s ij _ hs hq => hstab s _ hs hq) s hs).2
  · intro s k _ hs hq
    exact (foldl_stable _ (fun s => Inv s ∧ Q s) g.plane
      (fun s ij _ h => ⟨hInv s _ h.1, hstab s _ h.1 h.2⟩) s ⟨hs, hq⟩).2

/-- The initialization loop of `multi_types_test::test` sets `field1(i, j, k)` to
`type1(i, j, k)` at every point of the storage. -/
theorem multi_types_test.initial_field1 (x y z i j k : Nat) (hi : i < x) (hj : j < y)
    (hk : k < z) :
    (multi_types_test.initial_fields x y z).field1 ⟨i, j, k⟩
      = { i := (i : Int), j := (j : Int), k := (k : Int) } := by
  have hstep : ∀ (f : Point → type1) (q : Point),
      f ⟨i, j, k⟩ = { i := (i : Int), j := (j : Int), k := (k : Int) } →
      Function.update f q { i := (q.i : Int), j := (q.j : Int), k := (q.k : Int) } ⟨i, j, k⟩
        = { i := (i : Int), j := (j : Int), k := (k : Int) } := by
    intro f q hf
    by_cases hq : (⟨i, j, k⟩ : Point) = q
    · subst hq
      rw [Function.update_same]
    · rw [Function.update_noteq hq, hf]
  have hinner : ∀ (a b : Nat) (f : Point → type1),
      f ⟨i, j, k⟩ = { i := (i : Int), j := (j : Int), k := (k : Int) } →
      ((List.range z).foldl (fun f (c : Nat) =>
        Function.update f ⟨a, b, c⟩ { i := (a : Int), j := (b : Int), k := (c : Int) }) f)
        ⟨i, j, k⟩ = { i := (i : Int), j := (j : Int), k := (k : Int) } := by
    intro a b f hf
    exact foldl_stable _
      (fun f => f ⟨i, j, k⟩ = { i := (i : Int), j := (j : Int), k := (k : Int) }) _
      (fun f c _ h => hstep f ⟨a, b, c⟩ h) f hf
  have hmid : ∀ (a : Nat) (f : Point → type1),
      f ⟨i, j, k⟩ = { i := (i : Int), j := (j : Int), k := (k : Int) } →
      ((List.range y).foldl (fun f (b : Nat) =>
        (List.range z).foldl (fun f (c : Nat) =>
          Function.update f ⟨a, b, c⟩ { i := (a : Int), j := (b : Int), k := (c : Int) }) f) f)
        ⟨i, j, k⟩ = { i := (i : Int), j := (j : Int), k := (k : Int) } := by
    intro a f hf
    exact foldl_stable _
      (fun f => f ⟨i, j, k⟩ = { i := (i : Int), j := (j : Int), k := (k : Int) }) _
      (fun f b _ h => hinner a b f h) f hf
  simp only [multi_types_test.initial_fields]
  refine (foldl_establish _ (fun _ => True)
    (fun f => f ⟨i, j, k⟩ = { i := (i : Int), j := (j : Int), k := (k : Int) })
    (List.range x) i (List.mem_range.mpr hi) (fun _ _ _ _ => trivial) ?_
    (fun f a _ _ h => hmid a f h) _ trivial).2
  intro f _
  refine (foldl_establish _ (fun _ => True)
    (fun f => f ⟨i, j, k⟩ = { i := (i : Int), j := (j : Int), k := (k : Int) })
    (List.range y) j (List.mem_range.mpr hj) (fun _ _ _ _ => trivial) ?_
    (fun f b _ _ h => hinner i b f h) _ trivial).2
  intro f _
  refine (foldl_establish _ (fun _ => True)
    (fun f => f ⟨i, j, k⟩ = { i := (i : Int), j := (j : Int), k := (k : Int) })
    (List.range z) k (List.mem_range.mpr hk) (fun _ _ _ _ => trivial) ?_
    (fun f c _ _ h => hstep f ⟨i, j, c⟩ h) _ trivial).2
  intro f _
  rw [Function.update_same]

/-- The ESFs the two stages of the test run, in order. -/
theorem multi_types_test.linear_esfs_stages :
    linear_esfs (make_mss ExecutionEngine.forward
        [make_esf multi_types_test.esf_function1, make_esf multi_types_test.esf_function2])
      = [multi_types_test.esf_function1, multi_types_test.esf_function2]
    ∧ linear_esfs (make_mss ExecutionEngine.backward
        [make_esf multi_types_test.esf_function1, make_esf multi_types_test.esf_function3])
      = [multi_types_test.esf_function1, multi_types_test.esf_function3] :=
  ⟨linear_esfs_plain ExecutionEngine.forward []
      [multi_types_test.esf_function1, multi_types_test.esf_function2],
   linear_esfs_plain ExecutionEngine.backward []
      [multi_types_test.esf_function1, multi_types_test.esf_function3]⟩

/-- The fields after the forward stage `function1, function2`: `field1` is
unchanged and `field2` is computed from it at every point of the grid. -/
theorem multi_types_test.forward_stage (g : Grid) (f : multi_types_test.Fields) (pt : Point)
    (hi : g.i_begin ≤ pt.i ∧ pt.i ≤ g.i_end) (hj : g.j_begin ≤ pt.j ∧ pt.j ≤ g.j_end)
    (hk : g.k_first ≤ pt.k ∧ pt.k ≤ g.k_last) :
    (run_mss g (make_mss ExecutionEngine.forward
        [make_esf multi_types_test.esf_function1, make_esf multi_types_test.esf_function2])
        f).field1 = f.field1
    ∧ (run_mss g (make_mss ExecutionEngine.forward
        [make_esf multi_types_test.esf_function1, make_esf multi_types_test.esf_function2])
        f).field2 pt = function2 (f.field1 pt) (function1 (f.field1 pt)) := by
  apply run_mss_establish g _ (fun (s : multi_types_test.Fields) => s.field1 = f.field1)
    (fun (s : multi_types_test.Fields) => s.field2 pt = function2 (f.field1 pt) (function1 (f.field1 pt))) pt hi hj hk
  · intro s q hs
    rw [multi_types_test.linear_esfs_stages.1]
    exact hs
  · intro s hs
    rw [multi_types_test.linear_esfs_stages.1]
    simp only [List.foldl_cons, List.foldl_nil, multi_types_test.esf_function1,
      multi_types_test.esf_function2, Function.update_same, hs]
  · intro s q hs hq
    rw [multi_types_test.linear_esfs_stages.1]
    simp only [List.foldl_cons, List.foldl_nil, multi_types_test.esf_function1,
      multi_types_test.esf_function2, Function.update_same, hs]
    by_cases hpq : pt = q
    · subst hpq
      rw [Function.update_same]
    · rw [Function.update_noteq hpq]
      exact hq
  · rfl

/-- The fields after the backward stage `function1, function3`: `field1` and
`field2` are unchanged and `field3` is computed from `field1` at every point of
the grid. -/
theorem multi_types_test.backward_stage (g : Grid) (f : multi_types_test.Fields) (pt : Point)
    (hi : g.i_begin ≤ pt.i ∧ pt.i ≤ g.i_end) (hj : g.j_begin ≤ pt.j ∧ pt.j ≤ g.j_end)
    (hk : g.k_first ≤ pt.k ∧ pt.k ≤ g.k_last) :
    ((run_mss g (make_mss ExecutionEngine.backward
        [make_esf multi_types_test.esf_function1, make_esf multi_types_test.esf_function3])
        f).field1 = f.field1
      ∧ (run_mss g (make_mss ExecutionEngine.backward
        [make_esf multi_types_test.esf_function1, make_esf multi_types_test.esf_function3])
        f).field2 = f.field2)
    ∧ (run_mss g (make_mss ExecutionEngine.backward
        [make_esf multi_types_test.esf_function1, make_esf multi_types_test.esf_function3])
        f).field3 pt = function3 (function1 (f.field1 pt)) (f.field1 pt) := by
  apply run_mss_establish g _
    (fun (s : multi_types_test.Fields) => s.field1 = f.field1 ∧ s.field2 = f.field2)
    (fun (s : multi_types_test.Fields) => s.field3 pt = function3 (function1 (f.field1 pt)) (f.field1 pt)) pt hi hj hk
  · intro s q hs
    rw [multi_types_test.linear_esfs_stages.2]
    exact hs
  · intro s hs
    rw [multi_types_test.linear_esfs_stages.2]
    simp only [List.foldl_cons, List.foldl_nil, multi_types_test.esf_function1,
      multi_types_test.esf_function3, Function.update_same, hs.1]
  · intro s q hs hq
    rw [multi_types_test.linear_esfs_stages.2]
    simp only [List.foldl_cons, List.foldl_nil, multi_types_test.esf_function1,
      multi_types_test.esf_function3, Function.update_same, hs.1]
    by_cases hpq : pt = q
    · subst hpq
      rw [Function.update_same]
    · rw [Function.update_noteq hpq]
      exact hq
  · exact ⟨rfl, rfl⟩

/-- A magnitude below `2 ^ p` loses no bit. -/
theorem dropped_bits_of_lt (p fuel a : Nat) (h : a < 2 ^ p) : dropped_bits p fuel a = 0 := by
  cases fuel <;> simp [dropped_bits, h]

/-- A magnitude in `[2 ^ p, 2 ^ (p + 1))` loses one bit. -/
theorem dropped_bits_one (p a : Nat) (h1 : 2 ^ p ≤ a) (h2 : a < 2 ^ (p + 1)) :
    dropped_bits p a a = 1 := by
  have hpos : 0 < 2 ^ p := Nat.two_pow_pos p
  obtain ⟨f, rfl⟩ : ∃ f, a = f + 1 := ⟨a - 1, by omega⟩
  have hhalf : (f + 1) / 2 < 2 ^ p := by
    rw [pow_succ] at h2
    omega
  simp only [dropped_bits]
  rw [if_neg (by omega), dropped_bits_of_lt p f _ hhalf]

theorem round_at_zero (a : Nat) : round_at 0 a = a := by
  simp [round_at, Nat.mod_one]

theorem round_at_one_even (a : Nat) (h : a % 2 = 0) : round_at 1 a = a := by
  simp only [round_at, pow_one, h]
  rw [if_neg (by omega)]
  omega

/-- A whole number of magnitude below `2 ^ p` is a value of the format with `p`
significant bits. -/
theorem round_to_nearest_of_lt (p : Nat) (n : Int) (h : n.natAbs < 2 ^ p) :
    round_to_nearest p n = n := by
  unfold round_to_nearest
  rw [dropped_bits_of_lt p _ _ h, round_at_zero]
  exact Int.sign_mul_natAbs n

/-- An even whole number of magnitude below `2 ^ (p + 1)` is a value of the format
with `p` significant bits. -/
theorem round_to_nearest_even (p : Nat) (n : Int) (h : n.natAbs < 2 ^ (p + 1))
    (hev : n.natAbs % 2 = 0) : round_to_nearest p n = n := by
  by_cases hlt : n.natAbs < 2 ^ p
  · exact round_to_nearest_of_lt p n hlt
  · unfold round_to_nearest
    rw [dropped_bits_one p _ (by omega) h, round_at_one_even _ hev]
    exact Int.sign_mul_natAbs n

theorem to_float_eq (n : Int) (h0 : 0 ≤ n) (h1 : n ≤ 16777216) : to_float n = n := by
  obtain ⟨m, rfl⟩ := Int.eq_ofNat_of_zero_le h0
  have hm : m ≤ 16777216 := by exact_mod_cast h1
  unfold to_float
  by_cases hlt : m < 16777216
  · apply round_to_nearest_of_lt
    simp only [Int.natAbs_ofNat]
    norm_num
    exact hlt
  · apply round_to_nearest_even
    · simp only [Int.natAbs_ofNat]
      norm_num
      omega
    · simp only [Int.natAbs_ofNat]
      omega

theorem to_float_even (n : Int) (h0 : 0 ≤ n) (h1 : n < 33554432) (h2 : n % 2 = 0) :
    to_float n = n := by
  obtain ⟨m, rfl⟩ := Int.eq_ofNat_of_zero_le h0
  have hm : m < 33554432 := by exact_mod_cast h1
  have hm2 : m % 2 = 0 := by omega
  unfold to_float
  apply round_to_nearest_even
  · simp only [Int.natAbs_ofNat]
    norm_num
    exact hm
  · simp only [Int.natAbs_ofNat]
    exact hm2

theorem to_double_eq (n : Int) (h0 : 0 ≤ n) (h1 : n < 9007199254740992) : to_double n = n := by
  obtain ⟨m, rfl⟩ := Int.eq_ofNat_of_zero_le h0
  have hm : m < 9007199254740992 := by exact_mod_cast h1
  unfold to_double
  apply round_to_nearest_of_lt
  simp only [Int.natAbs_ofNat]
  norm_num
  exact hm

/-- The calls `ready`, `steady`, `run`, `finalize` of the test succeed and leave
the fields of the backward stage run on the fields of the forward stage. -/
theorem multi_types_test.run_fields_eq (x y z : Nat) :
    multi_types_test.run_fields x y z
      = Except.ok (run_mss (multi_types_test.grid x y z)
          (make_mss ExecutionEngine.backward
            [make_esf multi_types_test.esf_function1, make_esf multi_types_test.esf_function3])
          (run_mss (multi_types_test.grid x y z)
            (make_mss ExecutionEngine.forward
              [make_esf multi_types_test.esf_function1,
               make_esf multi_types_test.esf_function2])
            (multi_types_test.initial_fields x y z))) := rfl

/-- The value the driver returns is the outcome of the checking loops on the
fields the run leaves. -/
theorem multi_types_test.test_eq (x y z : Nat) :
    multi_types_test.test x y z
      = Except.ok (multi_types_test.check x y z
          (run_mss (multi_types_test.grid x y z)
            (make_mss ExecutionEngine.backward
              [make_esf multi_types_test.esf_function1,
               make_esf multi_types_test.esf_function3])
            (run_mss (multi_types_test.grid x y z)
              (make_mss ExecutionEngine.forward
                [make_esf multi_types_test.esf_function1,
                 make_esf multi_types_test.esf_function2])
              (multi_types_test.initial_fields x y z)))) := rfl

/-- The fields of the test at a point of the storage after the two stages. -/
theorem multi_types_test.two_stages_point (x y z i j k : Nat) (hi : i < x) (hj : j < y)
    (hk : k < z) :
    ((run_mss (multi_types_test.grid x y z)
        (make_mss ExecutionEngine.backward
          [make_esf multi_types_test.esf_function1, make_esf multi_types_test.esf_function3])
        (run_mss (multi_types_test.grid x y z)
          (make_mss ExecutionEngine.forward
            [make_esf multi_types_test.esf_function1,
             make_esf multi_types_test.esf_function2])
          (multi_types_test.initial_fields x y z))).field1 ⟨i, j, k⟩
      = { i := (i : Int), j := (j : Int), k := (k : Int) })
    ∧ ((run_mss (multi_types_test.grid x y z)
        (make_mss ExecutionEngine.backward
          [make_esf multi_types_test.esf_function1, make_esf multi_types_test.esf_function3])
        (run_mss (multi_types_test.grid x y z)
          (make_mss ExecutionEngine.forward
            [make_esf multi_types_test.esf_function1,
             make_esf multi_types_test.esf_function2])
          (multi_types_test.initial_fields x y z))).field2 ⟨i, j, k⟩
      = function2 { i := (i : Int), j := (j : Int), k := (k : Int) }
          (function1 { i := (i : Int), j := (j : Int), k := (k : Int) }))
    ∧ ((run_mss (multi_types_test.grid x y z)
        (make_mss ExecutionEngine.backward
          [make_esf multi_types_test.esf_function1, make_esf multi_types_test.esf_function3])
        (run_mss (multi_types_test.grid x y z)
          (make_mss ExecutionEngine.forward
            [make_esf multi_types_test.esf_function1,
             make_esf multi_types_test.esf_function2])
          (multi_types_test.initial_fields x y z))).field3 ⟨i, j, k⟩
      = function3 (function1 { i := (i : Int), j := (j : Int), k := (k : Int) })
          { i := (i : Int), j := (j : Int), k := (k : Int) }) := by
  have gi : (multi_types_test.grid x y z).i_begin ≤ i ∧ i ≤ (multi_types_test.grid x y z).i_end := by
    simp only [multi_types_test.grid]; omega
  have gj : (multi_types_test.grid x y z).j_begin ≤ j ∧ j ≤ (multi_types_test.grid x y z).j_end := by
    simp only [multi_types_test.grid]; omega
  have gk : (multi_types_test.grid x y z).k_first ≤ k ∧ k ≤ (multi_types_test.grid x y z).k_last := by
    simp only [multi_types_test.grid]; omega
  obtain ⟨h1, h2⟩ := multi_types_test.forward_stage (multi_types_test.grid x y z)
    (multi_types_test.initial_fields x y z) ⟨i, j, k⟩ gi gj gk
  obtain ⟨⟨h3, h4⟩, h5⟩ := multi_types_test.backward_stage (multi_types_test.grid x y z)
    (run_mss (multi_types_test.grid x y z)
      (make_mss ExecutionEngine.forward
        [make_esf multi_types_test.esf_function1, make_esf multi_types_test.esf_function2])
      (multi_types_test.initial_fields x y z)) ⟨i, j, k⟩ gi gj gk
  have h0 := multi_types_test.initial_field1 x y z i j k hi hj hk
  rw [h3, h4, h5, h1, h2, h0]
  exact ⟨rfl, rfl, rfl⟩

/-- The value `function2` leaves at the point `(i, j, k)` while the `float`s are
exact. -/
theorem multi_types_test.function2_exact (i j k : Nat) (hi : i < 8388608) (hj : j < 8388608) :
    (function2 { i := (i : Int), j := (j : Int), k := (k : Int) }
        (function1 { i := (i : Int), j := (j : Int), k := (k : Int) })).xy
      = (2 * (i : Int) + 1) + (2 * (j : Int) + 1) := by
  simp only [function2, function1, function0, type2.assign, type4.add, type4.from_double,
    type4.assign]
  rw [to_float_eq ((i : Int) + 1) (by omega) (by omega),
    to_float_eq ((j : Int) + 1) (by omega) (by omega),
    to_double_eq (i : Int) (by omega) (by omega),
    to_double_eq (j : Int) (by omega) (by omega),
    to_double_eq ((i : Int) + 1 + i) (by omega) (by omega),
    to_double_eq ((j : Int) + 1 + j) (by omega) (by omega),
    to_float_eq ((i : Int) + 1 + i) (by omega) (by omega),
    to_float_eq ((j : Int) + 1 + j) (by omega) (by omega),
    to_float_even ((i : Int) + 1 + i + ((j : Int) + 1 + j)) (by omega) (by omega) (by omega)]
  ring

/-- The value `function3` leaves at the point `(i, j, k)` while the `float`s are
exact. -/
theorem multi_types_test.function3_exact (i j k : Nat) (hj : j < 8388608)
    (hk : k < 16777216) :
    (function3 (function1 { i := (i : Int), j := (j : Int), k := (k : Int) })
        { i := (i : Int), j := (j : Int), k := (k : Int) }).yz = 2 := by
  simp only [function3, function1, function0, type3.assign, type4.sub, type4.from_double,
    type4.assign]
  rw [to_float_eq ((j : Int) + 1) (by omega) (by omega),
    to_float_eq ((k : Int) + 1) (by omega) (by omega),
    to_double_eq (j : Int) (by omega) (by omega),
    to_double_eq (k : Int) (by omega) (by omega)]
  have e1 : (j : Int) + 1 - j = 1 := by ring
  have e2 : (k : Int) + 1 - k = 1 := by ring
  rw [e1, e2]
  rfl

/-- The expected value of the checking loop at the point `(i, j, k)` while the
`double`s are exact. -/
theorem multi_types_test.expected_exact (i j : Nat) (hi : i < 8388608) (hj : j < 8388608) :
    to_double (to_double (2 * (i : Int) + 1) + to_double (2 * (j : Int) + 1))
      = (2 * (i : Int) + 1) + (2 * (j : Int) + 1) := by
  rw [to_double_eq (2 * (i : Int) + 1) (by omega) (by omega),
    to_double_eq (2 * (j : Int) + 1) (by omega) (by omega),
    to_double_eq (2 * (i : Int) + 1 + (2 * (j : Int) + 1)) (by omega) (by omega)]

/-- The fields after a stage of `function1` alone: `field1` and `field2` are
unchanged and `temp` is computed from `field1` at every point of the grid. -/
theorem multi_types_test.stage_function1 (g : Grid) (f : multi_types_test.Fields) (pt : Point)
    (hi : g.i_begin ≤ pt.i ∧ pt.i ≤ g.i_end) (hj : g.j_begin ≤ pt.j ∧ pt.j ≤ g.j_end)
    (hk : g.k_first ≤ pt.k ∧ pt.k ≤ g.k_last) :
    ((run_mss g (make_mss ExecutionEngine.forward [make_esf multi_types_test.esf_function1])
        f).field1 = f.field1
      ∧ (run_mss g (make_mss ExecutionEngine.forward [make_esf multi_types_test.esf_function1])
        f).field2 = f.field2)
    ∧ (run_mss g (make_mss ExecutionEngine.forward [make_esf multi_types_test.esf_function1])
        f).temp pt = function1 (f.field1 pt) := by
  have hl : linear_esfs (make_mss ExecutionEngine.forward
      [make_esf multi_types_test.esf_function1]) = [multi_types_test.esf_function1] :=
    linear_esfs_plain ExecutionEngine.forward [] [multi_types_test.esf_function1]
  apply run_mss_establish g _
    (fun (s : multi_types_test.Fields) => s.field1 = f.field1 ∧ s.field2 = f.field2)
    (fun (s : multi_types_test.Fields) => s.temp pt = function1 (f.field1 pt)) pt hi hj hk
  · intro s q hs
    rw [hl]
    exact hs
  · intro s hs
    rw [hl]
    simp only [List.foldl_cons, List.foldl_nil, multi_types_test.esf_function1,
      Function.update_same, hs.1]
  · intro s q hs hq
    rw [hl]
    simp only [List.foldl_cons, List.foldl_nil, multi_types_test.esf_function1, hs.1]
    by_cases hpq : pt = q
    · subst hpq
      rw [Function.update_same]
    · rw [Function.update_noteq hpq]
      exact hq
  · exact ⟨rfl, rfl⟩

/-- The fields after a stage of `function2` alone: `field1` and `temp` are
unchanged and `field2` is computed from them at every point of the grid. -/
theorem multi_types_test.stage_function2 (g : Grid) (f : multi_types_test.Fields) (pt : Point)
    (hi : g.i_begin ≤ pt.i ∧ pt.i ≤ g.i_end) (hj : g.j_begin ≤ pt.j ∧ pt.j ≤ g.j_end)
    (hk : g.k_first ≤ pt.k ∧ pt.k ≤ g.k_last) :
    ((run_mss g (make_mss ExecutionEngine.forward [make_esf multi_types_test.esf_function2])
        f).field1 = f.field1
      ∧ (run_mss g (make_mss ExecutionEngine.forward [make_esf multi_types_test.esf_function2])
        f).temp = f.temp)
    ∧ (run_mss g (make_mss ExecutionEngine.forward [make_esf multi_types_test.esf_function2])
        f).field2 pt = function2 (f.field1 pt) (f.temp pt) := by
  have hl : linear_esfs (make_mss ExecutionEngine.forward
      [make_esf multi_types_test.esf_function2]) = [multi_types_test.esf_function2] :=
    linear_esfs_plain ExecutionEngine.forward [] [multi_types_test.esf_function2]
  apply run_mss_establish g _
    (fun (s : multi_types_test.Fields) => s.field1 = f.field1 ∧ s.temp = f.temp)
    (fun (s : multi_types_test.Fields) => s.field2 pt = function2 (f.field1 pt) (f.temp pt))
    pt hi hj hk
  · intro s q hs
    rw [hl]
    exact hs
  · intro s hs
    rw [hl]
    simp only [List.foldl_cons, List.foldl_nil, multi_types_test.esf_function2,
      Function.update_same, hs.1, hs.2]
  · intro s q hs hq
    rw [hl]
    simp only [List.foldl_cons, List.foldl_nil, multi_types_test.esf_function2, hs.1, hs.2]
    by_cases hpq : pt = q
    · subst hpq
      rw [Function.update_same]
    · rw [Function.update_noteq hpq]
      exact hq
  · exact ⟨rfl, rfl⟩

/-- The two orders of a stage of `function1` and a stage of `function2` on the
storages of the test: `function2` reads the `temp` that `function1` wrote when
its stage comes second, and the value-initialized `temp` when it comes first. -/
theorem multi_types_test.split_stages_point (x y z i j k : Nat) (hi : i < x) (hj : j < y)
    (hk : k < z) :
    (run_mss (multi_types_test.grid x y z)
        (make_mss ExecutionEngine.forward [make_esf multi_types_test.esf_function2])
        (run_mss (multi_types_test.grid x y z)
          (make_mss ExecutionEngine.forward [make_esf multi_types_test.esf_function1])
          (multi_types_test.initial_fields x y z))).field2 ⟨i, j, k⟩
      = function2 { i := (i : Int), j := (j : Int), k := (k : Int) }
          (function1 { i := (i : Int), j := (j : Int), k := (k : Int) })
    ∧ (run_mss (multi_types_test.grid x y z)
        (make_mss ExecutionEngine.forward [make_esf multi_types_test.esf_function1])
        (run_mss (multi_types_test.grid x y z)
          (make_mss ExecutionEngine.forward [make_esf multi_types_test.esf_function2])
          (multi_types_test.initial_fields x y z))).field2 ⟨i, j, k⟩
      = function2 { i := (i : Int), j := (j : Int), k := (k : Int) }
          { x := 0, y := 0, z := 0 } := by
  have gi : (multi_types_test.grid x y z).i_begin ≤ i ∧ i ≤ (multi_types_test.grid x y z).i_end := by
    simp only [multi_types_test.grid]; omega
  have gj : (multi_types_test.grid x y z).j_begin ≤ j ∧ j ≤ (multi_types_test.grid x y z).j_end := by
    simp only [multi_types_test.grid]; omega
  have gk : (multi_types_test.grid x y z).k_first ≤ k ∧ k ≤ (multi_types_test.grid x y z).k_last := by
    simp only [multi_types_test.grid]; omega
  have h0 := multi_types_test.initial_field1 x y z i j k hi hj hk
  constructor
  · obtain ⟨⟨a1, -⟩, a2⟩ := multi_types_test.stage_function1 (multi_types_test.grid x y z)
      (multi_types_test.initial_fields x y z) ⟨i, j, k⟩ gi gj gk
    obtain ⟨-, b2⟩ := multi_types_test.stage_function2 (multi_types_test.grid x y z)
      (run_mss (multi_types_test.grid x y z)
        (make_mss ExecutionEngine.forward [make_esf multi_types_test.esf_function1])
        (multi_types_test.initial_fields x y z)) ⟨i, j, k⟩ gi gj gk
    rw [b2, a1, a2, h0]
  · obtain ⟨-, b2⟩ := multi_types_test.stage_function2 (multi_types_test.grid x y z)
      (multi_types_test.initial_fields x y z) ⟨i, j, k⟩ gi gj gk
    obtain ⟨⟨-, a1⟩, -⟩ := multi_types_test.stage_function1 (multi_types_test.grid x y z)
      (run_mss (multi_types_test.grid x y z)
        (make_mss ExecutionEngine.forward [make_esf multi_types_test.esf_function2])
        (multi_types_test.initial_fields x y z)) ⟨i, j, k⟩ gi gj gk
    rw [a1, b2, h0]
    rfl

/-- The value `function2` leaves at the point `(i, j, k)` from a value-initialized
`temp`, while the `float`s are exact. -/
theorem multi_types_test.function2_of_zero (i j k : Nat) (hi : i < 8388608)
    (hj : j < 8388608) :
    (function2 { i := (i : Int), j := (j : Int), k := (k : Int) }
        { x := 0, y := 0, z := 0 }).xy = (i : Int) + (j : Int) := by
  simp only [function2, type2.assign, type4.add, type4.from_double, zero_add]
  rw [to_double_eq (i : Int) (by omega) (by omega),
    to_double_eq (j : Int) (by omega) (by omega),
    to_double_eq (i : Int) (by omega) (by omega),
    to_double_eq (j : Int) (by omega) (by omega),
    to_float_eq (i : Int) (by omega) (by omega),
    to_float_eq (j : Int) (by omega) (by omega),
    to_float_eq ((i : Int) + j) (by omega) (by omega)]

/-- The `float` nearest to `16777217 = 2 ^ 24 + 1` is `16777216`. -/
theorem to_float_16777217 : to_float 16777217 = 16777216 := by
  unfold to_float round_to_nearest
  have hn : (16777217 : Int).natAbs = 16777217 := rfl
  rw [hn, dropped_bits_one 24 16777217 (by norm_num) (by norm_num)]
  have hr : round_at 1 16777217 = 16777216 := by
    norm_num [round_at]
  rw [hr]
  rfl

/-- The counterexample to claim C13 as stated, the size `x = 8388609 = 2 ^ 23 + 1`,
`y = z = 1`: at the point `(8388608, 0, 0)` the `float` sum `temp.x + in.i` is
`16777217`, which rounds to `16777216`, so the run leaves
`field2.xy = 16777216`, not `(2 * 8388608 + 1) + (2 * 0 + 1) = 16777218`, and the
driver returns `false`. -/
theorem C13_counterexample :
    ∃ f : multi_types_test.Fields,
      multi_types_test.run_fields 8388609 1 1 = Except.ok f
      ∧ f.field1 ⟨8388608, 0, 0⟩ = { i := 8388608, j := 0, k := 0 }
      ∧ (f.field2 ⟨8388608, 0, 0⟩).xy = 16777216
      ∧ (f.field2 ⟨8388608, 0, 0⟩).xy ≠ (2 * (8388608 : Int) + 1) + (2 * 0 + 1)
      ∧ multi_types_test.test 8388609 1 1 = Except.ok false := by
  obtain ⟨h1, h2, -⟩ := multi_types_test.two_stages_point 8388609 1 1 8388608 0 0
    (by omega) (by omega) (by omega)
  simp only [Nat.cast_ofNat, Nat.cast_zero] at h1 h2
  have a1 : to_float 8388609 = 8388609 := to_float_eq _ (by norm_num) (by norm_num)
  have a2 : to_double 8388608 = 8388608 := to_double_eq _ (by norm_num) (by norm_num)
  have a3 : to_double 16777217 = 16777217 := to_double_eq _ (by norm_num) (by norm_num)
  have a4 : to_float 1 = 1 := to_float_eq _ (by norm_num) (by norm_num)
  have a5 : to_double 0 = 0 := to_double_eq _ (by norm_num) (by norm_num)
  have a6 : to_double 1 = 1 := to_double_eq _ (by norm_num) (by norm_num)
  have a7 : to_double 16777218 = 16777218 := to_double_eq _ (by norm_num) (by norm_num)
  have hv : (function2 { i := 8388608, j := 0, k := 0 }
        (function1 { i := 8388608, j := 0, k := 0 })).xy = 16777216 := by
    norm_num [function2, function1, function0, type2.assign, type4.add, type4.from_double,
      type4.assign, a1, a2, a3, a4, a5, a6, to_float_16777217]
  refine ⟨_, multi_types_test.run_fields_eq 8388609 1 1, h1, ?_, ?_, ?_⟩
  · rw [h2]; exact hv
  · rw [h2, hv]; norm_num
  · rw [multi_types_test.test_eq]
    refine congrArg Except.ok ?_
    rw [Bool.eq_false_iff]
    intro hall
    simp only [multi_types_test.check, List.all_eq_true, List.mem_range, Bool.and_eq_true,
      decide_eq_true_eq] at hall
    have hpt := (hall 8388608 (by omega) 0 (by omega) 0 (by omega)).1
    rw [h1, h2, hv] at hpt
    norm_num [a2, a3, a6, a7] at hpt

/-- Claim C13, amended: stages run in declared order and the ESFs of a stage in
listed order, and the values of the test hold while its `float`s are exact.  A
run of the stages `first :: rest` is the run of `rest` on the fields the stage
`first` leaves; the ESFs a stage evaluates at a point are those listed, in the
order listed; and the order matters: on the storages of the test the stage
`function1` declared before the stage `function2` leaves
`field2(i, j, k).xy = (2 i + 1) + (2 j + 1)`, declared after it `i + j`.  For
sizes `1 ≤ x ≤ 8388608`, `1 ≤ y ≤ 8388608`, `1 ≤ z ≤ 16777216` with
`field1(i, j, k) = (i, j, k)`, the calls `ready`, `steady`, `run`, `finalize` on the
two-stage computation (forward: `function1` then `function2`; backward:
`function1` then `function3`) succeed and leave
`field2(i, j, k).xy = (2 i + 1) + (2 j + 1)` and `field3(i, j, k).yz = 2` at every
point, so the driver returns `true`. -/
theorem C13_stages_in_declared_order (x y z : Nat) (hx : 1 ≤ x) (hy : 1 ≤ y) (hz : 1 ≤ z)
    (hx2 : x ≤ 8388608) (hy2 : y ≤ 8388608) (hz2 : z ≤ 16777216) :
    (∀ (E S : Type) (grid : Grid) (first : MssTree E (Esf S))
        (rest : List (MssTree E (Esf S))) (env : E) (fields : S),
        ({ grid := grid, mss_trees := first :: rest, state := LifecycleState.Steady } :
            computation E S).run env fields
          = ({ grid := grid, mss_trees := rest, state := LifecycleState.Steady } :
              computation E S).run env (run_mss grid (first.resolve env) fields))
    ∧ (∀ (S : Type) (e : ExecutionEngine) (esfs : List (Esf S)),
        linear_esfs (make_mss e (esfs.map make_esf)) = esfs)
    ∧ (∃ f g : multi_types_test.Fields,
        ({ grid := multi_types_test.grid x y z,
           mss_trees :=
             [MssTree.mss (make_mss ExecutionEngine.forward
                [make_esf multi_types_test.esf_function1]),
              MssTree.mss (make_mss ExecutionEngine.forward
                [make_esf multi_types_test.esf_function2])],
           state := LifecycleState.Steady } : computation Unit multi_types_test.Fields).run ()
            (multi_types_test.initial_fields x y z) = Except.ok f
        ∧ ({ grid := multi_types_test.grid x y z,
             mss_trees :=
               [MssTree.mss (make_mss ExecutionEngine.forward
                  [make_esf multi_types_test.esf_function2]),
                MssTree.mss (make_mss ExecutionEngine.forward
                  [make_esf multi_types_test.esf_function1])],
             state := LifecycleState.Steady } : computation Unit multi_types_test.Fields).run ()
              (multi_types_test.initial_fields x y z) = Except.ok g
        ∧ ∀ i j k : Nat, i < x → j < y → k < z →
            (f.field2 ⟨i, j, k⟩).xy = (2 * (i : Int) + 1) + (2 * (j : Int) + 1)
            ∧ (g.field2 ⟨i, j, k⟩).xy = (i : Int) + (j : Int))
    ∧ ∃ f : multi_types_test.Fields,
      multi_types_test.run_fields x y z = Except.ok f
      ∧ (∀ i j k : Nat, i < x → j < y → k < z →
          (f.field2 ⟨i, j, k⟩).xy = (2 * (i : Int) + 1) + (2 * (j : Int) + 1)
          ∧ (f.field3 ⟨i, j, k⟩).yz = 2)
      ∧ multi_types_test.test x y z = Except.ok true := by
  refine ⟨fun _ _ _ _ _ _ _ => rfl, ?_, ⟨_, _, rfl, rfl, ?_⟩,
    _, multi_types_test.run_fields_eq x y z, ?_, ?_⟩
  · intro S e esfs
    exact linear_esfs_plain e [] esfs
  · intro i j k hi hj hk
    obtain ⟨h1, h2⟩ := multi_types_test.split_stages_point x y z i j k hi hj hk
    exact ⟨by
      rw [show ∀ s : multi_types_test.Fields,
          List.foldl (fun s node => run_mss (multi_types_test.grid x y z)
            (MssTree.resolve () node) s) s
            [MssTree.mss (make_mss ExecutionEngine.forward
                [make_esf multi_types_test.esf_function1]),
             MssTree.mss (make_mss ExecutionEngine.forward
                [make_esf multi_types_test.esf_function2])]
          = run_mss (multi_types_test.grid x y z)
              (make_mss ExecutionEngine.forward [make_esf multi_types_test.esf_function2])
              (run_mss (multi_types_test.grid x y z)
                (make_mss ExecutionEngine.forward [make_esf multi_types_test.esf_function1])
                s) from fun _ => rfl, h1]
      exact multi_types_test.function2_exact i j k (by omega) (by omega), by
      rw [show ∀ s : multi_types_test.Fields,
          List.foldl (fun s node => run_mss (multi_types_test.grid x y z)
            (MssTree.resolve () node) s) s
            [MssTree.mss (make_mss ExecutionEngine.forward
                [make_esf multi_types_test.esf_function2]),
             MssTree.mss (make_mss ExecutionEngine.forward
                [make_esf multi_types_test.esf_function1])]
          = run_mss (multi_types_test.grid x y z)
              (make_mss ExecutionEngine.forward [make_esf multi_types_test.esf_function1])
              (run_mss (multi_types_test.grid x y z)
                (make_mss ExecutionEngine.forward [make_esf multi_types_test.esf_function2])
                s) from fun _ => rfl, h2]
      exact multi_types_test.function2_of_zero i j k (by omega) (by omega)⟩
  · intro i j k hi hj hk
    obtain ⟨-, h2, h3⟩ := multi_types_test.two_stages_point x y z i j k hi hj hk
    rw [h2, h3]
    exact ⟨multi_types_test.function2_exact i j k (by omega) (by omega),
      multi_types_test.function3_exact i j k (by omega) (by omega)⟩
  · rw [multi_types_test.test_eq]
    congr 1
    simp only [multi_types_test.check, List.all_eq_true, List.mem_range, Bool.and_eq_true,
      decide_eq_true_eq]
    intro i hi j hj k hk
    obtain ⟨h1, h2, h3⟩ := multi_types_test.two_stages_point x y z i j k hi hj hk
    rw [h1, h2, h3]
    exact ⟨by
      rw [multi_types_test.function2_exact i j k (by omega) (by omega)]
      exact (multi_types_test.expected_exact i j (by omega) (by omega)).symm,
      multi_types_test.function3_exact i j k (by omega) (by omega)⟩

/-- Claim C13 at the sizes of the unit test, `test(4, 4, 4)`. -/
theorem C13_stages_in_declared_order_witness :
    ∃ f : multi_types_test.Fields,
      multi_types_test.run_fields 4 4 4 = Except.ok f
      ∧ (∀ i j k : Nat, i < 4 → j < 4 → k < 4 →
          (f.field2 ⟨i, j, k⟩).xy = (2 * (i : Int) + 1) + (2 * (j : Int) + 1)
          ∧ (f.field3 ⟨i, j, k⟩).yz = 2)
      ∧ multi_types_test.test 4 4 4 = Except.ok true :=
  (C13_stages_in_declared_order 4 4 4 (by decide) (by decide) (by decide) (by decide)
    (by decide) (by decide)).2.2.2


/-! ## Properties of `intermediate_expand` -/

theorem intermediate_expand.size_sub_mod (self : intermediate_expand) :
    self.m_size - self.m_size % self.ExpandFactor.value
      = self.m_size / self.ExpandFactor.value * self.ExpandFactor.value := by
  have h := Nat.div_add_mod self.m_size self.ExpandFactor.value
  rw [Nat.mul_comm] at h
  omega

theorem intermediate_expand.main_loop_from (self : intermediate_expand) :
    ∀ n q : Nat, q + n = self.m_size / self.ExpandFactor.value →
      self.main_loop (q * self.ExpandFactor.value)
        = (List.range' q n).map fun (q : Nat) =>
            ForwardedCall.run Target.m_intermediate (q * self.ExpandFactor.value) := by
  intro n
  induction n with
  | zero =>
      intro q hq
      unfold intermediate_expand.main_loop
      rw [if_neg]
      · rfl
      · rw [self.size_sub_mod]
        have : q = self.m_size / self.ExpandFactor.value := by omega
        rw [this]
        exact Nat.lt_irrefl _
  | succ n ih =>
      intro q hq
      unfold intermediate_expand.main_loop
      rw [if_pos]
      · have h := ih (q + 1) (by omega)
        rw [Nat.add_mul, Nat.one_mul] at h
        rw [h, List.range'_succ, List.map_cons]
      · rw [self.size_sub_mod]
        exact Nat.mul_lt_mul_of_pos_right (by omega) self.ExpandFactor.value_pos

theorem intermediate_expand.calls_of_run_eq (self : intermediate_expand) :
    self.calls_of_run
      = ((List.range (self.m_size / self.ExpandFactor.value)).map fun (q : Nat) =>
          ForwardedCall.run Target.m_intermediate (q * self.ExpandFactor.value))
        ++ (List.range (self.m_size % self.ExpandFactor.value)).map fun (i : Nat) =>
            ForwardedCall.run Target.m_intermediate_extra
              (self.m_size - self.m_size % self.ExpandFactor.value + i) := by
  unfold intermediate_expand.calls_of_run
  have h := self.main_loop_from (self.m_size / self.ExpandFactor.value) 0 (by omega)
  rw [Nat.zero_mul] at h
  rw [h, ← List.range_eq_range']

/-- Claim C14: for every size `N` and expand factor `F` a `run()` forwards
`N / F` runs to the computation of vector width `F` followed by `N % F` runs to
the computation of vector width `1` (one per remaining parameter), not one run of
vector width `N % F`; for `N = 23`, `F = 4` these are five runs of width 4 on the
chunks starting at 0, 4, 8, 12, 16 and three runs of width 1 on 20, 21, 22. -/
theorem C14_remainder_runs_have_width_one :
    (∀ (F : expand_factor) (N : Nat),
      (intermediate_expand.construct F N).calls_of_run
        = ((List.range (N / F.value)).map fun (q : Nat) =>
            ForwardedCall.run Target.m_intermediate (q * F.value))
          ++ (List.range (N % F.value)).map fun (i : Nat) =>
              ForwardedCall.run Target.m_intermediate_extra (N - N % F.value + i))
    ∧ (∀ F : expand_factor, Target.m_intermediate_extra.vector_width F = 1)
    ∧ (intermediate_expand.construct ⟨4, by decide⟩ 23).calls_of_run
        = [ForwardedCall.run Target.m_intermediate 0,
           ForwardedCall.run Target.m_intermediate 4,
           ForwardedCall.run Target.m_intermediate 8,
           ForwardedCall.run Target.m_intermediate 12,
           ForwardedCall.run Target.m_intermediate 16,
           ForwardedCall.run Target.m_intermediate_extra 20,
           ForwardedCall.run Target.m_intermediate_extra 21,
           ForwardedCall.run Target.m_intermediate_extra 22]
    ∧ ((intermediate_expand.construct ⟨4, by decide⟩ 23).calls_of_run.map fun c =>
          (c.target.vector_width ⟨4, by decide⟩)) = [4, 4, 4, 4, 4, 1, 1, 1] := by
  have hgen : ∀ (F : expand_factor) (N : Nat),
      (intermediate_expand.construct F N).calls_of_run
        = ((List.range (N / F.value)).map fun (q : Nat) =>
            ForwardedCall.run Target.m_intermediate (q * F.value))
          ++ (List.range (N % F.value)).map fun (i : Nat) =>
              ForwardedCall.run Target.m_intermediate_extra (N - N % F.value + i) :=
    fun F N => (intermediate_expand.construct F N).calls_of_run_eq
  refine ⟨hgen, fun _ => rfl, ?_, ?_⟩
  · rw [hgen]; rfl
  · rw [hgen]; rfl


theorem flatMap_range_chunks (F : Nat) :
    ∀ n : Nat, (List.range n).flatMap (fun (q : Nat) => List.range' (q * F) F)
      = List.range (n * F) := by
  intro n
  induction n with
  | zero => simp
  | succ n ih =>
      rw [List.range_succ, List.flatMap_append, ih, List.flatMap_singleton,
        List.range_eq_range', List.range_eq_range']
      have h := List.range'_append_1 0 (n * F) F
      rw [Nat.zero_add] at h
      rw [h, Nat.add_mul, Nat.one_mul, Nat.add_comm]

theorem flatMap_range_singles (a : Nat) :
    ∀ m : Nat, (List.range m).flatMap (fun (i : Nat) => List.range' (a + i) 1)
      = List.range' a m := by
  intro m
  induction m with
  | zero => simp
  | succ m ih =>
      rw [List.range_succ, List.flatMap_append, ih, List.flatMap_singleton,
        List.range'_append_1, Nat.add_comm 1 m]

theorem intermediate_expand.consumed_by_run_eq (self : intermediate_expand) :
    self.consumed_by_run = List.range self.m_size := by
  unfold intermediate_expand.consumed_by_run
  rw [self.calls_of_run_eq, List.flatMap_append, List.flatMap_map, List.flatMap_map]
  have h1 : ((List.range (self.m_size / self.ExpandFactor.value)).flatMap fun (a : Nat) =>
      ForwardedCall.consumed self.ExpandFactor
        (ForwardedCall.run Target.m_intermediate (a * self.ExpandFactor.value)))
      = List.range (self.m_size / self.ExpandFactor.value * self.ExpandFactor.value) :=
    flatMap_range_chunks self.ExpandFactor.value _
  have h2 : ((List.range (self.m_size % self.ExpandFactor.value)).flatMap fun (a : Nat) =>
      ForwardedCall.consumed self.ExpandFactor
        (ForwardedCall.run Target.m_intermediate_extra
          (self.m_size - self.m_size % self.ExpandFactor.value + a)))
      = List.range' (self.m_size - self.m_size % self.ExpandFactor.value)
          (self.m_size % self.ExpandFactor.value) :=
    flatMap_range_singles _ _
  rw [h1, h2, self.size_sub_mod, List.range_eq_range', List.range_eq_range']
  have h3 := List.range'_append_1 0
    (self.m_size / self.ExpandFactor.value * self.ExpandFactor.value)
    (self.m_size % self.ExpandFactor.value)
  rw [Nat.zero_add] at h3
  rw [h3]
  congr 1
  have h := Nat.div_add_mod self.m_size self.ExpandFactor.value
  rw [Nat.mul_comm] at h
  omega

/-- Claim C15: for every size `N` and expand factor `F ≥ 1`, the index ranges one
`run()` hands to the inner computations, concatenated in program order, are
exactly `0, 1, ..., N - 1`; hence the ranges are pairwise disjoint, and an index
lies in one of them iff it is below `N`. -/
theorem C15_run_consumes_every_parameter_once (F : expand_factor) (N : Nat) :
    (intermediate_expand.construct F N).consumed_by_run = List.range N
    ∧ ((intermediate_expand.construct F N).calls_of_run.map
        (ForwardedCall.consumed F)).Pairwise List.Disjoint
    ∧ (∀ i : Nat,
        (∃ r ∈ (intermediate_expand.construct F N).calls_of_run.map
            (ForwardedCall.consumed F), i ∈ r) ↔ i < N) := by
  have h := (intermediate_expand.construct F N).consumed_by_run_eq
  have hm : (intermediate_expand.construct F N).m_size = N := rfl
  have hF : (intermediate_expand.construct F N).ExpandFactor = F := rfl
  rw [hm] at h
  unfold intermediate_expand.consumed_by_run at h
  rw [hF] at h
  refine ⟨h, ?_, ?_⟩
  · have hn : ((intermediate_expand.construct F N).calls_of_run.flatMap
        (ForwardedCall.consumed F)).Nodup := by
      rw [h]; exact List.nodup_range N
    exact List.pairwise_map.mpr (List.nodup_flatMap.mp hn).2
  · intro i
    have hi : i ∈ (intermediate_expand.construct F N).calls_of_run.flatMap
        (ForwardedCall.consumed F) ↔ i < N := by
      rw [h]; exact List.mem_range
    rw [← hi, List.mem_flatMap]
    constructor
    · rintro ⟨r, hr, hir⟩
      obtain ⟨c, hc, rfl⟩ := List.mem_map.mp hr
      exact ⟨c, hc, hir⟩
    · rintro ⟨c, hc, hic⟩
      exact ⟨_, List.mem_map.mpr ⟨c, hc, rfl⟩, hic⟩


theorem intermediate_expand.target_of_mem_calls_of_run (self : intermediate_expand)
    (c : ForwardedCall) (hc : c ∈ self.calls_of_run)
    (ht : c.target = Target.m_intermediate_extra) :
    self.m_size % self.ExpandFactor.value ≠ 0 := by
  rw [self.calls_of_run_eq, List.mem_append] at hc
  rcases hc with hc | hc
  · obtain ⟨q, _, rfl⟩ := List.mem_map.mp hc
    cases ht
  · obtain ⟨i, hi, rfl⟩ := List.mem_map.mp hc
    have := List.mem_range.mp hi
    omega

theorem intermediate_expand.target_of_mem_calls (self : intermediate_expand)
    (calls : List ForwardedCall)
    (hcalls : calls ∈ [self.calls_of_run, self.calls_of_ready, self.calls_of_steady,
      self.calls_of_finalize])
    (c : ForwardedCall) (hc : c ∈ calls) (ht : c.target = Target.m_intermediate_extra) :
    self.m_size % self.ExpandFactor.value ≠ 0 := by
  simp only [List.mem_cons, List.mem_singleton, List.not_mem_nil, or_false] at hcalls
  rcases hcalls with rfl | rfl | rfl | rfl
  · exact self.target_of_mem_calls_of_run c hc ht
  · unfold intermediate_expand.calls_of_ready at hc
    intro h0
    rw [if_neg (by simpa using h0)] at hc
    simp only [List.mem_singleton] at hc
    subst hc
    cases ht
  · unfold intermediate_expand.calls_of_steady at hc
    intro h0
    rw [if_neg (by simpa using h0)] at hc
    simp only [List.mem_singleton] at hc
    subst hc
    cases ht
  · unfold intermediate_expand.calls_of_finalize at hc
    intro h0
    rw [if_neg (by simpa using h0)] at hc
    simp only [List.mem_singleton] at hc
    subst hc
    cases ht

/-- Claim C16: after construction `m_intermediate_extra` is non-null iff
`m_size % ExpandFactor::value` is non-zero; a call that `run()`, `ready()`,
`steady()` or `finalize()` forwards through `m_intermediate_extra` occurs only
when `m_size % ExpandFactor::value` is non-zero, and every call these methods
forward goes through a non-null pointer. -/
theorem C16_extra_exists_iff_remainder (F : expand_factor) (size : Nat) :
    ((intermediate_expand.construct F size).m_intermediate_extra.isSome = true
        ↔ size % F.value ≠ 0)
    ∧ (∀ calls ∈ [(intermediate_expand.construct F size).calls_of_run,
          (intermediate_expand.construct F size).calls_of_ready,
          (intermediate_expand.construct F size).calls_of_steady,
          (intermediate_expand.construct F size).calls_of_finalize],
        ∀ c ∈ calls, c.target = Target.m_intermediate_extra → size % F.value ≠ 0)
    ∧ (∀ calls ∈ [(intermediate_expand.construct F size).calls_of_run,
          (intermediate_expand.construct F size).calls_of_ready,
          (intermediate_expand.construct F size).calls_of_steady,
          (intermediate_expand.construct F size).calls_of_finalize],
        ∀ c ∈ calls,
          ((intermediate_expand.construct F size).pointer c.target).isSome = true) := by
  have h1 : (intermediate_expand.construct F size).m_intermediate_extra.isSome = true
      ↔ size % F.value ≠ 0 := by
    unfold intermediate_expand.construct
    by_cases h : size % F.value = 0
    · simp [h]
    · simp [h]
  have h2 : ∀ calls ∈ [(intermediate_expand.construct F size).calls_of_run,
          (intermediate_expand.construct F size).calls_of_ready,
          (intermediate_expand.construct F size).calls_of_steady,
          (intermediate_expand.construct F size).calls_of_finalize],
        ∀ c ∈ calls, c.target = Target.m_intermediate_extra → size % F.value ≠ 0 :=
    fun calls hcalls c hc ht =>
      (intermediate_expand.construct F size).target_of_mem_calls calls hcalls c hc ht
  refine ⟨h1, h2, ?_⟩
  intro calls hcalls c hc
  cases ht : c.target with
  | m_intermediate => rfl
  | m_intermediate_extra => exact h1.mpr (h2 calls hcalls c hc ht)


theorem intermediate_expand.perform_run_not_steady (self : intermediate_expand)
    (t : Target) (index : Nat) (a : intermediate) (hp : self.pointer t = some a)
    (hs : a.state ≠ LifecycleState.Steady) :
    self.perform (ForwardedCall.run t index)
      = ({ self with m_domain_to := some index }, some Error.LifecycleError) := by
  have hp1 : intermediate_expand.pointer { self with m_domain_to := some index } t
      = some a := by
    cases t <;> exact hp
  have hr : a.perform (ForwardedCall.run t index) = Except.error Error.LifecycleError := by
    unfold intermediate.perform
    cases hst : a.state with
    | Steady => exact absurd hst hs
    | Constructed => rfl
    | Ready => rfl
    | Finalized => rfl
  unfold intermediate_expand.perform
  simp only [ForwardedCall.target, hp1, hr]

theorem intermediate_expand.exec_cons_error (self s : intermediate_expand)
    (c : ForwardedCall) (cs : List ForwardedCall) (e : Error)
    (h : self.perform c = (s, some e)) : self.exec (c :: cs) = (s, some e) := by
  simp only [intermediate_expand.exec, h]

theorem intermediate_expand.calls_of_run_head (self : intermediate_expand)
    (hsize : 1 ≤ self.m_size) :
    (self.ExpandFactor.value ≤ self.m_size
      ∧ ∃ cs, self.calls_of_run = ForwardedCall.run Target.m_intermediate 0 :: cs)
    ∨ (self.m_size % self.ExpandFactor.value ≠ 0
      ∧ ∃ cs, self.calls_of_run = ForwardedCall.run Target.m_intermediate_extra 0 :: cs) := by
  have hF := self.ExpandFactor.value_pos
  rw [self.calls_of_run_eq]
  by_cases h : self.ExpandFactor.value ≤ self.m_size
  · left
    refine ⟨h, ?_⟩
    have hq : 1 ≤ self.m_size / self.ExpandFactor.value :=
      (Nat.one_le_div_iff hF).mpr h
    obtain ⟨q, hq1⟩ : ∃ q, self.m_size / self.ExpandFactor.value = q + 1 :=
      ⟨self.m_size / self.ExpandFactor.value - 1, by omega⟩
    rw [hq1, List.range_succ_eq_map, List.map_cons, Nat.zero_mul]
    exact ⟨_, rfl⟩
  · right
    have hlt : self.m_size < self.ExpandFactor.value := by omega
    have hmod : self.m_size % self.ExpandFactor.value = self.m_size := Nat.mod_eq_of_lt hlt
    have hdiv : self.m_size / self.ExpandFactor.value = 0 := Nat.div_eq_of_lt hlt
    refine ⟨by omega, ?_⟩
    obtain ⟨n, hn⟩ : ∃ n, self.m_size = n + 1 := ⟨self.m_size - 1, by omega⟩
    rw [hdiv, hmod, Nat.sub_self, List.range_zero, List.map_nil, List.nil_append, hn,
      List.range_succ_eq_map, List.map_cons]
    exact ⟨_, rfl⟩

/-- Claim C17 (counterexample): with an empty expandable parameter list `run()`
forwards no call, so on a freshly constructed object, on which `steady()` was
never called, it returns without signalling any error. -/
theorem C17_counterexample :
    (intermediate_expand.construct ⟨4, by decide⟩ 0).m_intermediate.map intermediate.state
        = some LifecycleState.Constructed
    ∧ (intermediate_expand.construct ⟨4, by decide⟩ 0).calls_of_run = []
    ∧ (intermediate_expand.construct ⟨4, by decide⟩ 0).run.2 = none := by
  have h : (intermediate_expand.construct ⟨4, by decide⟩ 0).calls_of_run = [] := by
    rw [intermediate_expand.calls_of_run_eq]; rfl
  refine ⟨rfl, h, ?_⟩
  unfold intermediate_expand.run
  rw [h]
  rfl

/-- Claim C17 (amended): on an object with at least one expandable parameter,
whose inner computations exist as constructed and none of which has reached
`Steady`, `run()` signals `LifecycleError` and leaves both inner computations,
hence their lifecycle state and every field a stencil run would mutate,
unchanged. -/
theorem C17_run_before_steady_signals_error (self : intermediate_expand)
    (hsize : 1 ≤ self.m_size)
    (hmain : self.m_intermediate.isSome = true)
    (hextra : self.m_size % self.ExpandFactor.value ≠ 0
      → self.m_intermediate_extra.isSome = true)
    (hnot : ∀ (t : Target) (a : intermediate),
      self.pointer t = some a → a.state ≠ LifecycleState.Steady) :
    self.run.2 = some Error.LifecycleError
    ∧ self.run.1.m_intermediate = self.m_intermediate
    ∧ self.run.1.m_intermediate_extra = self.m_intermediate_extra := by
  unfold intermediate_expand.run
  rcases self.calls_of_run_head hsize with ⟨_, cs, hcs⟩ | ⟨hmod, cs, hcs⟩
  · obtain ⟨a, ha⟩ := Option.isSome_iff_exists.mp hmain
    have hp : self.pointer Target.m_intermediate = some a := ha
    rw [hcs, self.exec_cons_error _ _ cs _
      (self.perform_run_not_steady _ 0 a hp (hnot _ a hp))]
    exact ⟨rfl, rfl, rfl⟩
  · obtain ⟨a, ha⟩ := Option.isSome_iff_exists.mp (hextra hmod)
    have hp : self.pointer Target.m_intermediate_extra = some a := ha
    rw [hcs, self.exec_cons_error _ _ cs _
      (self.perform_run_not_steady _ 0 a hp (hnot _ a hp))]
    exact ⟨rfl, rfl, rfl⟩

theorem C17_run_before_steady_signals_error_witness :
    (intermediate_expand.construct ⟨4, by decide⟩ 23).run.2 = some Error.LifecycleError
    ∧ (intermediate_expand.construct ⟨4, by decide⟩ 23).run.1.m_intermediate
        = (intermediate_expand.construct ⟨4, by decide⟩ 23).m_intermediate
    ∧ (intermediate_expand.construct ⟨4, by decide⟩ 23).run.1.m_intermediate_extra
        = (intermediate_expand.construct ⟨4, by decide⟩ 23).m_intermediate_extra :=
  C17_run_before_steady_signals_error (intermediate_expand.construct ⟨4, by decide⟩ 23)
    (by decide) (by rfl) (fun _ => by rfl)
    (by
      intro t a h
      cases t <;> (cases h; decide))


/-! ## Properties of the shallow-water driver -/

theorem shallow_water.time_loop_eq (NDEBUG : Bool) (total_time : Nat) :
    ∀ n current_time : Nat, current_time + n = total_time →
      shallow_water.time_loop NDEBUG total_time current_time
        = ((List.replicate n (shallow_water.time_step NDEBUG)).flatten, total_time) := by
  intro n
  induction n with
  | zero =>
      intro c hc
      unfold shallow_water.time_loop
      rw [if_neg (by omega)]
      simp only [List.replicate_zero, List.flatten_nil, Prod.mk.injEq, true_and]
      omega
  | succ n ih =>
      intro c hc
      unfold shallow_water.time_loop
      rw [if_pos (by omega), ih (c + 1) (by omega)]
      simp only [List.replicate_succ, List.flatten_cons]

/-- Claim C18: in the debug build (`NDEBUG` undefined) every iteration of the
time loop calls `finalize()` right after `run()`, so for `t = 2` the calls are
ready, steady, run, finalize, run, finalize and for every `t ≥ 2` a `run` follows
a `finalize`, while for `t = 0` no `finalize` is issued at all; in the `NDEBUG`
build the calls are ready, steady, `t` runs, finalize. -/
theorem C18_debug_build_runs_after_finalize :
    (shallow_water.test_lifecycle_calls false 2 0).1
        = [LifecycleCall.ready, LifecycleCall.steady, LifecycleCall.run,
           LifecycleCall.finalize, LifecycleCall.run, LifecycleCall.finalize]
    ∧ (∀ t : Nat,
        run_after_finalize (shallow_water.test_lifecycle_calls false (t + 2) 0).1 = true)
    ∧ (shallow_water.test_lifecycle_calls false 0 0).1
        = [LifecycleCall.ready, LifecycleCall.steady]
    ∧ (∀ t : Nat, (shallow_water.test_lifecycle_calls false t 0).1
        = [LifecycleCall.ready, LifecycleCall.steady]
          ++ (List.replicate t [LifecycleCall.run, LifecycleCall.finalize]).flatten)
    ∧ (∀ t : Nat, (shallow_water.test_lifecycle_calls true t 0).1
        = [LifecycleCall.ready, LifecycleCall.steady]
          ++ List.replicate t LifecycleCall.run ++ [LifecycleCall.finalize])
    ∧ (∀ t : Nat,
        run_after_finalize (shallow_water.test_lifecycle_calls true t 0).1 = false) := by
  have hdebug : ∀ t : Nat, (shallow_water.test_lifecycle_calls false t 0).1
      = [LifecycleCall.ready, LifecycleCall.steady]
        ++ (List.replicate t [LifecycleCall.run, LifecycleCall.finalize]).flatten := by
    intro t
    unfold shallow_water.test_lifecycle_calls
    simp only [shallow_water.time_loop_eq false t t 0 (by omega)]
    simp [shallow_water.time_step]
  have hrel : ∀ t : Nat, (shallow_water.test_lifecycle_calls true t 0).1
      = [LifecycleCall.ready, LifecycleCall.steady]
        ++ List.replicate t LifecycleCall.run ++ [LifecycleCall.finalize] := by
    intro t
    unfold shallow_water.test_lifecycle_calls
    simp only [shallow_water.time_loop_eq true t t 0 (by omega)]
    have : ∀ n : Nat, (List.replicate n (shallow_water.time_step true)).flatten
        = List.replicate n LifecycleCall.run := by
      intro n
      induction n with
      | zero => rfl
      | succ n ih =>
          rw [List.replicate_succ, List.flatten_cons, ih, List.replicate_succ]
          rfl
    simp [this]
  refine ⟨?_, ?_, ?_, hdebug, hrel, ?_⟩
  · rw [hdebug]; rfl
  · intro t
    rw [hdebug]
    simp [List.replicate_succ, run_after_finalize]
  · rw [hdebug]; rfl
  · intro t
    rw [hrel]
    have : ∀ n : Nat, run_after_finalize
        (List.replicate n LifecycleCall.run ++ [LifecycleCall.finalize]) = false := by
      intro n
      induction n with
      | zero => rfl
      | succ n ih => rw [List.replicate_succ, List.cons_append]; exact ih
    simpa [run_after_finalize] using this t


/-! ## Properties of `mic_storage` -/

/-- Claim C19: for every size, pointer and ownership value the external-pointer
constructor succeeds iff `own == ownership::ExternalCPU`; on success the object
holds the given pointer and ownership `ExternalCPU`, and otherwise the constructor
fails with the message
"ownership type must be ExternalCPU when using mic_storage". -/
theorem C19_external_constructor_needs_ExternalCPU (size external_ptr : Nat)
    (own : ownership) :
    ((∃ s, mic_storage.construct_external size external_ptr own = Except.ok s)
        ↔ own = ownership.ExternalCPU)
    ∧ mic_storage.construct_external size external_ptr own
        = (if own = ownership.ExternalCPU then
            Except.ok { m_cpu_ptr := external_ptr, m_ownership := ownership.ExternalCPU,
                        m_data_offset := none }
          else Except.error mic_storage.ownership_message)
    ∧ mic_storage.ownership_message
        = "ownership type must be ExternalCPU when using mic_storage" := by
  cases own
  · refine ⟨⟨?_, fun h => by cases h⟩, rfl, rfl⟩
    rintro ⟨_, h⟩
    cases h
  · refine ⟨⟨?_, fun h => by cases h⟩, rfl, rfl⟩
    rintro ⟨_, h⟩
    cases h
  · exact ⟨⟨fun _ => rfl, fun _ => ⟨_, rfl⟩⟩, rfl, rfl⟩

theorem div_lt_div_of_add_le (a b sz : Nat) (hsz : 0 < sz) (h : a + sz ≤ b) :
    a / sz < b / sz := by
  have h1 : (a + sz) / sz = a / sz + 1 := Nat.add_div_right a hsz
  have h2 : (a + sz) / sz ≤ b / sz := Nat.div_le_div_right h
  omega

theorem div_lt_div_of_lt_le (a b sz : Nat) (h1 : a < sz) (h2 : sz ≤ b) :
    a / sz < b / sz := by
  rw [Nat.div_eq_of_lt h1]
  exact Nat.div_pos h2 (by omega)

theorem mic_storage.s_data_offset_after_eq (n : Nat) :
    ∃ k, k ≤ 7 ∧ mic_storage.s_data_offset_after n = 64 * 2 ^ k := by
  induction n with
  | zero => exact ⟨0, by omega, rfl⟩
  | succ n ih =>
      obtain ⟨k, hk, h⟩ := ih
      simp only [mic_storage.s_data_offset_after, h]
      by_cases h7 : k = 7
      · exact ⟨0, by omega, by subst h7; rfl⟩
      · refine ⟨k + 1, by omega, ?_⟩
        have hk6 : k ≤ 6 := by omega
        interval_cases k <;> rfl

theorem mic_storage.offsets_differ (sizeof_data_t : Nat) (h1 : 1 ≤ sizeof_data_t)
    (h128 : sizeof_data_t ≤ 128) (n : Nat) :
    mic_storage.s_data_offset_after n / sizeof_data_t
      ≠ mic_storage.s_data_offset_after (n + 1) / sizeof_data_t := by
  obtain ⟨k, hk, h⟩ := mic_storage.s_data_offset_after_eq n
  simp only [mic_storage.s_data_offset_after, h]
  by_cases h7 : k = 7
  · subst h7
    have : mic_storage.next_data_offset (64 * 2 ^ 7) = 64 := rfl
    rw [this]
    exact Nat.ne_of_gt (div_lt_div_of_add_le 64 (64 * 2 ^ 7) sizeof_data_t h1
      (by norm_num; omega))
  · have hk6 : k ≤ 6 := by omega
    have hn : mic_storage.next_data_offset (64 * 2 ^ k) = 2 * (64 * 2 ^ k) := by
      interval_cases k <;> rfl
    have hpos : 1 ≤ 2 ^ k := Nat.one_le_two_pow
    rw [hn]
    apply Nat.ne_of_lt
    by_cases hs : sizeof_data_t ≤ 64 * 2 ^ k
    · exact div_lt_div_of_add_le _ _ _ h1 (by omega)
    · exact div_lt_div_of_lt_le _ _ _ (by omega) (by omega)

/-- The element offset a successful construction stores. -/
theorem mic_storage.construct_data_offset (sizeof_data_t : Nat)
    (posix_memalign : Nat → Nat → Option Nat) (s size : Nat) (c : mic_storage)
    (hc : (mic_storage.construct sizeof_data_t posix_memalign s size).1 = Except.ok c) :
    c.m_data_offset = some (s / sizeof_data_t) := by
  unfold mic_storage.construct at hc
  simp only at hc
  split at hc
  · cases hc
  · cases hc; rfl

/-- Claim C20: the element offset does not change for every allocation.  With
`sizeof(data_t) = 129` the first two sequential constructions both succeed, the
static byte offset advances from 64 to 128, and both objects get the element
offset `m_data_offset = 0` (64 / 129 = 128 / 129 = 0), against the constructor's
comment ("offset which changes for every allocation"); the same holds for every
`sizeof(data_t) > 128`, whereas for `1 ≤ sizeof(data_t) ≤ 128` every two
consecutive element offsets differ. -/
theorem C20_offset_repeats_for_large_elements :
    (mic_storage.construct 129 (fun _ _ => some 2097152)
        (mic_storage.s_data_offset_after 0) 10).1
      = Except.ok { m_cpu_ptr := 2097152, m_ownership := ownership.Full,
                    m_data_offset := some 0 }
    ∧ (mic_storage.construct 129 (fun _ _ => some 2097152)
        (mic_storage.s_data_offset_after 1) 10).1
      = Except.ok { m_cpu_ptr := 2097152, m_ownership := ownership.Full,
                    m_data_offset := some 0 }
    ∧ (mic_storage.construct 129 (fun _ _ => some 2097152)
        (mic_storage.s_data_offset_after 0) 10).2 = mic_storage.s_data_offset_after 1
    ∧ mic_storage.s_data_offset_after 0 = 64
    ∧ mic_storage.s_data_offset_after 1 = 128
    ∧ (∀ (sizeof_data_t : Nat) (posix_memalign : Nat → Nat → Option Nat)
        (size1 size2 : Nat) (a b : mic_storage),
        128 < sizeof_data_t →
        (mic_storage.construct sizeof_data_t posix_memalign
          (mic_storage.s_data_offset_after 0) size1).1 = Except.ok a →
        (mic_storage.construct sizeof_data_t posix_memalign
          (mic_storage.construct sizeof_data_t posix_memalign
            (mic_storage.s_data_offset_after 0) size1).2 size2).1 = Except.ok b →
        a.m_data_offset = some 0 ∧ b.m_data_offset = some 0)
    ∧ (∀ (sizeof_data_t n : Nat), 1 ≤ sizeof_data_t → sizeof_data_t ≤ 128 →
        mic_storage.s_data_offset_after n / sizeof_data_t
          ≠ mic_storage.s_data_offset_after (n + 1) / sizeof_data_t) := by
  refine ⟨rfl, rfl, rfl, rfl, rfl, ?_, ?_⟩
  · intro sizeof_data_t posix_memalign size1 size2 a b hs ha hb
    have hnext : (mic_storage.construct sizeof_data_t posix_memalign
        (mic_storage.s_data_offset_after 0) size1).2 = 128 := by
      unfold mic_storage.construct
      simp only
      split <;> rfl
    rw [hnext] at hb
    rw [mic_storage.construct_data_offset _ _ _ _ a ha,
      mic_storage.construct_data_offset _ _ _ _ b hb]
    have h0 : mic_storage.s_data_offset_after 0 = 64 := rfl
    rw [h0, Nat.div_eq_of_lt (by omega), Nat.div_eq_of_lt (by omega)]
    exact ⟨rfl, rfl⟩
  · intro sizeof_data_t n h1 h128
    exact mic_storage.offsets_differ sizeof_data_t h1 h128 n


/-! ## Properties of the icosahedral CUDA kernel -/

theorem to_uint_t_of_lt (w : Nat) (n : Int) (h0 : 0 ≤ n) (h : n < 2 ^ w) :
    to_uint_t w n = n :=
  Int.emod_eq_of_lt h0 h

/-- Below the number of blocks `nb = (n + B - 1) / B`, the start of block `b` is
inside the extent. -/
theorem block_start_lt (B n b : Nat) (hB : 1 ≤ B) (hb : b < (n + B - 1) / B) :
    b * B < n ∧ (b + 1) * B ≤ n + B - 1 := by
  have h1 : (b + 1) * B ≤ (n + B - 1) / B * B := Nat.mul_le_mul_right B hb
  have h2 : (n + B - 1) / B * B ≤ n + B - 1 := Nat.div_mul_le_self _ _
  have h3 : (b + 1) * B = b * B + B := Nat.succ_mul b B
  omega

/-- The blocks reach the end of the extent. -/
theorem blocks_cover (B n : Nat) (hB : 1 ≤ B) : n ≤ (n + B - 1) / B * B := by
  have h1 := Nat.lt_div_mul_add (a := n + B - 1) (b := B) (by omega)
  omega

/-- The block size `do_it_on_gpu` computes for a block below the number of
blocks, when `n + B - 1` does not wrap around. -/
theorem do_it_on_gpu.block_size_eq (w B n b : Nat) (hB : 1 ≤ B)
    (hwrap : n + B - 1 < 2 ^ w) (hb : b < (n + B - 1) / B) :
    do_it_on_gpu.block_size w (B : Int) (n : Int) (b : Int)
      = ((if (b + 1) * B < n then B else n - b * B : Nat) : Int) := by
  obtain ⟨h1, h2⟩ := block_start_lt B n b hB hb
  have h3 : (b + 1) * B = b * B + B := Nat.succ_mul b B
  have h4 : b + 1 ≤ (b + 1) * B := Nat.le_mul_of_pos_right _ (by omega)
  have hw : ((2 ^ w : Nat) : Int) = (2 : Int) ^ w := by push_cast; rfl
  have e1 : to_uint_t w ((b : Int) + 1) = ((b + 1 : Nat) : Int) := by
    rw [to_uint_t_of_lt w _ (by omega) (by rw [← hw]; omega)]
    push_cast; rfl
  have e2 : to_uint_t w (((b + 1 : Nat) : Int) * (B : Int)) = (((b + 1) * B : Nat) : Int) := by
    rw [← Nat.cast_mul]
    exact to_uint_t_of_lt w _ (by omega) (by rw [← hw]; omega)
  have e3 : to_uint_t w ((b : Int) * (B : Int)) = ((b * B : Nat) : Int) := by
    rw [← Nat.cast_mul]
    exact to_uint_t_of_lt w _ (by omega) (by rw [← hw]; omega)
  have e4 : to_uint_t w ((n : Int) - ((b * B : Nat) : Int)) = ((n - b * B : Nat) : Int) := by
    rw [to_uint_t_of_lt w _ (by omega) (by rw [← hw]; omega)]
    omega
  unfold do_it_on_gpu.block_size
  rw [e1, e2, e3, e4]
  by_cases hc : (b + 1) * B < n
  · rw [if_pos (by exact_mod_cast hc), if_pos hc]
  · rw [if_neg (by exact_mod_cast hc), if_neg hc]

/-- The number of blocks `operator()` computes, when `n + B - 1` does not wrap
around. -/
theorem execute_kernel_functor_cuda.number_of_blocks_eq (w B n : Nat) (hB : 1 ≤ B)
    (hwrap : n + B - 1 < 2 ^ w) :
    execute_kernel_functor_cuda.number_of_blocks w (n : Int) (B : Int)
      = (((n + B - 1) / B : Nat) : Int) := by
  have hw : ((2 ^ w : Nat) : Int) = (2 : Int) ^ w := by push_cast; rfl
  unfold execute_kernel_functor_cuda.number_of_blocks
  have e1 : to_uint_t w (to_uint_t w ((n : Int) + (B : Int)) - 1)
      = to_uint_t w ((n : Int) + (B : Int) - 1) := by
    unfold to_uint_t
    rw [Int.sub_emod, Int.emod_emod, ← Int.sub_emod]
  have e2 : to_uint_t w ((n : Int) + (B : Int) - 1) = ((n + B - 1 : Nat) : Int) := by
    rw [to_uint_t_of_lt w _ (by omega) (by rw [← hw]; omega)]
    omega
  rw [e1, e2]
  norm_cast


/-- The sizes of the first `k` tiles add up to `min (k * B) n`. -/
theorem tile_sizes_sum (B n : Nat) (hB : 1 ≤ B) :
    ∀ k : Nat, k ≤ (n + B - 1) / B →
      ((List.range k).map fun (b : Nat) => if (b + 1) * B < n then B else n - b * B).sum
        = min (k * B) n := by
  intro k
  induction k with
  | zero => intro _; simp
  | succ k ih =>
      intro hk
      obtain ⟨h1, _⟩ := block_start_lt B n k hB (by omega)
      have h3 : (k + 1) * B = k * B + B := Nat.succ_mul k B
      rw [List.range_succ, List.map_append, List.sum_append, ih (by omega), List.map_singleton,
        List.sum_singleton]
      by_cases hc : (k + 1) * B < n
      · rw [if_pos hc]; omega
      · rw [if_neg hc]; omega

/-- Claim C21: for a tile size `B ≥ 1` and an extent `nx` such that `nx + B - 1`
does not wrap around, `operator()` computes `nb = (nx + B - 1) / B` blocks; for
every block `b < nb` the block size of `do_it_on_gpu` is `B` if
`(b + 1) * B < nx` and `nx - b * B` otherwise, where `b * B < nx` (the
subtraction does not underflow) and the size lies in `[1, B]`; the sizes add up
to `nx`; a point lies in `[0, nx)` iff it lies in the interval
`[b * B, b * B + size b)` of some block, and it lies in at most one of them.  For
`nx = 4` the tiles of sizes 1, 2 and 4 cover the same points `0, 1, 2, 3`.  The
kernel computes `block_size_i` and `block_size_j` by this expression from
`(nx, blockIdx.x)` and `(ny, blockIdx.y)`. -/
theorem C21_tiles_partition_extent (w B nx : Nat) (hB : 1 ≤ B)
    (hwrap : nx + B - 1 < 2 ^ w) :
    execute_kernel_functor_cuda.number_of_blocks w (nx : Int) (B : Int)
        = (((nx + B - 1) / B : Nat) : Int)
    ∧ (∀ b : Nat, b < (nx + B - 1) / B →
        do_it_on_gpu.block_size w (B : Int) (nx : Int) (b : Int)
            = ((if (b + 1) * B < nx then B else nx - b * B : Nat) : Int)
        ∧ b * B < nx
        ∧ 1 ≤ do_it_on_gpu.block_size w (B : Int) (nx : Int) (b : Int)
        ∧ do_it_on_gpu.block_size w (B : Int) (nx : Int) (b : Int) ≤ (B : Int))
    ∧ ((List.range ((nx + B - 1) / B)).map fun (b : Nat) =>
          do_it_on_gpu.block_size w (B : Int) (nx : Int) (b : Int)).sum = (nx : Int)
    ∧ (∀ x : Nat, x < nx ↔
        ∃ b : Nat, b < (nx + B - 1) / B ∧ ((b * B : Nat) : Int) ≤ (x : Int)
          ∧ (x : Int) < ((b * B : Nat) : Int)
              + do_it_on_gpu.block_size w (B : Int) (nx : Int) (b : Int))
    ∧ (∀ x b1 b2 : Nat, b1 < (nx + B - 1) / B → b2 < (nx + B - 1) / B →
        (((b1 * B : Nat) : Int) ≤ (x : Int)
          ∧ (x : Int) < ((b1 * B : Nat) : Int)
              + do_it_on_gpu.block_size w (B : Int) (nx : Int) (b1 : Int)) →
        (((b2 * B : Nat) : Int) ≤ (x : Int)
          ∧ (x : Int) < ((b2 * B : Nat) : Int)
              + do_it_on_gpu.block_size w (B : Int) (nx : Int) (b2 : Int)) →
        b1 = b2)
    ∧ (∀ T ∈ [1, 2, 4],
        ((List.range ((4 + T - 1) / T)).flatMap fun (b : Nat) =>
          List.range' (b * T) (do_it_on_gpu.block_size 32 (T : Int) 4 (b : Int)).toNat)
        = [0, 1, 2, 3])
    ∧ (∀ (block_size_t : block_size) (n1 n2 : Int) (blockIdx threadIdx : dim3),
        (do_it_on_gpu w block_size_t n1 n2 blockIdx threadIdx).block_size_i
          = do_it_on_gpu.block_size w (block_size_t.i_size_t : Int) n1 blockIdx.x
        ∧ (do_it_on_gpu w block_size_t n1 n2 blockIdx threadIdx).block_size_j
          = do_it_on_gpu.block_size w (block_size_t.j_size_t : Int) n2 blockIdx.y) := by
  have hsize : ∀ b : Nat, b < (nx + B - 1) / B →
      do_it_on_gpu.block_size w (B : Int) (nx : Int) (b : Int)
        = ((if (b + 1) * B < nx then B else nx - b * B : Nat) : Int) :=
    fun b hb => do_it_on_gpu.block_size_eq w B nx b hB hwrap hb
  have hrange : ∀ b : Nat, b < (nx + B - 1) / B →
      b * B < nx ∧ 1 ≤ (if (b + 1) * B < nx then B else nx - b * B)
        ∧ (if (b + 1) * B < nx then B else nx - b * B) ≤ B
        ∧ b * B + (if (b + 1) * B < nx then B else nx - b * B) ≤ nx
        ∧ b * B + (if (b + 1) * B < nx then B else nx - b * B) ≤ (b + 1) * B := by
    intro b hb
    obtain ⟨h1, h2⟩ := block_start_lt B nx b hB hb
    have h3 : (b + 1) * B = b * B + B := Nat.succ_mul b B
    by_cases hc : (b + 1) * B < nx
    · rw [if_pos hc]; omega
    · rw [if_neg hc]; omega
  refine ⟨?_, ?_, ?_, ?_, ?_, ?_, ?_⟩
  · exact execute_kernel_functor_cuda.number_of_blocks_eq w B nx hB hwrap
  · intro b hb
    obtain ⟨h1, h2, h3, _, _⟩ := hrange b hb
    rw [hsize b hb]
    exact ⟨rfl, h1, by exact_mod_cast h2, by exact_mod_cast h3⟩
  · have e : ((List.range ((nx + B - 1) / B)).map fun (b : Nat) =>
          do_it_on_gpu.block_size w (B : Int) (nx : Int) (b : Int))
        = ((List.range ((nx + B - 1) / B)).map fun (b : Nat) =>
            if (b + 1) * B < nx then B else nx - b * B).map (fun (k : Nat) => (k : Int)) := by
      rw [List.map_map]
      apply List.map_congr_left
      intro b hb
      exact hsize b (List.mem_range.mp hb)
    rw [e, ← Nat.cast_list_sum, tile_sizes_sum B nx hB _ (le_refl _)]
    have := blocks_cover B nx hB
    rw [Nat.min_eq_right this]
  · intro x
    constructor
    · intro hx
      have hq : x / B < (nx + B - 1) / B := by
        have h1 : (x + B) / B = x / B + 1 := Nat.add_div_right x (by omega)
        have h2 : (x + B) / B ≤ (nx + B - 1) / B := Nat.div_le_div_right (by omega)
        omega
      have h3 : x / B * B ≤ x := Nat.div_mul_le_self x B
      have h4 : x < x / B * B + B := Nat.lt_div_mul_add (by omega)
      have h5 : (x / B + 1) * B = x / B * B + B := Nat.succ_mul _ B
      refine ⟨x / B, hq, by exact_mod_cast h3, ?_⟩
      rw [hsize _ hq]
      by_cases hc : (x / B + 1) * B < nx
      · rw [if_pos hc]; omega
      · rw [if_neg hc]; omega
    · rintro ⟨b, hb, _, h2⟩
      obtain ⟨_, _, _, h6, _⟩ := hrange b hb
      rw [hsize b hb] at h2
      omega
  · intro x b1 b2 hb1 hb2 h1 h2
    obtain ⟨_, _, _, _, h16⟩ := hrange b1 hb1
    obtain ⟨_, _, _, _, h26⟩ := hrange b2 hb2
    rw [hsize b1 hb1] at h1
    rw [hsize b2 hb2] at h2
    have e1 : x / B = b1 := Nat.div_eq_of_lt_le (by omega) (by omega)
    have e2 : x / B = b2 := Nat.div_eq_of_lt_le (by omega) (by omega)
    omega
  · decide
  · intro block_size_t n1 n2 blockIdx threadIdx
    unfold do_it_on_gpu
    simp only
    split_ifs <;> exact ⟨rfl, rfl⟩

theorem C21_tiles_partition_extent_witness :
    ((List.range ((5 + 2 - 1) / 2)).map fun (b : Nat) =>
        do_it_on_gpu.block_size 32 ((2 : Nat) : Int) ((5 : Nat) : Int) (b : Int)).sum
      = ((5 : Nat) : Int) :=
  (C21_tiles_partition_extent 32 2 5 (by decide) (by decide)).2.2.1


/-- Beyond the range of `int` the position wraps: with 32 bits, tiles of 2 x 2 and
`nx = 4294967294`, the thread `threadIdx.x = 1` of the block
`blockIdx.x = 1073741824` has the unsigned position `2147483649` and stores
`i = -2147483647`. -/
theorem do_it_on_gpu_int_wraps :
    (do_it_on_gpu 32 ⟨2, 2⟩ 4294967294 8 ⟨1073741824, 0, 0⟩ ⟨1, 0, 0⟩).i = -2147483647 := by
  decide

/-- Inside the thread range of an axis the offset lies within the region. -/
theorem claimed_offset_bounds (h : halo_descriptor) (i : Int)
    (hi : 0 ≤ i ∧ i < h.plus + (h.end_ - h.begin_ + 1) + h.minus) :
    0 ≤ claimed_offset h i ∧ claimed_offset h i < claimed_length h i := by
  simp only [claimed_offset, claimed_length, claimed_region]
  split_ifs <;> omega

/-- The region code is 0, 1 or 2. -/
theorem claimed_region_range (h : halo_descriptor) (i : Int) :
    0 ≤ claimed_region h i ∧ claimed_region h i ≤ 2 := by
  simp only [claimed_region]
  split_ifs <;> omega

/-- Two coordinates of the same region have the same region length, and are equal
if their offsets are. -/
theorem claimed_same_region (h : halo_descriptor) (i i2 : Int)
    (hr : claimed_region h i = claimed_region h i2) :
    claimed_length h i = claimed_length h i2
    ∧ (claimed_offset h i = claimed_offset h i2 → i = i2) := by
  simp only [claimed_offset, claimed_length, claimed_region] at hr ⊢
  split_ifs at hr ⊢ <;> omega

/-- The destination of a thread of `m_packZUKernel` in terms of its region
offsets. -/
theorem m_packZUKernel_locals_idst (d_msgsize : Int → Int)
    (halo0 halo1 halo2 : halo_descriptor) (field_index : Int)
    (blockIdx blockDim threadIdx : dim3) :
    (m_packZUKernel_locals d_msgsize halo0 halo1 halo2 field_index
        blockIdx blockDim threadIdx).idst
      = (m_packZUKernel_locals d_msgsize halo0 halo1 halo2 field_index
          blockIdx blockDim threadIdx).oa
        + (m_packZUKernel_locals d_msgsize halo0 halo1 halo2 field_index
            blockIdx blockDim threadIdx).ob
          * (m_packZUKernel_locals d_msgsize halo0 halo1 halo2 field_index
              blockIdx blockDim threadIdx).la
        + blockIdx.z
          * (m_packZUKernel_locals d_msgsize halo0 halo1 halo2 field_index
              blockIdx blockDim threadIdx).la
          * (m_packZUKernel_locals d_msgsize halo0 halo1 halo2 field_index
              blockIdx blockDim threadIdx).lb
        + field_index * d_msgsize (m_packZUKernel_locals d_msgsize halo0 halo1 halo2
            field_index blockIdx blockDim threadIdx).b_ind
    ∧ (m_packZUKernel_locals d_msgsize halo0 halo1 halo2 field_index
        blockIdx blockDim threadIdx).b_ind
      = (m_packZUKernel_locals d_msgsize halo0 halo1 halo2 field_index
          blockIdx blockDim threadIdx).ba
        + 3 * (m_packZUKernel_locals d_msgsize halo0 halo1 halo2 field_index
          blockIdx blockDim threadIdx).bb + 18
    ∧ (m_packZUKernel_locals d_msgsize halo0 halo1 halo2 field_index
        blockIdx blockDim threadIdx).idx = blockIdx.x * blockDim.x + threadIdx.x
    ∧ (m_packZUKernel_locals d_msgsize halo0 halo1 halo2 field_index
        blockIdx blockDim threadIdx).idy = blockIdx.y * blockDim.y + threadIdx.y
    ∧ (m_packZUKernel_locals d_msgsize halo0 halo1 halo2 field_index
        blockIdx blockDim threadIdx).idz = blockIdx.z := by
  refine ⟨rfl, ?_, rfl, rfl, rfl⟩
  simp only [m_packZUKernel_locals]
  omega

/-- Two in-range threads of `m_packZUKernel` that address the same cell of the
same buffer are at the same position; the offset inside the field's part of the
buffer lies in `[0, la * lb * minus2)`. -/
theorem m_packZUKernel_locals_inj (d_msgsize : Int → Int)
    (halo0 halo1 halo2 : halo_descriptor) (field_index : Int)
    (b1 d1 t1 b2 d2 t2 : dim3)
    (hlen0 : halo0.begin_ ≤ halo0.end_) (hlen1 : halo1.begin_ ≤ halo1.end_)
    (hx1 : 0 ≤ b1.x * d1.x + t1.x
      ∧ b1.x * d1.x + t1.x < halo0.plus + (halo0.end_ - halo0.begin_ + 1) + halo0.minus)
    (hy1 : 0 ≤ b1.y * d1.y + t1.y
      ∧ b1.y * d1.y + t1.y < halo1.plus + (halo1.end_ - halo1.begin_ + 1) + halo1.minus)
    (hz1 : 0 ≤ b1.z ∧ b1.z < halo2.minus)
    (hx2 : 0 ≤ b2.x * d2.x + t2.x
      ∧ b2.x * d2.x + t2.x < halo0.plus + (halo0.end_ - halo0.begin_ + 1) + halo0.minus)
    (hy2 : 0 ≤ b2.y * d2.y + t2.y
      ∧ b2.y * d2.y + t2.y < halo1.plus + (halo1.end_ - halo1.begin_ + 1) + halo1.minus) :
    (0 ≤ (m_packZUKernel_locals d_msgsize halo0 halo1 halo2 field_index b1 d1 t1).idst
          - field_index * d_msgsize
              (m_packZUKernel_locals d_msgsize halo0 halo1 halo2 field_index b1 d1 t1).b_ind
      ∧ (m_packZUKernel_locals d_msgsize halo0 halo1 halo2 field_index b1 d1 t1).idst
          - field_index * d_msgsize
              (m_packZUKernel_locals d_msgsize halo0 halo1 halo2 field_index b1 d1 t1).b_ind
        < (m_packZUKernel_locals d_msgsize halo0 halo1 halo2 field_index b1 d1 t1).la
          * (m_packZUKernel_locals d_msgsize halo0 halo1 halo2 field_index b1 d1 t1).lb
          * halo2.minus)
    ∧ ((m_packZUKernel_locals d_msgsize halo0 halo1 halo2 field_index b1 d1 t1).b_ind
          = (m_packZUKernel_locals d_msgsize halo0 halo1 halo2 field_index b2 d2 t2).b_ind →
        (m_packZUKernel_locals d_msgsize halo0 halo1 halo2 field_index b1 d1 t1).idst
          = (m_packZUKernel_locals d_msgsize halo0 halo1 halo2 field_index b2 d2 t2).idst →
        b1.x * d1.x + t1.x = b2.x * d2.x + t2.x
        ∧ b1.y * d1.y + t1.y = b2.y * d2.y + t2.y
        ∧ b1.z = b2.z) := by
  obtain ⟨ra1, rl1, ro1, _, rb1, rm1, rp1, _⟩ := m_packZUKernel_locals_regions d_msgsize
    halo0 halo1 halo2 field_index b1 d1 t1 (by omega) (by omega)
  obtain ⟨ra2, rl2, ro2, _, rb2, rm2, rp2, _⟩ := m_packZUKernel_locals_regions d_msgsize
    halo0 halo1 halo2 field_index b2 d2 t2 (by omega) (by omega)
  obtain ⟨hi1, hb1, _⟩ := m_packZUKernel_locals_idst d_msgsize halo0 halo1 halo2 field_index
    b1 d1 t1
  obtain ⟨hi2, hb2, _⟩ := m_packZUKernel_locals_idst d_msgsize halo0 halo1 halo2 field_index
    b2 d2 t2
  have oa1 := claimed_offset_bounds halo0 _ hx1
  have ob1 := claimed_offset_bounds halo1 _ hy1
  have oa2 := claimed_offset_bounds halo0 _ hx2
  have ob2 := claimed_offset_bounds halo1 _ hy2
  have ga1 := claimed_region_range halo0 (b1.x * d1.x + t1.x)
  have gb1 := claimed_region_range halo1 (b1.y * d1.y + t1.y)
  have ga2 := claimed_region_range halo0 (b2.x * d2.x + t2.x)
  have gb2 := claimed_region_range halo1 (b2.y * d2.y + t2.y)
  constructor
  · rw [hi1, rl1, ro1, rm1, rp1]
    have hbd := box_index_bounds _ _ halo2.minus _ _ b1.z oa1 ob1 hz1
    omega
  · intro hb hi
    rw [hb1, hb2, ra1, ra2, rb1, rb2] at hb
    have hra : claimed_region halo0 (b1.x * d1.x + t1.x)
        = claimed_region halo0 (b2.x * d2.x + t2.x) := by omega
    have hrb : claimed_region halo1 (b1.y * d1.y + t1.y)
        = claimed_region halo1 (b2.y * d2.y + t2.y) := by omega
    obtain ⟨hla, hxa⟩ := claimed_same_region halo0 _ _ hra
    obtain ⟨hlb, hxb⟩ := claimed_same_region halo1 _ _ hrb
    have hbi : (m_packZUKernel_locals d_msgsize halo0 halo1 halo2 field_index b1 d1 t1).b_ind
        = (m_packZUKernel_locals d_msgsize halo0 halo1 halo2 field_index b2 d2 t2).b_ind := by
      rw [hb1, hb2, ra1, ra2, rb1, rb2]; omega
    rw [hi1, hi2, hbi, rl1, ro1, rm1, rp1, rl2, ro2, rm2, rp2, ← hla, ← hlb] at hi
    rw [← hla] at oa2
    rw [← hlb] at ob2
    have hi3 : claimed_offset halo0 (b1.x * d1.x + t1.x)
        + claimed_offset halo1 (b1.y * d1.y + t1.y) * claimed_length halo0 (b1.x * d1.x + t1.x)
        + b1.z * claimed_length halo0 (b1.x * d1.x + t1.x)
          * claimed_length halo1 (b1.y * d1.y + t1.y)
        = claimed_offset halo0 (b2.x * d2.x + t2.x)
        + claimed_offset halo1 (b2.y * d2.y + t2.y) * claimed_length halo0 (b1.x * d1.x + t1.x)
        + b2.z * claimed_length halo0 (b1.x * d1.x + t1.x)
          * claimed_length halo1 (b1.y * d1.y + t1.y) := by
      omega
    obtain ⟨e1, e2, e3⟩ := box_index_inj _ _ _ _ _ _ _ _ oa1 oa2 ob1 ob2 hi3
    exact ⟨hxa e1, hxb e2, e3⟩


/-- What one thread of `m_packZUKernel` stores. -/
theorem m_packZUKernel_eq_some {V : Type} (d_data : Int → V) (d_msgsize : Int → Int)
    (halo0 halo1 halo2 : halo_descriptor) (nx ny field_index : Int)
    (blockIdx blockDim threadIdx : dim3) (s : Store V) :
    m_packZUKernel d_data d_msgsize halo0 halo1 halo2 nx ny field_index
        blockIdx blockDim threadIdx = some s ↔
      (blockIdx.x * blockDim.x + threadIdx.x < nx ∧ blockIdx.y * blockDim.y + threadIdx.y < ny)
      ∧ s.buffer = (m_packZUKernel_locals d_msgsize halo0 halo1 halo2 field_index
          blockIdx blockDim threadIdx).b_ind
      ∧ s.index = (m_packZUKernel_locals d_msgsize halo0 halo1 halo2 field_index
          blockIdx blockDim threadIdx).idst
      ∧ s.value = d_data (m_packZUKernel_locals d_msgsize halo0 halo1 halo2 field_index
          blockIdx blockDim threadIdx).isrc := by
  obtain ⟨sb, si, sv⟩ := s
  obtain ⟨_, _, hx, hy, _⟩ := m_packZUKernel_locals_idst d_msgsize halo0 halo1 halo2
    field_index blockIdx blockDim threadIdx
  unfold m_packZUKernel
  simp only [hx, hy]
  split
  · rename_i hg
    simp only [Option.some.injEq, Store.mk.injEq]
    constructor
    · rintro ⟨rfl, rfl, rfl⟩
      exact ⟨hg, rfl, rfl, rfl⟩
    · rintro ⟨_, h1, h2, h3⟩
      exact ⟨h1.symm, h2.symm, h3.symm⟩
  · rename_i hg
    constructor
    · intro h; cases h
    · rintro ⟨h, _⟩; exact absurd h hg

/-- Claim C23: for a fixed field index and a halo triple with `end ≥ begin` on
axes 0 and 1, two in-range threads of `m_packZUKernel` (`idx < nx`, `idy < ny`,
`idz < minus2`) with the same `(b_ind, idst)` are at the same position, and
`idst - field_index * d_msgsize[b_ind]` lies in `[0, la * lb * minus2)`; hence
within a launch of `m_packZU` no buffer cell is stored to twice. -/
theorem C23_m_packZU_invertible {V : Type} (d_data : Int → V) (d_msgsize : Int → Int)
    (halo : Nat → halo_descriptor) (f : Nat)
    (hlen0 : (halo 0).begin_ ≤ (halo 0).end_) (hlen1 : (halo 1).begin_ ≤ (halo 1).end_) :
    (∀ b1 d1 t1 b2 d2 t2 : dim3,
      (0 ≤ b1.x * d1.x + t1.x ∧ b1.x * d1.x + t1.x
          < (halo 0).plus + ((halo 0).end_ - (halo 0).begin_ + 1) + (halo 0).minus) →
      (0 ≤ b1.y * d1.y + t1.y ∧ b1.y * d1.y + t1.y
          < (halo 1).plus + ((halo 1).end_ - (halo 1).begin_ + 1) + (halo 1).minus) →
      (0 ≤ b1.z ∧ b1.z < (halo 2).minus) →
      (0 ≤ b2.x * d2.x + t2.x ∧ b2.x * d2.x + t2.x
          < (halo 0).plus + ((halo 0).end_ - (halo 0).begin_ + 1) + (halo 0).minus) →
      (0 ≤ b2.y * d2.y + t2.y ∧ b2.y * d2.y + t2.y
          < (halo 1).plus + ((halo 1).end_ - (halo 1).begin_ + 1) + (halo 1).minus) →
      (0 ≤ b2.z ∧ b2.z < (halo 2).minus) →
      (0 ≤ (m_packZUKernel_locals d_msgsize (halo 0) (halo 1) (halo 2) f b1 d1 t1).idst
            - (f : Int) * d_msgsize
                (m_packZUKernel_locals d_msgsize (halo 0) (halo 1) (halo 2) f b1 d1 t1).b_ind
        ∧ (m_packZUKernel_locals d_msgsize (halo 0) (halo 1) (halo 2) f b1 d1 t1).idst
            - (f : Int) * d_msgsize
                (m_packZUKernel_locals d_msgsize (halo 0) (halo 1) (halo 2) f b1 d1 t1).b_ind
          < (m_packZUKernel_locals d_msgsize (halo 0) (halo 1) (halo 2) f b1 d1 t1).la
            * (m_packZUKernel_locals d_msgsize (halo 0) (halo 1) (halo 2) f b1 d1 t1).lb
            * (halo 2).minus)
      ∧ ((m_packZUKernel_locals d_msgsize (halo 0) (halo 1) (halo 2) f b1 d1 t1).b_ind
            = (m_packZUKernel_locals d_msgsize (halo 0) (halo 1) (halo 2) f b2 d2 t2).b_ind →
          (m_packZUKernel_locals d_msgsize (halo 0) (halo 1) (halo 2) f b1 d1 t1).idst
            = (m_packZUKernel_locals d_msgsize (halo 0) (halo 1) (halo 2) f b2 d2 t2).idst →
          (m_packZUKernel_locals d_msgsize (halo 0) (halo 1) (halo 2) f b1 d1 t1).idx
            = (m_packZUKernel_locals d_msgsize (halo 0) (halo 1) (halo 2) f b2 d2 t2).idx
          ∧ (m_packZUKernel_locals d_msgsize (halo 0) (halo 1) (halo 2) f b1 d1 t1).idy
            = (m_packZUKernel_locals d_msgsize (halo 0) (halo 1) (halo 2) f b2 d2 t2).idy
          ∧ (m_packZUKernel_locals d_msgsize (halo 0) (halo 1) (halo 2) f b1 d1 t1).idz
            = (m_packZUKernel_locals d_msgsize (halo 0) (halo 1) (halo 2) f b2 d2 t2).idz))
    ∧ ((m_packZU_launch d_data d_msgsize halo halo f).map
        fun s => (s.buffer, s.index)).Nodup := by
  constructor
  · intro b1 d1 t1 b2 d2 t2 hx1 hy1 hz1 hx2 hy2 _
    exact m_packZUKernel_locals_inj d_msgsize (halo 0) (halo 1) (halo 2) f b1 d1 t1 b2 d2 t2
      hlen0 hlen1 hx1 hy1 hz1 hx2 hy2
  · have hz : ∀ m : Int, (m + 1 - 1).tdiv 1 = m := by intro m; simp
    simp only [m_packZU_launch, halo_descriptor.s_length_neg_one,
      halo_descriptor.s_length_zero, halo_descriptor.s_length_one, hz]
    apply nodup_map_launch
    intro b1 hb1 b2 hb2 t1 ht1 t2 ht2 s1 s2 h1 h2 hk
    rw [dim3.mem_indices] at hb1 hb2 ht1 ht2
    rw [m_packZUKernel_eq_some] at h1 h2
    simp only at hb1 hb2 ht1 ht2 h1 h2
    obtain ⟨⟨hg1x, hg1y⟩, hs1b, hs1i, _⟩ := h1
    obtain ⟨⟨hg2x, hg2y⟩, hs2b, hs2i, _⟩ := h2
    simp only [Prod.mk.injEq] at hk
    obtain ⟨_, hinj⟩ := m_packZUKernel_locals_inj d_msgsize (halo 0) (halo 1) (halo 2) f
      b1 { x := 32, y := 8, z := 1 } t1 b2 { x := 32, y := 8, z := 1 } t2 hlen0 hlen1
      ⟨by simp only; omega, by simp only; omega⟩ ⟨by simp only; omega, by simp only; omega⟩
      ⟨hb1.2.2.1, hb1.2.2.2⟩
      ⟨by simp only; omega, by simp only; omega⟩ ⟨by simp only; omega, by simp only; omega⟩
    obtain ⟨e1, e2, e3⟩ := hinj (by rw [← hs1b, ← hs2b]; exact hk.1)
      (by rw [← hs1i, ← hs2i]; exact hk.2)
    simp only at e1 e2
    constructor
    · apply dim3.eq_of_components <;> omega
    · apply dim3.eq_of_components <;> omega

theorem C23_m_packZU_invertible_witness :
    ((m_packZU_launch (fun (i : Int) => i) (fun _ => 1) (fun _ => one_cell_halo)
        (fun _ => one_cell_halo) 0).map fun s => (s.buffer, s.index)).Nodup :=
  (C23_m_packZU_invertible (fun (i : Int) => i) (fun _ => 1) (fun _ => one_cell_halo) 0
    (by decide) (by decide)).2


/-! ### Source reads -/

/-- The stores of `m_packXL` are those of its launches. -/
theorem m_packXL_stores_eq_launches {V : Type} (d_data_array : List (Int → V))
    (d_msgsize : Int → Int) (halo halo_d : Nat → halo_descriptor) :
    m_packXL_stores d_data_array d_msgsize halo halo_d
      = (m_packXL_launches d_data_array halo).map fun ls =>
          ls.flatMap fun l => l.stores d_msgsize halo_d := by
  unfold m_packXL_stores m_packXL_launches
  simp only
  split_ifs
  · rfl
  · rfl
  · rfl
  · simp only [Option.map_some', List.flatMap_assoc, Option.some.injEq]
    apply List.flatMap_congr
    intro i _
    cases d_data_array[i]? with
    | none => rfl
    | some d =>
        simp only [List.flatMap_cons, List.flatMap_nil, List.append_nil, XLLaunch.stores,
          m_packXL_launch]


/-- Claim C25: for every halo triple, message-size table and list of `n` fields,
`m_packXL_variadic` called with `Ids = 0, ..., n-1` performs the same launches
with the same arguments as `m_packXL` on the same list (same `blocks`,
`threads`, `ny`, `nz`, and field index `i` for field `d_i`), so the same stores,
and leaves the same buffer contents; both return without a launch in the same
cases and both fail in the same cases. -/
theorem C25_m_packXL_variadic_equivalent {V : Type} (d_datas : List (Int → V))
    (d_msgbufTab : Msgbuf V) (d_msgsize : Int → Int) (halo halo_d : Nat → halo_descriptor) :
    m_packXL_variadic_launches halo d_datas (List.range d_datas.length)
        = m_packXL_launches d_datas halo
    ∧ (m_packXL_variadic_launches halo d_datas (List.range d_datas.length)).map
          (fun ls => ls.flatMap fun l => l.stores d_msgsize halo_d)
        = m_packXL_stores d_datas d_msgsize halo halo_d
    ∧ m_packXL_variadic d_msgbufTab d_msgsize halo halo_d d_datas (List.range d_datas.length)
        = m_packXL d_datas d_msgbufTab d_msgsize halo halo_d
    ∧ (m_packXL_variadic_launches halo d_datas (List.range d_datas.length) = some []
        ↔ m_packXL_launches d_datas halo = some [])
    ∧ (m_packXL_variadic_launches halo d_datas (List.range d_datas.length) = none
        ↔ m_packXL_launches d_datas halo = none) := by
  have h : m_packXL_variadic_launches halo d_datas (List.range d_datas.length)
      = m_packXL_launches d_datas halo := by
    unfold m_packXL_variadic_launches m_packXL_launches call_kernel_XL
    simp only [List.range_eq_nil]
  refine ⟨h, ?_, ?_, by rw [h], by rw [h]⟩
  · rw [h, m_packXL_stores_eq_launches]
  · unfold m_packXL_variadic m_packXL
    rw [h, m_packXL_stores_eq_launches, Option.map_map]
    rfl


/-! ### The frame of the packing routines -/

/-- The buffer index of a thread of `m_packZUKernel` lies in 18..26. -/
theorem m_packZUKernel_locals_b_ind_range (d_msgsize : Int → Int)
    (halo0 halo1 halo2 : halo_descriptor) (field_index : Int) (b d t : dim3) :
    18 ≤ (m_packZUKernel_locals d_msgsize halo0 halo1 halo2 field_index b d t).b_ind
    ∧ (m_packZUKernel_locals d_msgsize halo0 halo1 halo2 field_index b d t).b_ind ≤ 26 := by
  simp only [m_packZUKernel_locals]
  split_ifs <;> omega

/-- Every store of a launch of `m_packXL` goes to buffer 12. -/
theorem m_packXL_launch_buffer {V : Type} (d_data : Int → V) (d_msgsize : Int → Int)
    (halo halo_d : Nat → halo_descriptor) (f : Nat) :
    ∀ s ∈ m_packXL_launch d_data d_msgsize halo halo_d f, s.buffer = 12 := by
  intro s hs
  unfold m_packXL_launch at hs
  obtain ⟨b, t, _, _, hk⟩ := (mem_launch _ _ _ s).mp hs
  exact ((m_packXLKernel_eq_some _ _ _ _ _ _ _ _ _ _ _ s).mp hk).2.1

/-- Every store of a launch of `m_packZU` goes to one of the buffers 18..26. -/
theorem m_packZU_launch_buffer {V : Type} (d_data : Int → V) (d_msgsize : Int → Int)
    (halo halo_d : Nat → halo_descriptor) (f : Nat) :
    ∀ s ∈ m_packZU_launch d_data d_msgsize halo halo_d f, 18 ≤ s.buffer ∧ s.buffer ≤ 26 := by
  intro s hs
  unfold m_packZU_launch at hs
  obtain ⟨b, t, _, _, hk⟩ := (mem_launch _ _ _ s).mp hs
  rw [((m_packZUKernel_eq_some _ _ _ _ _ _ _ _ _ _ _ s).mp hk).2.1]
  exact m_packZUKernel_locals_b_ind_range _ _ _ _ _ _ _ _

/-- Every store of `m_packXL` goes to buffer 12. -/
theorem m_packXL_stores_buffer {V : Type} (d_data_array : List (Int → V))
    (d_msgsize : Int → Int) (halo halo_d : Nat → halo_descriptor) (ss : List (Store V))
    (h : m_packXL_stores d_data_array d_msgsize halo halo_d = some ss) :
    ∀ s ∈ ss, s.buffer = 12 := by
  unfold m_packXL_stores at h
  simp only at h
  split_ifs at h
  · cases h; intro s hs; cases hs
  · cases h; intro s hs; cases hs
  · cases h
    intro s hs
    obtain ⟨i, _, hsi⟩ := List.mem_flatMap.mp hs
    split at hsi
    · exact m_packXL_launch_buffer _ _ _ _ _ s hsi
    · cases hsi

/-- Every store of `m_packZU` goes to one of the buffers 18..26. -/
theorem m_packZU_stores_buffer {V : Type} (d_data_array : List (Int → V))
    (d_msgsize : Int → Int) (halo halo_d : Nat → halo_descriptor) (ss : List (Store V))
    (h : m_packZU_stores d_data_array d_msgsize halo halo_d = some ss) :
    ∀ s ∈ ss, 18 ≤ s.buffer ∧ s.buffer ≤ 26 := by
  unfold m_packZU_stores at h
  simp only at h
  split_ifs at h
  · cases h; intro s hs; cases hs
  · cases h; intro s hs; cases hs
  · cases h
    intro s hs
    obtain ⟨i, _, hsi⟩ := List.mem_flatMap.mp hs
    split at hsi
    · exact m_packZU_launch_buffer _ _ _ _ _ s hsi
    · cases hsi

/-- Claim C26: every store of `m_packXL` goes to `msgbuf[12]` and every store of
`m_packZU` to one of `msgbuf[18..26]`, so after a call every cell of every other
buffer holds what it held before; the message-size table, the halo descriptors
and the source fields are read-only arguments of the routines; and the source
index `isrc` of a thread does not depend on the field index, the message-size
table or the field, so a thread that stores reads every field at the same
`isrc`. -/
theorem C26_packing_frame {V : Type} (d_data_array : List (Int → V))
    (d_msgbufTab : Msgbuf V) (d_msgsize : Int → Int) (halo halo_d : Nat → halo_descriptor) :
    (∀ ss, m_packXL_stores d_data_array d_msgsize halo halo_d = some ss →
        ∀ s ∈ ss, s.buffer = 12)
    ∧ (∀ msgbuf, m_packXL d_data_array d_msgbufTab d_msgsize halo halo_d = some msgbuf →
        ∀ b i : Int, b ≠ 12 → msgbuf b i = d_msgbufTab b i)
    ∧ (∀ ss, m_packZU_stores d_data_array d_msgsize halo halo_d = some ss →
        ∀ s ∈ ss, 18 ≤ s.buffer ∧ s.buffer ≤ 26)
    ∧ (∀ msgbuf, m_packZU d_data_array d_msgbufTab d_msgsize halo halo_d = some msgbuf →
        ∀ b i : Int, (b < 18 ∨ 26 < b) → msgbuf b i = d_msgbufTab b i)
    ∧ (∀ (d_msgsize2 : Int → Int) (field_index field_index2 : Int) (b d t : dim3),
        (m_packXLKernel_locals d_msgsize (halo_d 0) (halo_d 1) (halo_d 2) field_index b d t).isrc
          = (m_packXLKernel_locals d_msgsize2 (halo_d 0) (halo_d 1) (halo_d 2)
              field_index2 b d t).isrc
        ∧ (m_packZUKernel_locals d_msgsize (halo_d 0) (halo_d 1) (halo_d 2)
            field_index b d t).isrc
          = (m_packZUKernel_locals d_msgsize2 (halo_d 0) (halo_d 1) (halo_d 2)
              field_index2 b d t).isrc)
    ∧ (∀ (d_data d_data2 : Int → V) (n1 n2 field_index field_index2 : Int) (b d t : dim3)
        (s s2 : Store V),
        m_packXLKernel d_data d_msgsize (halo_d 0) (halo_d 1) (halo_d 2) n1 n2 field_index
          b d t = some s →
        m_packXLKernel d_data2 d_msgsize (halo_d 0) (halo_d 1) (halo_d 2) n1 n2 field_index2
          b d t = some s2 →
        ∃ isrc : Int, s.value = d_data isrc ∧ s2.value = d_data2 isrc)
    ∧ (∀ (d_data d_data2 : Int → V) (n1 n2 field_index field_index2 : Int) (b d t : dim3)
        (s s2 : Store V),
        m_packZUKernel d_data d_msgsize (halo_d 0) (halo_d 1) (halo_d 2) n1 n2 field_index
          b d t = some s →
        m_packZUKernel d_data2 d_msgsize (halo_d 0) (halo_d 1) (halo_d 2) n1 n2 field_index2
          b d t = some s2 →
        ∃ isrc : Int, s.value = d_data isrc ∧ s2.value = d_data2 isrc) := by
  refine ⟨?_, ?_, ?_, ?_, ?_, ?_, ?_⟩
  · exact fun ss h => m_packXL_stores_buffer d_data_array d_msgsize halo halo_d ss h
  · intro msgbuf h b i hb
    unfold m_packXL at h
    cases hss : m_packXL_stores d_data_array d_msgsize halo halo_d with
    | none => rw [hss] at h; cases h
    | some ss =>
        rw [hss] at h
        cases h
        apply Msgbuf.write_all_frame
        intro s hs hsb
        exact hb (hsb.1 ▸ m_packXL_stores_buffer d_data_array d_msgsize halo halo_d ss hss s hs)
  · exact fun ss h => m_packZU_stores_buffer d_data_array d_msgsize halo halo_d ss h
  · intro msgbuf h b i hb
    unfold m_packZU at h
    cases hss : m_packZU_stores d_data_array d_msgsize halo halo_d with
    | none => rw [hss] at h; cases h
    | some ss =>
        rw [hss] at h
        cases h
        apply Msgbuf.write_all_frame
        intro s hs hsb
        have := m_packZU_stores_buffer d_data_array d_msgsize halo halo_d ss hss s hs
        rw [hsb.1] at this
        omega
  · intro d_msgsize2 field_index field_index2 b d t
    exact ⟨rfl, rfl⟩
  · intro d_data d_data2 n1 n2 field_index field_index2 b d t s s2 h1 h2
    rw [m_packXLKernel_eq_some] at h1 h2
    exact ⟨_, h1.2.2.2, h2.2.2.2⟩
  · intro d_data d_data2 n1 n2 field_index field_index2 b d t s s2 h1 h2
    rw [m_packZUKernel_eq_some] at h1 h2
    exact ⟨_, h1.2.2.2, h2.2.2.2⟩

end GridTools
